import Mathlib

/-!
# bmpsteg: header validation, the 3/2/3 low-bit codec, `encode` and `decode`

A shallow embedding of `bmpsteg-lin.c`.

* Bytes are natural numbers; a `uint8_t` store keeps the value below 256.
  The scan-line buffer is declared `char *`; the masks and ors the program
  applies to it act on the bit pattern of the byte, which is what is modelled.
* `int` is a 32-bit two's complement integer: arithmetic on it is integer
  arithmetic followed by `wrap32`, `>>` on it is the arithmetic shift and `%`
  truncates towards zero. Overflow of a signed `int` is undefined in C; a
  product or sum that overflows has its value modulo `2^32` here. The one
  exception is the difference `(w * h) - FILE_SIZE_PIXELS` of the two capacity
  tests (`validateheadere` and `decode`), which is compared in the integers:
  that is the meaning of the source wherever the subtraction does not
  overflow.
* `#pragma pack(2)` makes `sizeof(BITMAPFILEHEADER) = 14` and
  `sizeof(BITMAPINFOHEADER) = 40`.
* The loops of `encode` and `decode` take a bound on the number of passes and
  return `none` when it does not suffice.
-/

namespace Bmpsteg

/-! ## Constants of the program -/

/-- Size of the scan-line buffer, `#define BUF_SIZE 8192`. -/
def BUF_SIZE : Nat := 8192

/-- Pixels reserved for the embedded length, `#define FILE_SIZE_PIXELS 2`. -/
def FILE_SIZE_PIXELS : Int := 2

/-- Compression tag of an uncompressed bitmap, `#define BI_RGB 0`. -/
def BI_RGB : Nat := 0

/-- Pass count for encoding, `#define HDR_CHECKE_PASS 16`. -/
def HDR_CHECKE_PASS : Int := 16

/-- Pass count for decoding, `#define HDR_CHECKD_PASS 15`. -/
def HDR_CHECKD_PASS : Int := 15

/-- The value of `sizeof(BITMAPFILEHEADER)` under `#pragma pack(2)`. -/
def sizeofFileHeader : Nat := 14

/-- The value of `sizeof(BITMAPINFOHEADER)`. -/
def sizeofInfoHeader : Nat := 40

/-! ## Machine integers -/

/-- Reduction of an integer to the range of a 32-bit two's complement `int`. -/
def wrap32 (x : Int) : Int := (x + 2147483648) % 4294967296 - 2147483648

/-- The C library `abs` on `int` (the minimum value maps to itself). -/
def abs32 (x : Int) : Int := wrap32 (if x < 0 then -x else x)

/-- Conversion of an `int` to `uint32_t`. -/
def toU32 (x : Int) : Int := x % 4294967296

/-! ## The codec: what `encode` and `decode` do to one pixel -/

/-- Blue channel after `*pC &= 0xf8; *pC |= b & 0x7;`. -/
def packBlue (blue b : Nat) : Nat := (blue &&& 0xf8) ||| (b &&& 0x7)

/-- Green channel after `*(pC + 1) &= 0xfc; *(pC + 1) |= (b >> 3) & 0x3;`. -/
def packGreen (green b : Nat) : Nat := (green &&& 0xfc) ||| ((b >>> 3) &&& 0x3)

/-- Red channel after `*(pC + 2) &= 0xf8; *(pC + 2) |= (b >> 5) & 0x7;`. -/
def packRed (red b : Nat) : Nat := (red &&& 0xf8) ||| ((b >>> 5) &&& 0x7)

/-- A pixel in file order: blue, green, red. -/
structure Pixel where
  blue : Nat
  green : Nat
  red : Nat
deriving DecidableEq

/-- The six statements with which `encode` embeds the byte `b` in a pixel. -/
def pack (b : Nat) (px : Pixel) : Pixel :=
  { blue := packBlue px.blue b, green := packGreen px.green b, red := packRed px.red b }

/-- The byte `decode` rebuilds from three channel bytes:
`d = 0; d |= *pC & 0x7; d |= (*(pC + 1) & 0x3) << 3; d |= (*(pC + 2) & 0x7) << 5;`. -/
def unpackBytes (blue green red : Nat) : Nat :=
  ((0 ||| (blue &&& 0x7)) ||| ((green &&& 0x3) <<< 3)) ||| ((red &&& 0x7) <<< 5)

/-- The byte `decode` rebuilds from a pixel. -/
def unpack (px : Pixel) : Nat := unpackBytes px.blue px.green px.red

/-! ## Headers and the validators -/

/-- Fields of `BITMAPFILEHEADER` followed by those of `BITMAPINFOHEADER`. -/
structure BmpHeader where
  bfType0 : Nat
  bfType1 : Nat
  bfSize : Nat
  bfReserved1 : Nat
  bfReserved2 : Nat
  bfOffBits : Nat
  biSize : Nat
  biWidth : Int
  biHeight : Int
  biPlanes : Nat
  biBitCount : Nat
  biCompression : Nat
  biSizeImage : Nat
  biXPelsPerMeter : Int
  biYPelsPerMeter : Int
  biClrUsed : Nat
  biClrImportant : Nat
deriving DecidableEq

/-- Every field of the header lies in the range of its C type. -/
def BmpHeader.InRange (h : BmpHeader) : Prop :=
  h.bfType0 < 256 ∧ h.bfType1 < 256 ∧ h.bfSize < 4294967296 ∧
  h.bfReserved1 < 65536 ∧ h.bfReserved2 < 65536 ∧ h.bfOffBits < 4294967296 ∧
  h.biSize < 4294967296 ∧
  (-2147483648 ≤ h.biWidth ∧ h.biWidth < 2147483648) ∧
  (-2147483648 ≤ h.biHeight ∧ h.biHeight < 2147483648) ∧
  h.biPlanes < 65536 ∧ h.biBitCount < 65536 ∧ h.biCompression < 4294967296 ∧
  h.biSizeImage < 4294967296 ∧
  (-2147483648 ≤ h.biXPelsPerMeter ∧ h.biXPelsPerMeter < 2147483648) ∧
  (-2147483648 ≤ h.biYPelsPerMeter ∧ h.biYPelsPerMeter < 2147483648) ∧
  h.biClrUsed < 4294967296 ∧ h.biClrImportant < 4294967296

instance (h : BmpHeader) : Decidable h.InRange := by
  unfold BmpHeader.InRange; infer_instance

/-- The struct `HDRCHECK`. -/
structure HDRCHECK where
  nValid : Int
  nBMPw : Int
  nBMPh : Int
  nBMPdlen : Int
  nStride : Int
  nPadding : Int
  dwFlags : Nat
deriving DecidableEq

/-- The initial value, `HDRCHECK hc = { 0 }`. -/
def HDRCHECK.zero : HDRCHECK :=
  { nValid := 0, nBMPw := 0, nBMPh := 0, nBMPdlen := 0, nStride := 0, nPadding := 0,
    dwFlags := 0 }

/-- One line `if(c) { hc.nValid++; hc.dwFlags |= bit; }`. -/
def HDRCHECK.check (hc : HDRCHECK) (c : Bool) (bit : Nat) : HDRCHECK :=
  if c then { hc with nValid := hc.nValid + 1, dwFlags := hc.dwFlags ||| bit } else hc

/-- The assignment `hc.nBMPw = w`. -/
def HDRCHECK.setW (hc : HDRCHECK) (w : Int) : HDRCHECK := { hc with nBMPw := w }

/-- The assignment `hc.nBMPh = h`. -/
def HDRCHECK.setH (hc : HDRCHECK) (h : Int) : HDRCHECK := { hc with nBMPh := h }

/-- The assignment `hc.nBMPdlen = n`. -/
def HDRCHECK.setDlen (hc : HDRCHECK) (n : Int) : HDRCHECK := { hc with nBMPdlen := n }

/-- The assignment `hc.nStride = s`. -/
def HDRCHECK.setStride (hc : HDRCHECK) (s : Int) : HDRCHECK := { hc with nStride := s }

/-- The assignment `hc.nPadding = n`. -/
def HDRCHECK.setPadding (hc : HDRCHECK) (n : Int) : HDRCHECK := { hc with nPadding := n }

/-- The stride expression `(((w * bitCount) + 31) & ~31) >> 3` on `int`. -/
def strideOf (w : Int) (bitCount : Nat) : Int :=
  (Int.land (wrap32 (wrap32 (w * (bitCount : Int)) + 31)) (~~~(31 : Int))) >>> 3

/-- The function `validateheadere(p, i, j)`. Overflow of a signed `int` is undefined in C.
The model gives an overflowing product or sum its value modulo `2^32` (`wrap32`), and it
compares `(hc.nBMPw * hc.nBMPh) - FILE_SIZE_PIXELS` with `j` in the integers, which is the
meaning of the source whenever that subtraction does not overflow. -/
def validateheadere (p : BmpHeader) (i j : Int) : HDRCHECK :=
  let hc := HDRCHECK.zero
  let hc := hc.check (p.bfType0 == 66) 1
  let hc := hc.check (p.bfType1 == 77) 2
  let hc := hc.check (p.bfReserved1 == 0) 4
  let hc := hc.check (p.bfOffBits == sizeofFileHeader + sizeofInfoHeader) 8
  let hc := hc.check (p.biSize == sizeofInfoHeader) 16
  let hc := hc.setW p.biWidth
  let hc := hc.setH (abs32 p.biHeight)
  let hc := hc.check (decide (hc.nBMPw > 0) && decide (hc.nBMPh > 0)) 32
  let hc := hc.check (p.biPlanes == 1) 64
  let hc := hc.check (p.biBitCount == 24) 128
  let hc := hc.check (p.biCompression == BI_RGB) 256
  let hc := hc.setDlen (wrap32 (i - sizeofFileHeader - sizeofInfoHeader))
  let hc := hc.check (p.biSizeImage == 0 || decide ((p.biSizeImage : Int) = toU32 hc.nBMPdlen)) 512
  let hc := hc.check (p.biClrUsed == 0) 1024
  let hc := hc.check (p.biClrImportant == 0) 2048
  let hc := hc.setStride (strideOf hc.nBMPw p.biBitCount)
  let hc := hc.check (decide (hc.nStride.tmod 4 = 0) && decide (hc.nStride < BUF_SIZE)) 4096
  let hc := hc.setPadding (wrap32 (hc.nStride - wrap32 (hc.nBMPw * 3)))
  let hc := hc.check (decide (hc.nPadding > -1)) 8192
  let hc := hc.check (decide (hc.nBMPdlen = wrap32 (hc.nBMPh * hc.nStride))) 16384
  let hc := hc.check
    (decide (wrap32 (hc.nBMPw * hc.nBMPh) - FILE_SIZE_PIXELS ≥ j)) 32768
  hc

/-- The function `validateheaderd(p, i)`. -/
def validateheaderd (p : BmpHeader) (i : Int) : HDRCHECK :=
  let hc := HDRCHECK.zero
  let hc := hc.check (p.bfType0 == 66) 1
  let hc := hc.check (p.bfType1 == 77) 2
  let hc := hc.check (p.bfReserved1 == 0) 4
  let hc := hc.check (p.bfOffBits == sizeofFileHeader + sizeofInfoHeader) 8
  let hc := hc.check (p.biSize == sizeofInfoHeader) 16
  let hc := hc.setW p.biWidth
  let hc := hc.setH (abs32 p.biHeight)
  let hc := hc.check (decide (wrap32 (hc.nBMPw * hc.nBMPh) > 2)) 32
  let hc := hc.check (p.biPlanes == 1) 64
  let hc := hc.check (p.biBitCount == 24) 128
  let hc := hc.check (p.biCompression == BI_RGB) 256
  let hc := hc.setDlen (wrap32 (i - sizeofFileHeader - sizeofInfoHeader))
  let hc := hc.check (p.biSizeImage == 0 || decide ((p.biSizeImage : Int) = toU32 hc.nBMPdlen)) 512
  let hc := hc.check (p.biClrUsed == 0) 1024
  let hc := hc.check (p.biClrImportant == 0) 2048
  let hc := hc.setStride (strideOf hc.nBMPw p.biBitCount)
  let hc := hc.check (decide (hc.nStride.tmod 4 = 0) && decide (hc.nStride < BUF_SIZE)) 4096
  let hc := hc.setPadding (wrap32 (hc.nStride - wrap32 (hc.nBMPw * 3)))
  let hc := hc.check (decide (hc.nPadding > -1)) 8192
  let hc := hc.check (decide (hc.nBMPdlen = wrap32 (hc.nBMPh * hc.nStride))) 16384
  hc

/-- Number of set bits among the low 32 bits, the width of `dwFlags`. -/
def popcount (n : Nat) : Nat := ((List.range 32).filter (fun k => n.testBit k)).length

/-- A 4 by 4, 24-bit, uncompressed bitmap header (stride 12, 48 bytes of pixels). -/
def hdr4x4 : BmpHeader :=
  { bfType0 := 66, bfType1 := 77, bfSize := 102, bfReserved1 := 0, bfReserved2 := 0,
    bfOffBits := 54, biSize := 40, biWidth := 4, biHeight := 4, biPlanes := 1,
    biBitCount := 24, biCompression := 0, biSizeImage := 48, biXPelsPerMeter := 2835,
    biYPelsPerMeter := 2835, biClrUsed := 0, biClrImportant := 0 }


/-- The sixteen conditions of `validateheadere`, in source order. -/
def checksE (p : BmpHeader) (i j : Int) : List Bool :=
  let w := p.biWidth
  let h := abs32 p.biHeight
  let dlen := wrap32 (i - sizeofFileHeader - sizeofInfoHeader)
  let stride := strideOf w p.biBitCount
  [ p.bfType0 == 66, p.bfType1 == 77, p.bfReserved1 == 0,
    p.bfOffBits == sizeofFileHeader + sizeofInfoHeader, p.biSize == sizeofInfoHeader,
    decide (w > 0) && decide (h > 0), p.biPlanes == 1, p.biBitCount == 24,
    p.biCompression == BI_RGB,
    p.biSizeImage == 0 || decide ((p.biSizeImage : Int) = toU32 dlen),
    p.biClrUsed == 0, p.biClrImportant == 0,
    decide (stride.tmod 4 = 0) && decide (stride < BUF_SIZE),
    decide (wrap32 (stride - wrap32 (w * 3)) > -1),
    decide (dlen = wrap32 (h * stride)),
    decide (wrap32 (w * h) - FILE_SIZE_PIXELS ≥ j) ]

/-- The fifteen conditions of `validateheaderd`, in source order. -/
def checksD (p : BmpHeader) (i : Int) : List Bool :=
  let w := p.biWidth
  let h := abs32 p.biHeight
  let dlen := wrap32 (i - sizeofFileHeader - sizeofInfoHeader)
  let stride := strideOf w p.biBitCount
  [ p.bfType0 == 66, p.bfType1 == 77, p.bfReserved1 == 0,
    p.bfOffBits == sizeofFileHeader + sizeofInfoHeader, p.biSize == sizeofInfoHeader,
    decide (wrap32 (w * h) > 2), p.biPlanes == 1, p.biBitCount == 24,
    p.biCompression == BI_RGB,
    p.biSizeImage == 0 || decide ((p.biSizeImage : Int) = toU32 dlen),
    p.biClrUsed == 0, p.biClrImportant == 0,
    decide (stride.tmod 4 = 0) && decide (stride < BUF_SIZE),
    decide (wrap32 (stride - wrap32 (w * 3)) > -1),
    decide (dlen = wrap32 (h * stride)) ]

/-- Running a list of conditions through `check` with the bits `2^k, 2^(k+1), ...`:
the pass count and the flag word that result. -/
def tally : List Bool → Nat → Int × Nat → Int × Nat
  | [], _, acc => acc
  | c :: cs, k, acc =>
    tally cs (k + 1) (if c then acc.1 + 1 else acc.1, if c then acc.2 ||| 2 ^ k else acc.2)

/-- The value is in the range of a C `int`. -/
def IsInt32 (x : Int) : Prop := -2147483648 ≤ x ∧ x < 2147483648

instance (x : Int) : Decidable (IsInt32 x) := by
  unfold IsInt32; infer_instance

/-- The sixteen conditions that `validateheadere` tests, as propositions. Products, sums and
differences are those of the program: values modulo `2^32`, except the difference compared
with the payload size. -/
def PassE (p : BmpHeader) (i j : Int) : Prop :=
  p.bfType0 = 66 ∧ p.bfType1 = 77 ∧ p.bfReserved1 = 0 ∧ p.bfOffBits = 54 ∧ p.biSize = 40 ∧
  (p.biWidth > 0 ∧ abs32 p.biHeight > 0) ∧
  p.biPlanes = 1 ∧ p.biBitCount = 24 ∧ p.biCompression = 0 ∧
  (p.biSizeImage = 0 ∨ (p.biSizeImage : Int) = toU32 (wrap32 (i - 54))) ∧
  p.biClrUsed = 0 ∧ p.biClrImportant = 0 ∧
  ((4 : Int) ∣ strideOf p.biWidth p.biBitCount ∧ strideOf p.biWidth p.biBitCount < 8192) ∧
  wrap32 (strideOf p.biWidth p.biBitCount - wrap32 (p.biWidth * 3)) ≥ 0 ∧
  wrap32 (abs32 p.biHeight * strideOf p.biWidth p.biBitCount) = wrap32 (i - 54) ∧
  wrap32 (p.biWidth * abs32 p.biHeight) - 2 ≥ j

/-- The fifteen conditions that `validateheaderd` tests, as propositions, in the arithmetic
of the program. -/
def PassD (p : BmpHeader) (i : Int) : Prop :=
  p.bfType0 = 66 ∧ p.bfType1 = 77 ∧ p.bfReserved1 = 0 ∧ p.bfOffBits = 54 ∧ p.biSize = 40 ∧
  wrap32 (p.biWidth * abs32 p.biHeight) > 2 ∧
  p.biPlanes = 1 ∧ p.biBitCount = 24 ∧ p.biCompression = 0 ∧
  (p.biSizeImage = 0 ∨ (p.biSizeImage : Int) = toU32 (wrap32 (i - 54))) ∧
  p.biClrUsed = 0 ∧ p.biClrImportant = 0 ∧
  ((4 : Int) ∣ strideOf p.biWidth p.biBitCount ∧ strideOf p.biWidth p.biBitCount < 8192) ∧
  wrap32 (strideOf p.biWidth p.biBitCount - wrap32 (p.biWidth * 3)) ≥ 0 ∧
  wrap32 (abs32 p.biHeight * strideOf p.biWidth p.biBitCount) = wrap32 (i - 54)

/-- The stride of a row of `w` pixels of `bitCount` bits in the integers: the bits of the
row rounded up to a multiple of 32, in bytes. -/
def strideZ (w : Int) (bitCount : Nat) : Int := (w * (bitCount : Int) + 31) / 32 * 4

/-- The sixteen acceptance conditions of encode mode as the specification lists them, read
in the integers: `width`, `|height|`, the file size `i` and the payload size `j` are
integers, and so are the stride and every product, sum and difference. -/
def AcceptE (p : BmpHeader) (i j : Int) : Prop :=
  p.bfType0 = 66 ∧ p.bfType1 = 77 ∧ p.bfReserved1 = 0 ∧ p.bfOffBits = 54 ∧ p.biSize = 40 ∧
  (p.biWidth > 0 ∧ (p.biHeight.natAbs : Int) > 0) ∧
  p.biPlanes = 1 ∧ p.biBitCount = 24 ∧ p.biCompression = 0 ∧
  (p.biSizeImage = 0 ∨ (p.biSizeImage : Int) = i - 54) ∧
  p.biClrUsed = 0 ∧ p.biClrImportant = 0 ∧
  ((4 : Int) ∣ strideZ p.biWidth p.biBitCount ∧ strideZ p.biWidth p.biBitCount < 8192) ∧
  strideZ p.biWidth p.biBitCount - 3 * p.biWidth ≥ 0 ∧
  (p.biHeight.natAbs : Int) * strideZ p.biWidth p.biBitCount = i - 54 ∧
  p.biWidth * (p.biHeight.natAbs : Int) - 2 ≥ j

/-- The fifteen acceptance conditions of decode mode as the specification lists them, read
in the integers: those of encode mode without the capacity condition, and with condition 6
replaced by `width * |height| > 2`. -/
def AcceptD (p : BmpHeader) (i : Int) : Prop :=
  p.bfType0 = 66 ∧ p.bfType1 = 77 ∧ p.bfReserved1 = 0 ∧ p.bfOffBits = 54 ∧ p.biSize = 40 ∧
  p.biWidth * (p.biHeight.natAbs : Int) > 2 ∧
  p.biPlanes = 1 ∧ p.biBitCount = 24 ∧ p.biCompression = 0 ∧
  (p.biSizeImage = 0 ∨ (p.biSizeImage : Int) = i - 54) ∧
  p.biClrUsed = 0 ∧ p.biClrImportant = 0 ∧
  ((4 : Int) ∣ strideZ p.biWidth p.biBitCount ∧ strideZ p.biWidth p.biBitCount < 8192) ∧
  strideZ p.biWidth p.biBitCount - 3 * p.biWidth ≥ 0 ∧
  (p.biHeight.natAbs : Int) * strideZ p.biWidth p.biBitCount = i - 54

/-- None of the `int` expressions that the validators form for the header overflows:
`biWidth * biBitCount + 31`, `abs(biHeight)`, `biWidth * 3`, `|biHeight| * stride` and
`biWidth * |biHeight|` are representable. -/
def NoOverflow (p : BmpHeader) : Prop :=
  IsInt32 (p.biWidth * (p.biBitCount : Int) + 31) ∧ p.biHeight ≠ -2147483648 ∧
  IsInt32 (p.biWidth * 3) ∧
  IsInt32 ((p.biHeight.natAbs : Int) * strideZ p.biWidth p.biBitCount) ∧
  IsInt32 (p.biWidth * (p.biHeight.natAbs : Int))

/-- Relation `Mutated p i q k`: the validator input `(q, k)` differs from `(p, i)` in exactly
one required header field, set to a different value, or in the measured file size. -/
inductive Mutated : BmpHeader → Int → BmpHeader → Int → Prop
  | bfType0 (p : BmpHeader) (i : Int) (v : Nat) :
      v ≠ p.bfType0 → Mutated p i { p with bfType0 := v } i
  | bfType1 (p : BmpHeader) (i : Int) (v : Nat) :
      v ≠ p.bfType1 → Mutated p i { p with bfType1 := v } i
  | bfReserved1 (p : BmpHeader) (i : Int) (v : Nat) :
      v ≠ p.bfReserved1 → Mutated p i { p with bfReserved1 := v } i
  | bfOffBits (p : BmpHeader) (i : Int) (v : Nat) :
      v ≠ p.bfOffBits → Mutated p i { p with bfOffBits := v } i
  | biSize (p : BmpHeader) (i : Int) (v : Nat) :
      v ≠ p.biSize → Mutated p i { p with biSize := v } i
  | biPlanes (p : BmpHeader) (i : Int) (v : Nat) :
      v ≠ p.biPlanes → Mutated p i { p with biPlanes := v } i
  | biBitCount (p : BmpHeader) (i : Int) (v : Nat) :
      v ≠ p.biBitCount → Mutated p i { p with biBitCount := v } i
  | biCompression (p : BmpHeader) (i : Int) (v : Nat) :
      v ≠ p.biCompression → Mutated p i { p with biCompression := v } i
  | biClrUsed (p : BmpHeader) (i : Int) (v : Nat) :
      v ≠ p.biClrUsed → Mutated p i { p with biClrUsed := v } i
  | biClrImportant (p : BmpHeader) (i : Int) (v : Nat) :
      v ≠ p.biClrImportant → Mutated p i { p with biClrImportant := v } i
  | fileSize (p : BmpHeader) (i k : Int) :
      k ≠ i → IsInt32 i → IsInt32 k → Mutated p i p k

/-- The header `hdr4x4` with a non-zero second reserved field. -/
def hdrReserved2 : BmpHeader := { hdr4x4 with bfReserved2 := 1 }

/-- The header `hdr4x4` declaring 32 bits per pixel. -/
def hdr32bpp : BmpHeader := { hdr4x4 with biBitCount := 32 }

/-- A header declaring a width of -3 pixels and a height of 715827883: the product
`width * |height|` is `-2^31 - 1`. -/
def hdrNeg : BmpHeader := { hdr4x4 with biWidth := -3, biHeight := 715827883 }

/-! ## Streams, the scan-line buffer and the two drivers

The scan-line buffer `pBMPbufin` is a block of `BUF_SIZE` bytes obtained from `malloc`; its
initial contents are a parameter. It is modelled as a function from offsets to bytes, and an
access at an offset outside the block is reported as `Outcome.fault`. Writes to the output
stream always succeed, so the return codes for a short `fwrite` are never produced. -/

/-- Contents of the scan-line buffer, by offset from `pBMPbufin`. -/
abbrev Buf := Nat → Nat

/-- How a run of `encode` or `decode` ends: it returns `code` having written `out`, or it
accesses the scan-line buffer outside its `BUF_SIZE` bytes having written `out`. -/
inductive Outcome where
  | ret (code : Int) (out : List Nat)
  | fault (out : List Nat)
deriving DecidableEq

/-- Conversion of an `int` to the 64-bit `size_t`. -/
def toSizeT (x : Int) : Nat := (x % 18446744073709551616).toNat

/-- Result of `fread(pBMPbufin, 1, n, fBMPin)` compared with `n`. -/
inductive ReadResult where
  | ok (buf : Buf) (rest : List Nat)
  | short
  | fault

/-- The call `fread(pBMPbufin, 1, n, fBMPin)`: it stores `min n (bytes left)` bytes at the
start of the buffer; the caller compares the count with `n`. -/
def freadRow (n : Nat) (src : List Nat) (buf : Buf) : ReadResult :=
  if BUF_SIZE < min n src.length then ReadResult.fault
  else if src.length < n then ReadResult.short
  else ReadResult.ok (fun k => if k < n then src.getD k 0 else buf k) (src.drop n)

/-- The bytes `fwrite(pBMPbufin, 1, n, fFileout)` appends to the output. -/
def rowBytes (n : Nat) (buf : Buf) : List Nat := (List.range n).map buf

/-- The six statements that embed `b` in the pixel at `pC = pBMPbufin + pc`. -/
def packAt (buf : Buf) (pc : Nat) (b : Nat) : Buf :=
  fun k =>
    if k = pc then packBlue (buf pc) b
    else if k = pc + 1 then packGreen (buf (pc + 1)) b
    else if k = pc + 2 then packRed (buf (pc + 2)) b
    else buf k

/-- The byte rebuilt from the pixel at `pC = pBMPbufin + pc`. -/
def unpackAt (buf : Buf) (pc : Nat) : Nat := unpackBytes (buf pc) (buf (pc + 1)) (buf (pc + 2))

/-- The bit pattern `mask = 0x29` of `encode`. -/
def mask : Nat := 0x29

/-- Low byte of `~mask`, which is what `dibyte |= ~mask` ors into the `uint8_t`. -/
def notMask : Nat := 0xD6

/-- Local state of `encode` inside its `while(hpels)` loop. `rnd` counts the calls of
`rand()` made so far. -/
structure EncState where
  wpels : Int
  hpels : Int
  pc : Nat
  buf : Buf
  src : List Nat
  data : List Nat
  state : Int
  dibyte : Nat
  rnd : Nat
  out : List Nat

/-- The `switch(state)` of the loop body: the next value of `state`, `dibyte`, the payload
stream and the count of `rand()` calls. -/
def encSwitch (nRF : Int) (rand : Nat → Nat) (s : EncState) : EncState :=
  if s.state = 0 then
    match s.data with
    | [] =>
      let st : Int := if nRF ≠ 0 then nRF else -1
      let d := rand s.rnd % 256
      let d := if st = 2 then d &&& mask else d
      let d := if st = 3 then d ||| notMask else d
      { s with state := st, dibyte := d, rnd := s.rnd + 1 }
    | b :: rest => { s with dibyte := b % 256, data := rest }
  else if s.state = 1 then { s with dibyte := rand s.rnd % 256, rnd := s.rnd + 1 }
  else if s.state = 2 then { s with dibyte := (rand s.rnd % 256) &&& mask, rnd := s.rnd + 1 }
  else if s.state = 3 then { s with dibyte := (rand s.rnd % 256) ||| notMask, rnd := s.rnd + 1 }
  else s

/-- One pass through the body of `while(hpels)` in `encode`: the next state, or the way the
run ends. `w` is `hc.nBMPw` and `n` is `hc.nStride` as a `size_t`. -/
def encBody (w : Int) (n : Nat) (nRF : Int) (rand : Nat → Nat) (s0 : EncState) :
    EncState ⊕ Outcome :=
  let s := encSwitch nRF rand s0
  if s.state > -1 ∧ ¬ (s.pc + 2 < BUF_SIZE) then Sum.inr (Outcome.fault s.out)
  else
    let buf := if s.state > -1 then packAt s.buf s.pc s.dibyte else s.buf
    let wpels := wrap32 (s.wpels - 1)
    if wpels ≠ 0 then Sum.inl { s with buf := buf, wpels := wpels, pc := s.pc + 3 }
    else
      let out := s.out ++ rowBytes n buf
      let hpels := wrap32 (s.hpels - 1)
      if hpels ≠ 0 then
        match freadRow n s.src buf with
        | ReadResult.fault => Sum.inr (Outcome.fault out)
        | ReadResult.short => Sum.inr (Outcome.ret (-9) out)
        | ReadResult.ok buf1 rest =>
          Sum.inl { s with buf := buf1, src := rest, wpels := w, hpels := hpels, pc := 0,
                           out := out }
      else Sum.inl { s with buf := buf, wpels := w, hpels := hpels, out := out }

/-- The loop `while(hpels) { ... } return 0;` of `encode`, run for at most `fuel` passes;
`none` when the passes do not suffice. -/
def encLoop (w : Int) (n : Nat) (nRF : Int) (rand : Nat → Nat) :
    Nat → EncState → Option Outcome
  | 0, s => if s.hpels = 0 then some (Outcome.ret 0 s.out) else none
  | fuel + 1, s =>
    if s.hpels = 0 then some (Outcome.ret 0 s.out)
    else
      match encBody w n nRF rand s with
      | Sum.inr o => some o
      | Sum.inl s1 => encLoop w n nRF rand fuel s1

/-- The function `encode`. The image data stream is `src` (positioned after the headers),
the payload stream is `data`, `rand k` is the value of the `k`-th call of `rand()`, and
`buf0` is the initial content of the scan-line buffer. -/
def encode (fuel : Nat) (hc : HDRCHECK) (nFS2 nRF : Int) (src data : List Nat)
    (rand : Nat → Nat) (buf0 : Buf) : Option Outcome :=
  let n := toSizeT hc.nStride
  let dfsw := (nFS2 % 65536).toNat
  let c0 := dfsw % 256
  let c1 := dfsw / 256
  let wpels := hc.nBMPw
  let hpels := hc.nBMPh
  match freadRow n src buf0 with
  | ReadResult.fault => some (Outcome.fault [])
  | ReadResult.short => some (Outcome.ret (-1) [])
  | ReadResult.ok buf src =>
    let buf := packAt buf 0 c0
    let wpels := wrap32 (wpels - 1)
    -- second pixel of the length
    let second : (Int × Int × Nat × Buf × List Nat × List Nat) ⊕ Outcome :=
      if wpels ≠ 0 then Sum.inl (wpels, hpels, 3, packAt buf 3 c1, src, [])
      else
        let hpels := wrap32 (hpels - 1)
        if hpels = 0 then Sum.inr (Outcome.ret (-2) [])
        else
          let out := rowBytes n buf
          match freadRow n src buf with
          | ReadResult.fault => Sum.inr (Outcome.fault out)
          | ReadResult.short => Sum.inr (Outcome.ret (-4) out)
          | ReadResult.ok buf src => Sum.inl (hc.nBMPw, hpels, 0, packAt buf 0 c1, src, out)
    match second with
    | Sum.inr o => some o
    | Sum.inl (wpels, hpels, pc, buf, src, out) =>
      let wpels := wrap32 (wpels - 1)
      if wpels ≠ 0 then
        encLoop hc.nBMPw n nRF rand fuel
          { wpels := wpels, hpels := hpels, pc := pc + 3, buf := buf, src := src, data := data,
            state := 0, dibyte := 0, rnd := 0, out := out }
      else
        let hpels := wrap32 (hpels - 1)
        if hpels = 0 then some (Outcome.ret (-5) out)
        else
          let out := out ++ rowBytes n buf
          match freadRow n src buf with
          | ReadResult.fault => some (Outcome.fault out)
          | ReadResult.short => some (Outcome.ret (-7) out)
          | ReadResult.ok buf src =>
            encLoop hc.nBMPw n nRF rand fuel
              { wpels := hc.nBMPw, hpels := hpels, pc := 0, buf := buf, src := src,
                data := data, state := 0, dibyte := 0, rnd := 0, out := out }

/-- Local state of `decode` inside its `while(hpels)` loop; `dfsw` is `dfs.w`. -/
structure DecState where
  wpels : Int
  hpels : Int
  pc : Nat
  buf : Buf
  src : List Nat
  dfsw : Nat
  out : List Nat

/-- The loop `while(hpels) { ... } return 0;` of `decode`, run for at most `fuel` passes;
`none` when the passes do not suffice. -/
def decLoop (w : Int) (n : Nat) : Nat → DecState → Option Outcome
  | 0, s => if s.hpels = 0 then some (Outcome.ret 0 s.out) else none
  | fuel + 1, s =>
    if s.hpels = 0 then some (Outcome.ret 0 s.out)
    else
      let wpels := wrap32 (s.wpels - 1)
      let next : (Int × Int × Nat × Buf × List Nat) ⊕ Outcome :=
        if wpels ≠ 0 then Sum.inl (wpels, s.hpels, s.pc + 3, s.buf, s.src)
        else
          let hpels := wrap32 (s.hpels - 1)
          if hpels = 0 then Sum.inr (Outcome.ret (-5) s.out)
          else
            match freadRow n s.src s.buf with
            | ReadResult.fault => Sum.inr (Outcome.fault s.out)
            | ReadResult.short => Sum.inr (Outcome.ret (-6) s.out)
            | ReadResult.ok buf src => Sum.inl (w, hpels, 0, buf, src)
      match next with
      | Sum.inr o => some o
      | Sum.inl (wpels, hpels, pc, buf, src) =>
        if ¬ (pc + 2 < BUF_SIZE) then some (Outcome.fault s.out)
        else
          let out := s.out ++ [unpackAt buf pc]
          let dfsw := (s.dfsw + 65535) % 65536
          if dfsw = 0 then some (Outcome.ret 0 out)
          else decLoop w n fuel
            { wpels := wpels, hpels := hpels, pc := pc, buf := buf, src := src, dfsw := dfsw,
              out := out }

/-- The function `decode`. The image data stream is `src` (positioned after the headers) and
`buf0` is the initial content of the scan-line buffer. As in `validateheadere`, the product
`hc.nBMPw * hc.nBMPh` has its value modulo `2^32` and the comparison of
`(hc.nBMPw * hc.nBMPh) - FILE_SIZE_PIXELS` with `dfs.w` is made in the integers. -/
def decode (fuel : Nat) (hc : HDRCHECK) (src : List Nat) (buf0 : Buf) : Option Outcome :=
  let n := toSizeT hc.nStride
  let wpels := hc.nBMPw
  let hpels := hc.nBMPh
  match freadRow n src buf0 with
  | ReadResult.fault => some (Outcome.fault [])
  | ReadResult.short => some (Outcome.ret (-1) [])
  | ReadResult.ok buf src =>
    let c0 := unpackAt buf 0
    let wpels := wrap32 (wpels - 1)
    let second : (Int × Int × Nat × Buf × List Nat × Nat) ⊕ Outcome :=
      if wpels ≠ 0 then Sum.inl (wpels, hpels, 3, buf, src, unpackAt buf 3)
      else
        let hpels := wrap32 (hpels - 1)
        if hpels = 0 then Sum.inr (Outcome.ret (-2) [])
        else
          match freadRow n src buf with
          | ReadResult.fault => Sum.inr (Outcome.fault [])
          | ReadResult.short => Sum.inr (Outcome.ret (-3) [])
          | ReadResult.ok buf src => Sum.inl (hc.nBMPw, hpels, 0, buf, src, unpackAt buf 0)
    match second with
    | Sum.inr o => some o
    | Sum.inl (wpels, hpels, pc, buf, src, c1) =>
      let dfsw := c0 + 256 * c1
      if wrap32 (hc.nBMPw * hc.nBMPh) - FILE_SIZE_PIXELS < (dfsw : Int) then
        some (Outcome.ret (-4) [])
      else
        decLoop hc.nBMPw n fuel
          { wpels := wpels, hpels := hpels, pc := pc, buf := buf, src := src, dfsw := dfsw,
            out := [] }

/-- Byte offset, in the pixel data, of the pixel with row-major index `k` in an image of
`w` pixels per row and `n` bytes per row. -/
def pixelOffset (w n k : Nat) : Nat := (k / w) * n + 3 * (k % w)

/-- The byte carried by the pixel with row-major index `k` of the pixel data `img`. -/
def unpackPixel (img : List Nat) (w n k : Nat) : Nat :=
  unpackBytes (img.getD (pixelOffset w n k) 0) (img.getD (pixelOffset w n k + 1) 0)
    (img.getD (pixelOffset w n k + 2) 0)

/-- A 2 by 2, 24-bit, uncompressed bitmap header (stride 8, 16 bytes of pixels). -/
def hdr2x2 : BmpHeader :=
  { hdr4x4 with bfSize := 70, biWidth := 2, biHeight := 2, biSizeImage := 16 }

/-- A header declaring a width of `2^30 + 1` pixels and a height of 4, for a file of 70
bytes: the products `width * 24` and `width * height` do not fit an `int`. -/
def hdrWide : BmpHeader :=
  { hdr4x4 with bfSize := 70, biWidth := 1073741825, biHeight := 4, biSizeImage := 16 }

/-- The `HDRCHECK` the validators compute for `hdrWide` and a file of 70 bytes. -/
def hcWide : HDRCHECK :=
  { nValid := 16, nBMPw := 1073741825, nBMPh := 4, nBMPdlen := 16, nStride := 4,
    nPadding := 1073741825, dwFlags := 65535 }

/-- Sixteen bytes of pixel data, all `0xFF`. -/
def dataWide : List Nat := List.replicate 16 255

/-- A scan-line buffer holding zeros. -/
def zeroBuf : Buf := fun _ => 0

/-- What `encode` writes for `hdrWide`, `dataWide`, the payload `[0x41]` and no fill. -/
def outWide : List Nat := [249, 252, 248, 248] ++ List.replicate 12 255

/-- The scan-line buffer of the run on `hdrWide` once both length bytes are embedded. -/
def bufWide : Buf :=
  packAt (packAt (fun k => if k < 4 then dataWide.getD k 0 else zeroBuf k) 0 1) 3 0

/-- State of the run on `hdrWide` with payload `[0x41]` when the loop is entered. -/
def sWide0 : EncState :=
  { wpels := 1073741823, hpels := 4, pc := 6, buf := bufWide, src := dataWide.drop 4,
    data := [0x41], state := 0, dibyte := 0, rnd := 0, out := [] }

/-- State of that run after the pass that embeds the payload byte. -/
def sWide1 : EncState :=
  { sWide0 with wpels := 1073741822, pc := 9, buf := packAt bufWide 6 0x41, data := [],
                dibyte := 0x41 }

/-- State of that run after the pass that finds the payload exhausted, with no fill. -/
def sWide2 : EncState :=
  { sWide1 with wpels := 1073741821, pc := 12, state := -1, dibyte := 0, rnd := 1 }

/-! ## Invariants of the encoder loop -/

/-- The bits of a channel byte that packing keeps: the top six bits of a green byte
(offset `1` modulo 3), the top five bits of a blue or red byte. -/
def topBits (o x : Nat) : Nat := x &&& (if o % 3 = 1 then 0xfc else 0xf8)

/-- Relation between a byte `x` of the encoder's row and the input byte `y` at offset `o`
of a row of `W` pixels: `x` is `y` or some packed byte, it has the top bits of `y`, and it
is `y` when the offset lies in the row padding. -/
def ByteOK (W o x y : Nat) : Prop :=
  (x = y ∨ x < 256) ∧ topBits o x = topBits o y ∧ (3 * W ≤ o → x = y)

/-- The scan-line buffer holds row `r` of the image `img`, up to packing. -/
def BufOK (img : List Nat) (n W r : Nat) (buf : Buf) : Prop :=
  ∀ o, o < n → ByteOK W o (buf o) (img.getD (r * n + o) 0)

/-- The output holds the first `r` rows of the image `img`, up to packing. -/
def OutOK (img : List Nat) (n W r : Nat) (out : List Nat) : Prop :=
  out.length = r * n ∧ ∀ k, k < r * n → ByteOK W (k % n) (out.getD k 0) (img.getD k 0)

/-- The encoder is at pixel `c` of row `r`: rows before `r` are written, row `r` is in the
buffer and the image stream is positioned after it. -/
def EncAt (img : List Nat) (n W H r c : Nat) (s : EncState) : Prop :=
  s.hpels = (H : Int) - r ∧ r < H ∧ s.wpels = (W : Int) - c ∧ c < W ∧ s.pc = 3 * c ∧
  OutOK img n W r s.out ∧ BufOK img n W r s.buf ∧ s.src = img.drop ((r + 1) * n) ∧
  (r + 1) * n ≤ img.length

/-- Invariant of the encoder loop: the encoder is at some pixel, or all rows are written. -/
def EncInv (img : List Nat) (n W H : Nat) (s : EncState) : Prop :=
  (∃ r c, EncAt img n W H r c s) ∨ (s.hpels = 0 ∧ OutOK img n W H s.out)

/-! ## Concrete inputs used in the evaluations -/

/-- The `HDRCHECK` that `validateheadere` computes for `hdr4x4` and a file of 102 bytes. -/
def hc4x4 : HDRCHECK :=
  { nValid := 16, nBMPw := 4, nBMPh := 4, nBMPdlen := 48, nStride := 12, nPadding := 0,
    dwFlags := 65535 }

/-- Pixel data of a 4 by 4 image: 48 bytes. -/
def data4x4 : List Nat :=
  [11, 48, 85, 122, 159, 196, 233, 14, 51, 88, 125, 162, 199, 236, 17, 54, 91, 128, 165, 202,
   239, 20, 57, 94, 131, 168, 205, 242, 23, 60, 97, 134, 171, 208, 245, 26, 63, 100, 137, 174,
   211, 248, 29, 66, 103, 140, 177, 214]

/-- What `encode` writes for `data4x4`, the payload `[0x41]` and no fill. -/
def out4x4 : List Nat :=
  [9, 48, 80, 120, 156, 192, 233, 12, 50, 88, 125, 162, 199, 236, 17, 54, 91, 128, 165, 202,
   239, 20, 57, 94, 131, 168, 205, 242, 23, 60, 97, 134, 171, 208, 245, 26, 63, 100, 137, 174,
   211, 248, 29, 66, 103, 140, 177, 214]

/-- The `HDRCHECK` that `validateheaderd` computes for `hdr2x2` and a file of 70 bytes. -/
def hc2x2 : HDRCHECK :=
  { nValid := 15, nBMPw := 2, nBMPh := 2, nBMPdlen := 16, nStride := 8, nPadding := 2,
    dwFlags := 32767 }

/-- Pixel data of a 2 by 2 image whose bytes are all zero: the embedded length is 0. -/
def data2x2 : List Nat := List.replicate 16 0

/-! ## Layout of the embedded bytes -/

/-- The byte the encoder embeds in the pixel with row-major index `q`, for `q` below
`2 + |P|`: the two bytes of the length, then the payload bytes. -/
def embedded (c0 c1 : Nat) (P : List Nat) (q : Nat) : Nat :=
  ([c0, c1] ++ P.map (fun b => b % 256)).getD q 0

/-- The output holds `r` rows in which every pixel below `2 + |P|` carries its byte. -/
def LayOut (W n c0 c1 : Nat) (P : List Nat) (r : Nat) (out : List Nat) : Prop :=
  out.length = r * n ∧
  ∀ q, q < r * W → q < 2 + P.length → unpackPixel out W n q = embedded c0 c1 P q

/-- In the buffer, which holds row `r`, every pixel before column `c` that lies below
`2 + |P|` carries its byte. -/
def LayBuf (W c0 c1 : Nat) (P : List Nat) (r c : Nat) (buf : Buf) : Prop :=
  ∀ c', c' < c → r * W + c' < 2 + P.length →
    unpackAt buf (3 * c') = embedded c0 c1 P (r * W + c')

/-- The encoder is about to process pixel `c` of row `r`, the pixels before it carry their
bytes, `H - 1 - r` rows are left in the image stream, and the payload stream holds the
bytes still to embed. -/
def LayAt (n W H c0 c1 : Nat) (P : List Nat) (r c : Nat) (s : EncState) : Prop :=
  s.hpels = (H : Int) - r ∧ r < H ∧ s.wpels = (W : Int) - c ∧ c < W ∧ s.pc = 3 * c ∧
  2 ≤ r * W + c ∧ LayOut W n c0 c1 P r s.out ∧ LayBuf W c0 c1 P r c s.buf ∧
  s.src.length = (H - 1 - r) * n ∧
  ((s.state = 0 ∧ s.data = P.drop (r * W + c - 2)) ∨
    (s.state ≠ 0 ∧ P.length ≤ r * W + c - 2))

/-- The geometry is that of a bitmap whose rows fit the scan-line buffer. -/
def Sane (W H n : Nat) : Prop :=
  1 ≤ W ∧ W < 2147483648 ∧ 1 ≤ H ∧ H < 2147483648 ∧ 3 * W ≤ n ∧ n ≤ BUF_SIZE

/-- The bytes carried by the pixels `2, ..., L + 1` of the pixel data `img`. -/
def payloadOf (img : List Nat) (W n L : Nat) : List Nat :=
  (List.range L).map (fun i => unpackPixel img W n (2 + i))

/-- The 16-bit length carried by pixels 0 (low byte) and 1 (high byte) of `img`. -/
def lengthOf (img : List Nat) (W n : Nat) : Nat :=
  unpackPixel img W n 0 + 256 * unpackPixel img W n 1

/-- The decoder has just read pixel `c` of row `r`, which is held in the buffer; it has
written the bytes of the pixels from 2 up to that pixel and has `L - (r * W + c - 1)` bytes
still to write. -/
def DecAt (img : List Nat) (n W H L r c : Nat) (s : DecState) : Prop :=
  s.hpels = (H : Int) - r ∧ r < H ∧ s.wpels = (W : Int) - c ∧ c < W ∧ s.pc = 3 * c ∧
  1 ≤ r * W + c ∧ (∀ o, o < n → s.buf o = img.getD (r * n + o) 0) ∧
  s.src = img.drop ((r + 1) * n) ∧ img.length = H * n ∧
  s.out = payloadOf img W n (r * W + c - 1) ∧
  s.dfsw + (r * W + c - 1) = L ∧ 1 ≤ s.dfsw ∧ L ≤ W * H - 2 ∧ L < 65536

/-! ## Further concrete headers -/

/-- A 1 by 1, 24-bit, uncompressed bitmap header (stride 4, 4 bytes of pixels). -/
def hdr1x1 : BmpHeader :=
  { hdr4x4 with bfSize := 58, biWidth := 1, biHeight := 1, biSizeImage := 4 }

/-- A header declaring a width of 3 pixels and a height of 715827883, for a file of 58
bytes: `width * height` is `2^31 + 1` and `height * stride` is `2^33 + 4`. -/
def hdrTall : BmpHeader :=
  { hdr4x4 with bfSize := 58, biWidth := 3, biHeight := 715827883, biSizeImage := 4 }

/-! ## The head of `decode` -/

/-- The statements of `decode` that precede its capacity test (lines 670 to 699): the state
in which the test of line 700 is reached, with the embedded length in `dfsw`, or the way the
run ends before. -/
def decHead (hc : HDRCHECK) (src : List Nat) (buf0 : Buf) : DecState ⊕ Outcome :=
  let n := toSizeT hc.nStride
  match freadRow n src buf0 with
  | ReadResult.fault => Sum.inr (Outcome.fault [])
  | ReadResult.short => Sum.inr (Outcome.ret (-1) [])
  | ReadResult.ok buf src =>
    let c0 := unpackAt buf 0
    let wpels := wrap32 (hc.nBMPw - 1)
    if wpels ≠ 0 then
      Sum.inl { wpels := wpels, hpels := hc.nBMPh, pc := 3, buf := buf, src := src,
                dfsw := c0 + 256 * unpackAt buf 3, out := [] }
    else
      let hpels := wrap32 (hc.nBMPh - 1)
      if hpels = 0 then Sum.inr (Outcome.ret (-2) [])
      else
        match freadRow n src buf with
        | ReadResult.fault => Sum.inr (Outcome.fault [])
        | ReadResult.short => Sum.inr (Outcome.ret (-3) [])
        | ReadResult.ok buf src =>
          Sum.inl { wpels := hc.nBMPw, hpels := hpels, pc := 0, buf := buf, src := src,
                    dfsw := c0 + 256 * unpackAt buf 0, out := [] }

/-! ## The bytes `encode` writes, for any geometry -/

/-- The byte the encoder embeds in a pixel once the payload is exhausted, computed from the
`t`-th value of `rand()`: the value itself (random fill), the value and `mask` (dark fill),
the value or `~mask` (light fill); `none` when nothing is embedded (no fill). -/
def fillByte (nRF : Int) (rand : Nat → Nat) (t : Nat) : Option Nat :=
  if nRF = 1 then some (rand t % 256)
  else if nRF = 2 then some ((rand t % 256) &&& mask)
  else if nRF = 3 then some ((rand t % 256) ||| notMask)
  else none

/-- The byte the encoder embeds in the pixel it processes as number `q`: the two bytes of
the length, the payload bytes, then the fill bytes. -/
def planned (c0 c1 : Nat) (P : List Nat) (nRF : Int) (rand : Nat → Nat) (q : Nat) :
    Option Nat :=
  if q < 2 + P.length then some (embedded c0 c1 P q) else fillByte nRF rand (q - (2 + P.length))

/-- The channel byte at row offset `o` after the byte `d` is embedded in its pixel. -/
def packChannel (o x d : Nat) : Nat :=
  if o % 3 = 0 then packBlue x d else if o % 3 = 1 then packGreen x d else packRed x d

/-- The output byte at offset `o` of row `r`, where the input byte is `x`, when the pixel
processed as number `q` receives the byte `pl q`. -/
def encByte (W : Nat) (pl : Nat → Option Nat) (r o x : Nat) : Nat :=
  if o / 3 < W then
    match pl (r * W + o / 3) with
    | some d => packChannel o x d
    | none => x
  else x

/-- The output holds the first `r` rows, each byte as `encByte` gives it. -/
def GenOut (img : List Nat) (n W : Nat) (pl : Nat → Option Nat) (r : Nat) (out : List Nat) :
    Prop :=
  out.length = r * n ∧
  ∀ r' o, r' < r → o < n →
    out.getD (r' * n + o) 0 = encByte W pl r' o (img.getD (r' * n + o) 0)

/-- The buffer holds row `r`: the bytes of the pixels before column `c` are as `encByte`
gives them, the other bytes are those of the input. -/
def GenBuf (img : List Nat) (n W : Nat) (pl : Nat → Option Nat) (r c : Nat) (buf : Buf) :
    Prop :=
  ∀ o, o < n →
    buf o = if o / 3 < c then encByte W pl r o (img.getD (r * n + o) 0)
      else img.getD (r * n + o) 0

/-- The `state`, the payload stream and the count of `rand()` calls when the encoder is
about to process pixel number `q` of the payload `P` with fill mode `nRF`. -/
def GenState (P : List Nat) (nRF : Int) (q : Nat) (s : EncState) : Prop :=
  (s.state = 0 ∧ s.data = P.drop (q - 2) ∧ q - 2 ≤ P.length ∧ s.rnd = 0) ∨
  (s.state = (if nRF ≠ 0 then nRF else -1) ∧ 2 + P.length < q ∧
    (nRF ≠ 0 → s.rnd = q - (2 + P.length)))

/-- The encoder is about to process pixel `c` of row `r`. -/
def GenAt (img : List Nat) (n W H : Nat) (c0 c1 : Nat) (P : List Nat) (nRF : Int)
    (rand : Nat → Nat) (r c : Nat) (s : EncState) : Prop :=
  s.hpels = (H : Int) - r ∧ r < H ∧ s.wpels = (W : Int) - c ∧ c < W ∧ s.pc = 3 * c ∧
  2 ≤ r * W + c ∧ GenOut img n W (planned c0 c1 P nRF rand) r s.out ∧
  GenBuf img n W (planned c0 c1 P nRF rand) r c s.buf ∧
  s.src = img.drop ((r + 1) * n) ∧ (r + 1) * n ≤ img.length ∧ GenState P nRF (r * W + c) s

/-- Invariant of the encoder loop for any geometry: the encoder is at some pixel, or all
`H` rows are written and were present in the input. -/
def GenInv (img : List Nat) (n W H : Nat) (c0 c1 : Nat) (P : List Nat) (nRF : Int)
    (rand : Nat → Nat) (s : EncState) : Prop :=
  (∃ r c, GenAt img n W H c0 c1 P nRF rand r c s) ∨
  (s.hpels = 0 ∧ GenOut img n W (planned c0 c1 P nRF rand) H s.out ∧ H * n ≤ img.length)

/-! ## Concrete inputs for the fill modes -/

/-- A sequence standing for the values returned by `rand()`. -/
def randSeq : Nat → Nat := fun t => 37 * t + 200

/-- What `encode` writes for `data4x4`, the payload `[0x41]`, dark fill and `randSeq`. -/
def out4x4Dark : List Nat :=
  [9, 48, 80, 120, 156, 192, 233, 12, 50, 88, 125, 160, 193, 237, 17, 48, 88, 128, 161, 200,
   233, 16, 57, 88, 129, 168, 200, 240, 20, 57, 97, 133, 168, 208, 244, 25, 57, 100, 136, 168,
   209, 249, 25, 65, 96, 136, 176, 208]

/-- Two states of the encoder loop that agree in everything but `dibyte` and the count of
`rand()` calls, in a run without fill (`state` is 0 or `-1`). -/
def NoFillSim (s t : EncState) : Prop :=
  s.wpels = t.wpels ∧ s.hpels = t.hpels ∧ s.pc = t.pc ∧ s.buf = t.buf ∧ s.src = t.src ∧
  s.data = t.data ∧ s.state = t.state ∧ s.out = t.out ∧ (s.state = 0 ∨ s.state = -1)

/-- Eight bytes of pixel data, all `0xFF`: two of the four rows that `hcWide` declares. -/
def dataShort : List Nat := List.replicate 8 255

/-! ## The encode branch of `main`

The model covers lines 152 to 302 of `main` for a command line that passed the tests of
lines 116 to 150 (mode `e`, six arguments, distinct file names, little-endian machine), apart
from the test of the fill letter, which is included. The input files exist, `fopen` and
`malloc` succeed and writes succeed. A file is the list of its bytes. -/

/-- The constant `#define MIN_DATA 12`. -/
def MIN_DATA : Nat := 12

/-- The constant `#define MAX_DATA_FILE 65535`. -/
def MAX_DATA_FILE : Int := 65535

/-- Value of the `k` bytes at offset `off`, least significant byte first. -/
def leBytes (bs : List Nat) (off : Nat) : Nat → Nat
  | 0 => 0
  | k + 1 => bs.getD off 0 + 256 * leBytes bs (off + 1) k

/-- The two header structs as the validators see them in the 54 bytes `main` has read, on a
little-endian machine under `#pragma pack(2)`. -/
def parseHeader (bs : List Nat) : BmpHeader :=
  { bfType0 := bs.getD 0 0, bfType1 := bs.getD 1 0, bfSize := leBytes bs 2 4,
    bfReserved1 := leBytes bs 6 2, bfReserved2 := leBytes bs 8 2, bfOffBits := leBytes bs 10 4,
    biSize := leBytes bs 14 4, biWidth := wrap32 (leBytes bs 18 4),
    biHeight := wrap32 (leBytes bs 22 4), biPlanes := leBytes bs 26 2,
    biBitCount := leBytes bs 28 2, biCompression := leBytes bs 30 4,
    biSizeImage := leBytes bs 34 4, biXPelsPerMeter := wrap32 (leBytes bs 38 4),
    biYPelsPerMeter := wrap32 (leBytes bs 42 4), biClrUsed := leBytes bs 46 4,
    biClrImportant := leBytes bs 50 4 }

/-- How the encode branch of `main` ends: with an exit status and, if the run leaves one,
the content of the output file; or with an access outside the scan-line buffer. -/
inductive MainResult where
  | exit (status : Int) (file : Option (List Nat))
  | fault

/-- The encode branch of `main`: `bmp` is the content of `<bmp in>`, `data` the content of
`<data in>`, `fill` the letter given as `<fill>`. The sizes are what `ftell` returns,
stored in an `int`. -/
def mainEncode (fuel : Nat) (bmp data : List Nat) (fill : Char) (rand : Nat → Nat)
    (buf0 : Buf) : Option MainResult :=
  if fill ≠ 'r' ∧ fill ≠ 'n' ∧ fill ≠ 'd' ∧ fill ≠ 'l' then some (MainResult.exit (-1) none)
  else
    let nFS1 := wrap32 bmp.length
    if nFS1 < 1 then some (MainResult.exit (-1) none)
    else
      let nFS2 := wrap32 data.length
      if nFS2 < 1 then some (MainResult.exit (-1) none)
      else if wrap32 (nFS1 * nFS2) = 0 ∨
          toSizeT nFS1 < sizeofFileHeader + sizeofInfoHeader + MIN_DATA ∨
          nFS2 > MAX_DATA_FILE then
        some (MainResult.exit (-1) none)
      else if (bmp.take (sizeofFileHeader + sizeofInfoHeader)).length
          ≠ sizeofFileHeader + sizeofInfoHeader then
        some (MainResult.exit (-1) none)
      else
        let hdr := bmp.take (sizeofFileHeader + sizeofInfoHeader)
        let hc := validateheadere (parseHeader hdr) nFS1 nFS2
        if hc.nValid ≠ HDR_CHECKE_PASS then some (MainResult.exit (-1) none)
        else
          let nRF : Int := if fill = 'r' then 1 else if fill = 'd' then 2
            else if fill = 'l' then 3 else 0
          match encode fuel hc nFS2 nRF (bmp.drop (sizeofFileHeader + sizeofInfoHeader)) data
              rand buf0 with
          | none => none
          | some (Outcome.fault _) => some MainResult.fault
          | some (Outcome.ret e out) =>
            if e ≠ 0 then some (MainResult.exit (-1) none)
            else some (MainResult.exit 0 (some (hdr ++ out)))

/-- The 54 header bytes of a 3 by 1, 24-bit, uncompressed bitmap of 66 bytes. -/
def bmpHead3x1 : List Nat :=
  [66, 77, 66, 0, 0, 0, 0, 0, 0, 0, 54, 0, 0, 0,
   40, 0, 0, 0, 3, 0, 0, 0, 1, 0, 0, 0, 1, 0, 24, 0, 0, 0, 0, 0, 12, 0, 0, 0,
   19, 11, 0, 0, 19, 11, 0, 0, 0, 0, 0, 0, 0, 0, 0, 0]

/-- The header that `bmpHead3x1` holds. -/
def hdr3x1 : BmpHeader :=
  { hdr4x4 with bfSize := 66, biWidth := 3, biHeight := 1, biSizeImage := 12 }

/-- One row of three pixels with its three bytes of padding. -/
def data3x1 : List Nat := [200, 100, 50, 200, 100, 50, 200, 100, 50, 0, 0, 0]

/-- What `encode` writes for `data3x1` and the payload `[0x41]`. -/
def out3x1 : List Nat := [201, 100, 48, 200, 100, 48, 201, 100, 50, 0, 0, 0]

/-- A file of `2^32 + 66` bytes: the 3 by 1 bitmap followed by `2^32` zero bytes. -/
def bmpHuge : List Nat := bmpHead3x1 ++ data3x1 ++ List.replicate 4294967296 0

/-- The `HDRCHECK` that `validateheadere` computes for `hdr3x1` and a file size of 66. -/
def hc3x1 : HDRCHECK :=
  { nValid := 16, nBMPw := 3, nBMPh := 1, nBMPdlen := 12, nStride := 12, nPadding := 3,
    dwFlags := 65535 }

/-! ## Streams that agree on the embedded bits -/

/-- A 3 by 2, 24-bit, uncompressed bitmap header (stride 12, 24 bytes of pixels). -/
def hdr3x2 : BmpHeader :=
  { hdr4x4 with bfSize := 78, biWidth := 3, biHeight := 2, biSizeImage := 24 }

theorem or_and_mask (x y m : Nat) : (x ||| y) &&& m = (x &&& m) ||| (y &&& m) := by
  apply Nat.eq_of_testBit_eq
  intro i
  simp only [Nat.testBit_and, Nat.testBit_or, Bool.and_or_distrib_right]

theorem and_and_disjoint (x m n : Nat) (h : m &&& n = 0) : (x &&& m) &&& n = 0 := by
  rw [Nat.and_assoc, h, Nat.and_zero]

theorem and_and_within (x m n : Nat) (h : m &&& n = m) : (x &&& m) &&& n = x &&& m := by
  rw [Nat.and_assoc, h]

theorem packBlue_low (c b : Nat) : packBlue c b &&& 0x7 = b &&& 0x7 := by
  unfold packBlue
  rw [or_and_mask, and_and_disjoint c _ _ (by decide), and_and_within b _ _ (by decide),
    Nat.zero_or]

theorem packGreen_low (c b : Nat) : packGreen c b &&& 0x3 = (b >>> 3) &&& 0x3 := by
  unfold packGreen
  rw [or_and_mask, and_and_disjoint c _ _ (by decide), and_and_within _ _ _ (by decide),
    Nat.zero_or]

theorem packRed_low (c b : Nat) : packRed c b &&& 0x7 = (b >>> 5) &&& 0x7 := by
  unfold packRed
  rw [or_and_mask, and_and_disjoint c _ _ (by decide), and_and_within _ _ _ (by decide),
    Nat.zero_or]

theorem packBlue_high (c b : Nat) : packBlue c b &&& 0xf8 = c &&& 0xf8 := by
  unfold packBlue
  rw [or_and_mask, and_and_disjoint b _ _ (by decide), and_and_within c _ _ (by decide),
    Nat.or_zero]

theorem packGreen_high (c b : Nat) : packGreen c b &&& 0xfc = c &&& 0xfc := by
  unfold packGreen
  rw [or_and_mask, and_and_disjoint (b >>> 3) 0x3 0xfc (by decide),
    and_and_within c 0xfc 0xfc (by decide), Nat.or_zero]

theorem packRed_high (c b : Nat) : packRed c b &&& 0xf8 = c &&& 0xf8 := by
  unfold packRed
  rw [or_and_mask, and_and_disjoint (b >>> 5) 0x7 0xf8 (by decide),
    and_and_within c 0xf8 0xf8 (by decide), Nat.or_zero]

set_option maxRecDepth 100000 in
theorem byte_reassemble_fin : ∀ b : Fin 256,
    ((0 ||| (b.val &&& 0x7)) ||| (((b.val >>> 3) &&& 0x3) <<< 3)) |||
      (((b.val >>> 5) &&& 0x7) <<< 5) = b.val := by
  decide

theorem byte_reassemble (b : Nat) (hb : b < 256) :
    ((0 ||| (b &&& 0x7)) ||| (((b >>> 3) &&& 0x3) <<< 3)) ||| (((b >>> 5) &&& 0x7) <<< 5) = b :=
  byte_reassemble_fin ⟨b, hb⟩

theorem unpackBytes_pack (b blue green red : Nat) (hb : b < 256) :
    unpackBytes (packBlue blue b) (packGreen green b) (packRed red b) = b := by
  unfold unpackBytes
  rw [packBlue_low, packGreen_low, packRed_low]
  exact byte_reassemble b hb

/-! ## The codec claims -/

/-- C2. Unpacking the pixel obtained by packing a byte `b` (any of the 256 values) into any
pixel returns `b`, where unpacking is
`(blue & 0x07) | ((green & 0x03) << 3) | ((red & 0x07) << 5)`. -/
theorem codec_inverse (b : Nat) (px : Pixel) (hb : b < 256) :
    unpack (pack b px) = b ∧
    unpack px = (px.blue &&& 0x07) ||| ((px.green &&& 0x03) <<< 3) ||| ((px.red &&& 0x07) <<< 5) := by
  refine ⟨unpackBytes_pack b px.blue px.green px.red hb, ?_⟩
  simp [unpack, unpackBytes]

/-- Witness for C2 at the byte `0x41` and the pixel `(200, 100, 50)`. -/
theorem codec_inverse_witness :
    (0x41 : Nat) < 256 ∧ unpack (pack 0x41 ⟨200, 100, 50⟩) = 0x41 :=
  ⟨by decide, (codec_inverse 0x41 ⟨200, 100, 50⟩ (by decide)).1⟩

/-- C3. Packing a byte `b` into a pixel yields
`blue' = (blue & 0xF8) | (b & 0x07)`, `green' = (green & 0xFC) | ((b >> 3) & 0x03)`,
`red' = (red & 0xF8) | ((b >> 5) & 0x07)`, and the top five bits of blue, the top six bits of
green and the top five bits of red are those of the input pixel. -/
theorem pack_definition_and_frame (b : Nat) (px : Pixel) :
    (pack b px).blue = (px.blue &&& 0xF8) ||| (b &&& 0x07) ∧
    (pack b px).green = (px.green &&& 0xFC) ||| ((b >>> 3) &&& 0x03) ∧
    (pack b px).red = (px.red &&& 0xF8) ||| ((b >>> 5) &&& 0x07) ∧
    (pack b px).blue &&& 0xF8 = px.blue &&& 0xF8 ∧
    (pack b px).green &&& 0xFC = px.green &&& 0xFC ∧
    (pack b px).red &&& 0xF8 = px.red &&& 0xF8 :=
  ⟨rfl, rfl, rfl, packBlue_high _ _, packGreen_high _ _, packRed_high _ _⟩

/-! ## Counting lemmas for the validators -/

theorem popcount_eq_card (n : Nat) :
    popcount n = ((Finset.range 32).filter (fun k => n.testBit k = true)).card := by
  unfold popcount
  simp only [Finset.card, Finset.filter, Finset.range, Multiset.range, Multiset.filter_coe,
    Multiset.coe_card]
  congr 1
  simp

theorem popcount_or_two_pow (f k : Nat) (hf : f < 2 ^ k) (hk : k < 32) :
    popcount (f ||| 2 ^ k) = popcount f + 1 := by
  rw [popcount_eq_card, popcount_eq_card]
  have hbit : f.testBit k = false := Nat.testBit_lt_two_pow hf
  have hset : (Finset.range 32).filter (fun j => (f ||| 2 ^ k).testBit j = true) =
      insert k ((Finset.range 32).filter (fun j => f.testBit j = true)) := by
    ext j
    simp only [Finset.mem_filter, Finset.mem_range, Finset.mem_insert, Nat.testBit_or,
      Nat.testBit_two_pow, Bool.or_eq_true, decide_eq_true_eq]
    constructor
    · rintro ⟨hj, h | h⟩
      · exact Or.inr ⟨hj, h⟩
      · exact Or.inl h.symm
    · rintro (h | ⟨hj, h⟩)
      · subst h; exact ⟨hk, Or.inr rfl⟩
      · exact ⟨hj, Or.inl h⟩
  rw [hset, Finset.card_insert_of_not_mem]
  simp [hbit]

theorem or_two_pow_eq_add (f k : Nat) (hf : f < 2 ^ k) : f ||| 2 ^ k = f + 2 ^ k := by
  rw [Nat.or_comm, Nat.add_comm]
  have h := Nat.mul_add_lt_is_or hf 1
  simpa using h.symm

/-- What `tally` returns when started below bit `k`: the flag word stays below the next
unused bit, the pass count is the number of set flags, it grows by the number of conditions
that hold, and the flag word is all ones exactly when it was all ones and every condition
holds. -/
theorem tally_spec (cs : List Bool) : ∀ (k : Nat) (v : Int) (f : Nat),
    f < 2 ^ k → k + cs.length ≤ 32 → v = popcount f →
    (tally cs k (v, f)).2 < 2 ^ (k + cs.length) ∧
    (tally cs k (v, f)).1 = popcount (tally cs k (v, f)).2 ∧
    (tally cs k (v, f)).1 = v + cs.count true ∧
    ((tally cs k (v, f)).2 = 2 ^ (k + cs.length) - 1 ↔
      (f = 2 ^ k - 1 ∧ ∀ c ∈ cs, c = true)) := by
  induction cs with
  | nil =>
    intro k v f hf _ hv
    simp [tally, hf, hv]
  | cons c cs ih =>
    intro k v f hf hk hv
    have hlen : k + (c :: cs).length = (k + 1) + cs.length := by
      simp only [List.length_cons]; omega
    have hpow : 2 ^ (k + 1) = 2 ^ k + 2 ^ k := by rw [pow_succ]; omega
    have hpos : 0 < 2 ^ k := Nat.pos_pow_of_pos k (by decide)
    cases c with
    | false =>
      have h := ih (k + 1) v f (by omega) (by simp only [List.length_cons] at hk; omega) hv
      simp only [tally, Bool.false_eq_true, if_false, hlen]
      refine ⟨h.1, h.2.1, ?_, ?_⟩
      · rw [h.2.2.1]; simp
      · rw [h.2.2.2]
        constructor
        · rintro ⟨h1, _⟩; omega
        · rintro ⟨_, h2⟩
          exact absurd (h2 false (List.mem_cons_self _ _)) (by decide)
    | true =>
      have hor := or_two_pow_eq_add f k hf
      have h := ih (k + 1) (v + 1) (f ||| 2 ^ k) (by omega)
        (by simp only [List.length_cons] at hk; omega)
        (by rw [popcount_or_two_pow f k hf (by simp only [List.length_cons] at hk; omega), hv]
            push_cast; ring)
      simp only [tally, if_true, hlen]
      refine ⟨h.1, h.2.1, ?_, ?_⟩
      · rw [h.2.2.1]; simp; ring
      · rw [h.2.2.2]
        constructor
        · rintro ⟨h1, h2⟩
          refine ⟨by omega, ?_⟩
          intro c hc
          rcases List.mem_cons.1 hc with rfl | hc
          · rfl
          · exact h2 c hc
        · rintro ⟨h1, h2⟩
          exact ⟨by omega, fun c hc => h2 c (List.mem_cons_of_mem _ hc)⟩

/-! ## The validators as tallies -/

@[simp] theorem check_nValid (hc : HDRCHECK) (c : Bool) (bit : Nat) :
    (hc.check c bit).nValid = if c then hc.nValid + 1 else hc.nValid := by
  cases c <;> rfl

@[simp] theorem check_dwFlags (hc : HDRCHECK) (c : Bool) (bit : Nat) :
    (hc.check c bit).dwFlags = if c then hc.dwFlags ||| bit else hc.dwFlags := by
  cases c <;> rfl

@[simp] theorem check_nBMPw (hc : HDRCHECK) (c : Bool) (bit : Nat) :
    (hc.check c bit).nBMPw = hc.nBMPw := by
  cases c <;> rfl

@[simp] theorem check_nBMPh (hc : HDRCHECK) (c : Bool) (bit : Nat) :
    (hc.check c bit).nBMPh = hc.nBMPh := by
  cases c <;> rfl

@[simp] theorem check_nBMPdlen (hc : HDRCHECK) (c : Bool) (bit : Nat) :
    (hc.check c bit).nBMPdlen = hc.nBMPdlen := by
  cases c <;> rfl

@[simp] theorem check_nStride (hc : HDRCHECK) (c : Bool) (bit : Nat) :
    (hc.check c bit).nStride = hc.nStride := by
  cases c <;> rfl

@[simp] theorem check_nPadding (hc : HDRCHECK) (c : Bool) (bit : Nat) :
    (hc.check c bit).nPadding = hc.nPadding := by
  cases c <;> rfl

theorem validateheadere_nBMPw (p : BmpHeader) (i j : Int) :
    (validateheadere p i j).nBMPw = p.biWidth := by
  simp [validateheadere, HDRCHECK.setW, HDRCHECK.setH, HDRCHECK.setDlen, HDRCHECK.setStride,
    HDRCHECK.setPadding]

theorem validateheadere_nBMPh (p : BmpHeader) (i j : Int) :
    (validateheadere p i j).nBMPh = abs32 p.biHeight := by
  simp [validateheadere, HDRCHECK.setW, HDRCHECK.setH, HDRCHECK.setDlen, HDRCHECK.setStride,
    HDRCHECK.setPadding]

theorem validateheadere_nStride (p : BmpHeader) (i j : Int) :
    (validateheadere p i j).nStride = strideOf p.biWidth p.biBitCount := by
  simp [validateheadere, HDRCHECK.setW, HDRCHECK.setH, HDRCHECK.setDlen, HDRCHECK.setStride,
    HDRCHECK.setPadding]

theorem validateheadere_nPadding (p : BmpHeader) (i j : Int) :
    (validateheadere p i j).nPadding =
      wrap32 (strideOf p.biWidth p.biBitCount - wrap32 (p.biWidth * 3)) := by
  simp [validateheadere, HDRCHECK.setW, HDRCHECK.setH, HDRCHECK.setDlen, HDRCHECK.setStride,
    HDRCHECK.setPadding]

theorem validateheaderd_nBMPw (p : BmpHeader) (i : Int) :
    (validateheaderd p i).nBMPw = p.biWidth := by
  simp [validateheaderd, HDRCHECK.setW, HDRCHECK.setH, HDRCHECK.setDlen, HDRCHECK.setStride,
    HDRCHECK.setPadding]

theorem validateheaderd_nBMPh (p : BmpHeader) (i : Int) :
    (validateheaderd p i).nBMPh = abs32 p.biHeight := by
  simp [validateheaderd, HDRCHECK.setW, HDRCHECK.setH, HDRCHECK.setDlen, HDRCHECK.setStride,
    HDRCHECK.setPadding]

theorem validateheaderd_nStride (p : BmpHeader) (i : Int) :
    (validateheaderd p i).nStride = strideOf p.biWidth p.biBitCount := by
  simp [validateheaderd, HDRCHECK.setW, HDRCHECK.setH, HDRCHECK.setDlen, HDRCHECK.setStride,
    HDRCHECK.setPadding]

theorem validateheadere_tally (p : BmpHeader) (i j : Int) :
    (validateheadere p i j).nValid = (tally (checksE p i j) 0 (0, 0)).1 ∧
    (validateheadere p i j).dwFlags = (tally (checksE p i j) 0 (0, 0)).2 := by
  simp only [validateheadere, checksE, tally, check_nValid, check_dwFlags, check_nBMPw,
    check_nBMPh, check_nBMPdlen, check_nStride, check_nPadding, HDRCHECK.zero, HDRCHECK.setW,
    HDRCHECK.setH, HDRCHECK.setDlen, HDRCHECK.setStride, HDRCHECK.setPadding]
  exact ⟨trivial, rfl⟩

theorem validateheaderd_tally (p : BmpHeader) (i : Int) :
    (validateheaderd p i).nValid = (tally (checksD p i) 0 (0, 0)).1 ∧
    (validateheaderd p i).dwFlags = (tally (checksD p i) 0 (0, 0)).2 := by
  simp only [validateheaderd, checksD, tally, check_nValid, check_dwFlags, check_nBMPw,
    check_nBMPh, check_nBMPdlen, check_nStride, check_nPadding, HDRCHECK.zero, HDRCHECK.setW,
    HDRCHECK.setH, HDRCHECK.setDlen, HDRCHECK.setStride, HDRCHECK.setPadding]
  exact ⟨trivial, rfl⟩

theorem popcount_zero : popcount 0 = 0 := by decide

theorem toU32_wrap32 (x : Int) : toU32 (wrap32 x) = x % 4294967296 := by
  unfold toU32 wrap32; omega

theorem sub_header_sizes (i : Int) : i - ((14 : Nat) : Int) - ((40 : Nat) : Int) = i - 54 := by
  omega

theorem checksE_all (p : BmpHeader) (i j : Int) :
    (∀ c ∈ checksE p i j, c = true) ↔ PassE p i j := by
  simp only [checksE, PassE, List.forall_mem_cons, List.not_mem_nil, beq_iff_eq,
    Bool.and_eq_true, Bool.or_eq_true, decide_eq_true_eq, sizeofFileHeader, sizeofInfoHeader,
    BI_RGB, BUF_SIZE, FILE_SIZE_PIXELS, Int.dvd_iff_tmod_eq_zero, IsEmpty.forall_iff,
    implies_true, and_true, sub_header_sizes]
  constructor
  · rintro ⟨h1, h2, h3, h4, h5, h6, h7, h8, h9, h10, h11, h12, h13, h14, h15, h16⟩
    exact ⟨h1, h2, h3, h4, h5, h6, h7, h8, h9, h10, h11, h12, ⟨h13.1, by exact_mod_cast h13.2⟩,
      by omega, h15.symm, h16⟩
  · rintro ⟨h1, h2, h3, h4, h5, h6, h7, h8, h9, h10, h11, h12, h13, h14, h15, h16⟩
    exact ⟨h1, h2, h3, h4, h5, h6, h7, h8, h9, h10, h11, h12, ⟨h13.1, by exact_mod_cast h13.2⟩,
      by omega, h15.symm, h16⟩

theorem checksD_all (p : BmpHeader) (i : Int) :
    (∀ c ∈ checksD p i, c = true) ↔ PassD p i := by
  simp only [checksD, PassD, List.forall_mem_cons, List.not_mem_nil, beq_iff_eq,
    Bool.and_eq_true, Bool.or_eq_true, decide_eq_true_eq, sizeofFileHeader, sizeofInfoHeader,
    BI_RGB, BUF_SIZE, Int.dvd_iff_tmod_eq_zero, IsEmpty.forall_iff,
    implies_true, and_true, sub_header_sizes]
  constructor
  · rintro ⟨h1, h2, h3, h4, h5, h6, h7, h8, h9, h10, h11, h12, h13, h14, h15⟩
    exact ⟨h1, h2, h3, h4, h5, h6, h7, h8, h9, h10, h11, h12, ⟨h13.1, by exact_mod_cast h13.2⟩,
      by omega, h15.symm⟩
  · rintro ⟨h1, h2, h3, h4, h5, h6, h7, h8, h9, h10, h11, h12, h13, h14, h15⟩
    exact ⟨h1, h2, h3, h4, h5, h6, h7, h8, h9, h10, h11, h12, ⟨h13.1, by exact_mod_cast h13.2⟩,
      by omega, h15.symm⟩

theorem checksE_length (p : BmpHeader) (i j : Int) : (checksE p i j).length = 16 := rfl

theorem checksD_length (p : BmpHeader) (i : Int) : (checksD p i).length = 15 := rfl

/-- The pass count of a tally is the number of conditions that hold; it reaches the number
of conditions exactly when all hold, which is exactly when the flag word is all ones. -/
theorem tally_zero (cs : List Bool) (hlen : cs.length ≤ 32) :
    (tally cs 0 (0, 0)).1 = popcount (tally cs 0 (0, 0)).2 ∧
    (tally cs 0 (0, 0)).1 ≤ cs.length ∧
    ((tally cs 0 (0, 0)).1 = cs.length ↔ ∀ c ∈ cs, c = true) ∧
    ((tally cs 0 (0, 0)).2 = 2 ^ cs.length - 1 ↔ ∀ c ∈ cs, c = true) := by
  have h := tally_spec cs 0 0 0 (by decide) (by omega) (by simp [popcount_zero])
  simp only [Nat.zero_add, Int.zero_add] at h
  refine ⟨h.2.1, ?_, ?_, ?_⟩
  · rw [h.2.2.1]; exact_mod_cast List.count_le_length _ _
  · rw [h.2.2.1]
    constructor
    · intro hc
      have hc' : cs.count true = cs.length := by exact_mod_cast hc
      intro c hmem
      exact (List.count_eq_length.1 hc' c hmem).symm
    · intro hall
      have : cs.count true = cs.length := List.count_eq_length.2 (fun c hc => (hall c hc).symm)
      exact_mod_cast this
  · rw [h.2.2.2]; simp

theorem tally_append (cs ds : List Bool) : ∀ (k : Nat) (acc : Int × Nat),
    tally (cs ++ ds) k acc = tally ds (k + cs.length) (tally cs k acc) := by
  induction cs with
  | nil => intro k acc; simp [tally]
  | cons c cs ih =>
    intro k acc
    show tally (cs ++ ds) (k + 1) _ = tally ds (k + (cs.length + 1)) (tally cs (k + 1) _)
    rw [ih, show k + 1 + cs.length = k + (cs.length + 1) by omega]

theorem validateheadere_accept_iff (p : BmpHeader) (i j : Int) :
    (validateheadere p i j).nValid = 16 ↔ PassE p i j := by
  rw [(validateheadere_tally p i j).1, ← checksE_all]
  have h := (tally_zero (checksE p i j) (by rw [checksE_length]; decide)).2.2.1
  rw [checksE_length] at h
  exact h

theorem validateheaderd_accept_iff (p : BmpHeader) (i : Int) :
    (validateheaderd p i).nValid = 15 ↔ PassD p i := by
  rw [(validateheaderd_tally p i).1, ← checksD_all]
  have h := (tally_zero (checksD p i) (by rw [checksD_length]; decide)).2.2.1
  rw [checksD_length] at h
  exact h

theorem validateheadere_nValid_le (p : BmpHeader) (i j : Int) :
    (validateheadere p i j).nValid ≤ 16 := by
  rw [(validateheadere_tally p i j).1]
  have h := (tally_zero (checksE p i j) (by rw [checksE_length]; decide)).2.1
  rw [checksE_length] at h
  exact h

/-! ## Pass count and flag word -/

/-- In both validators the pass count is the number of set bits of the flag word, and the
pass count is full exactly when the flag word is all ones. -/
theorem validator_flags (p : BmpHeader) (i j : Int) :
    ((validateheadere p i j).nValid = HDR_CHECKE_PASS ↔
      (validateheadere p i j).dwFlags = 0xFFFF) ∧
    (validateheadere p i j).nValid = popcount (validateheadere p i j).dwFlags ∧
    ((validateheaderd p i).nValid = HDR_CHECKD_PASS ↔ (validateheaderd p i).dwFlags = 0x7FFF) ∧
    (validateheaderd p i).nValid = popcount (validateheaderd p i).dwFlags := by
  have he := tally_zero (checksE p i j) (by rw [checksE_length]; decide)
  have hd := tally_zero (checksD p i) (by rw [checksD_length]; decide)
  rw [checksE_length] at he
  rw [checksD_length] at hd
  refine ⟨?_, ?_, ?_, ?_⟩
  · rw [(validateheadere_tally p i j).1, (validateheadere_tally p i j).2]
    exact he.2.2.1.trans he.2.2.2.symm
  · rw [(validateheadere_tally p i j).1, (validateheadere_tally p i j).2]
    exact he.1
  · rw [(validateheaderd_tally p i).1, (validateheaderd_tally p i).2]
    exact hd.2.2.1.trans hd.2.2.2.symm
  · rw [(validateheaderd_tally p i).1, (validateheaderd_tally p i).2]
    exact hd.1

/-- When the capacity test of `validateheadere` fails, flag bit 32768 is clear. -/
theorem capacity_bit_clear (p : BmpHeader) (i j : Int)
    (hcap : wrap32 (p.biWidth * abs32 p.biHeight) - FILE_SIZE_PIXELS < j) :
    (validateheadere p i j).dwFlags &&& 32768 = 0 := by
  have hc : decide (wrap32 (p.biWidth * abs32 p.biHeight) - FILE_SIZE_PIXELS ≥ j)
      = false := by
    simp only [decide_eq_false_iff_not, ge_iff_le, not_le]; exact hcap
  have hsplit : checksE p i j = (checksE p i j).take 15 ++ [false] := by
    simp only [checksE, hc]; rfl
  have hlen : ((checksE p i j).take 15).length = 15 := by
    rw [List.length_take, checksE_length]; rfl
  have hpre := tally_spec ((checksE p i j).take 15) 0 0 0 (by decide)
    (by rw [hlen]; decide) (by simp [popcount_zero])
  have hlt : (tally ((checksE p i j).take 15) 0 (0, 0)).2 < 2 ^ 15 := by
    have := hpre.1
    rw [hlen] at this
    simpa using this
  have hflags : (validateheadere p i j).dwFlags = (tally ((checksE p i j).take 15) 0 (0, 0)).2 := by
    rw [(validateheadere_tally p i j).2]
    conv_lhs => rw [hsplit]
    rw [tally_append]
    simp [tally]
  rw [hflags]
  apply Nat.eq_of_testBit_eq
  intro k
  rw [Nat.testBit_and, Nat.zero_testBit]
  by_cases hk : k = 15
  · subst hk
    rw [Nat.testBit_lt_two_pow hlt, Bool.false_and]
  · have : (32768 : Nat) = 2 ^ 15 := by norm_num
    rw [this, Nat.testBit_two_pow_of_ne (Ne.symm hk), Bool.and_false]

theorem wrap32_inj (x y : Int) (hx : IsInt32 x) (hy : IsInt32 y)
    (h : wrap32 (x - 54) = wrap32 (y - 54)) : x = y := by
  unfold IsInt32 at hx hy
  unfold wrap32 at h
  omega

/-- C8. Validator strictness: from an input accepted by `validateheadere` (likewise by
`validateheaderd`), changing exactly one of `bfType[0]`, `bfType[1]`, `bfReserved1`,
`bfOffBits`, `biSize`, `biPlanes`, `biBitCount`, `biCompression`, `biClrUsed`,
`biClrImportant` to a different value, or the measured file size to a different value,
makes the validator reject. -/
theorem validator_strictness (p q : BmpHeader) (i k j : Int) (hm : Mutated p i q k) :
    ((validateheadere p i j).nValid = HDR_CHECKE_PASS →
      (validateheadere q k j).nValid ≠ HDR_CHECKE_PASS) ∧
    ((validateheaderd p i).nValid = HDR_CHECKD_PASS →
      (validateheaderd q k).nValid ≠ HDR_CHECKD_PASS) := by
  simp only [HDR_CHECKE_PASS, HDR_CHECKD_PASS, validateheadere_accept_iff,
    validateheaderd_accept_iff, ne_eq]
  constructor
  · rintro ⟨h1, h2, h3, h4, h5, h6, h7, h8, h9, h10, h11, h12, h13, h14, h15, h16⟩
      ⟨g1, g2, g3, g4, g5, g6, g7, g8, g9, g10, g11, g12, g13, g14, g15, g16⟩
    cases hm with
    | bfType0 v hv => exact hv (g1.trans h1.symm)
    | bfType1 v hv => exact hv (g2.trans h2.symm)
    | bfReserved1 v hv => exact hv (g3.trans h3.symm)
    | bfOffBits v hv => exact hv (g4.trans h4.symm)
    | biSize v hv => exact hv (g5.trans h5.symm)
    | biPlanes v hv => exact hv (g7.trans h7.symm)
    | biBitCount v hv => exact hv (g8.trans h8.symm)
    | biCompression v hv => exact hv (g9.trans h9.symm)
    | biClrUsed v hv => exact hv (g11.trans h11.symm)
    | biClrImportant v hv => exact hv (g12.trans h12.symm)
    | fileSize _ hne hi hk => exact hne (wrap32_inj k i hk hi (g15.symm.trans h15))
  · rintro ⟨h1, h2, h3, h4, h5, h6, h7, h8, h9, h10, h11, h12, h13, h14, h15⟩
      ⟨g1, g2, g3, g4, g5, g6, g7, g8, g9, g10, g11, g12, g13, g14, g15⟩
    cases hm with
    | bfType0 v hv => exact hv (g1.trans h1.symm)
    | bfType1 v hv => exact hv (g2.trans h2.symm)
    | bfReserved1 v hv => exact hv (g3.trans h3.symm)
    | bfOffBits v hv => exact hv (g4.trans h4.symm)
    | biSize v hv => exact hv (g5.trans h5.symm)
    | biPlanes v hv => exact hv (g7.trans h7.symm)
    | biBitCount v hv => exact hv (g8.trans h8.symm)
    | biCompression v hv => exact hv (g9.trans h9.symm)
    | biClrUsed v hv => exact hv (g11.trans h11.symm)
    | biClrImportant v hv => exact hv (g12.trans h12.symm)
    | fileSize _ hne hi hk => exact hne (wrap32_inj k i hk hi (g15.symm.trans h15))

/-- Witness for C8: the accepted 4 by 4 header is rejected once it declares 32 bits per
pixel. -/
theorem validator_strictness_witness :
    Mutated hdr4x4 102 hdr32bpp 102 ∧
    (validateheadere hdr4x4 102 1).nValid = HDR_CHECKE_PASS ∧
    (validateheaderd hdr4x4 102).nValid = HDR_CHECKD_PASS ∧
    (validateheadere hdr32bpp 102 1).nValid ≠ HDR_CHECKE_PASS ∧
    (validateheaderd hdr32bpp 102).nValid ≠ HDR_CHECKD_PASS :=
  ⟨Mutated.biBitCount hdr4x4 102 32 (by decide), by decide!, by decide!,
    (validator_strictness hdr4x4 hdr32bpp 102 102 1
      (Mutated.biBitCount hdr4x4 102 32 (by decide))).1 (by decide!),
    (validator_strictness hdr4x4 hdr32bpp 102 102 1
      (Mutated.biBitCount hdr4x4 102 32 (by decide))).2 (by decide!)⟩

/-- C9, as stated, fails: the 4 by 4 header with `bfReserved2 = 1` is accepted by both
validators although its second reserved field is non-zero. -/
theorem reserved2_nonzero_accepted :
    hdrReserved2.bfReserved2 ≠ 0 ∧
    (validateheadere hdrReserved2 102 1).nValid = HDR_CHECKE_PASS ∧
    (validateheaderd hdrReserved2 102).nValid = HDR_CHECKD_PASS :=
  ⟨by decide, by decide!, by decide!⟩

/-- C9, amended. Every header accepted by `validateheadere` or by `validateheaderd` has
`bfReserved1 = 0`; the validators do not examine `bfReserved2`: replacing it by any value
leaves their result unchanged. -/
theorem reserved1_zero_reserved2_ignored (p : BmpHeader) (i j : Int) :
    ((validateheadere p i j).nValid = HDR_CHECKE_PASS → p.bfReserved1 = 0) ∧
    ((validateheaderd p i).nValid = HDR_CHECKD_PASS → p.bfReserved1 = 0) ∧
    ∀ v : Nat,
      validateheadere { p with bfReserved2 := v } i j = validateheadere p i j ∧
      validateheaderd { p with bfReserved2 := v } i = validateheaderd p i := by
  refine ⟨fun h => ?_, fun h => ?_, fun _ => ⟨rfl, rfl⟩⟩
  · exact ((validateheadere_accept_iff p i j).1 h).2.2.1
  · exact ((validateheaderd_accept_iff p i).1 h).2.2.1

/-- Witness for the amended C9 at the 4 by 4 header. -/
theorem reserved1_zero_witness :
    (validateheadere hdr4x4 102 1).nValid = HDR_CHECKE_PASS ∧
    (validateheaderd hdr4x4 102).nValid = HDR_CHECKD_PASS ∧
    hdr4x4.bfReserved1 = 0 :=
  ⟨by decide!, by decide!,
    (reserved1_zero_reserved2_ignored hdr4x4 102 1).1 (by decide!)⟩

/-! ## The `switch(state)` of the encoder leaves the geometry alone -/

theorem encSwitch_frame (nRF : Int) (rand : Nat → Nat) (s : EncState) :
    (encSwitch nRF rand s).wpels = s.wpels ∧ (encSwitch nRF rand s).hpels = s.hpels ∧
    (encSwitch nRF rand s).pc = s.pc ∧ (encSwitch nRF rand s).buf = s.buf ∧
    (encSwitch nRF rand s).src = s.src ∧ (encSwitch nRF rand s).out = s.out := by
  unfold encSwitch
  split
  · split <;> simp
  · split
    · simp
    · split
      · simp
      · split <;> simp

theorem encSwitch_dibyte_lt (nRF : Int) (rand : Nat → Nat) (s : EncState)
    (hd : s.dibyte < 256) : (encSwitch nRF rand s).dibyte < 256 := by
  have hr : ∀ x : Nat, x % 256 < 256 := fun x => Nat.mod_lt _ (by decide)
  have hm : ∀ x : Nat, x % 256 &&& mask < 256 := fun x =>
    lt_of_le_of_lt Nat.and_le_left (hr x)
  have hn : ∀ x : Nat, x < 256 → x ||| notMask < 256 := fun x hx =>
    Nat.or_lt_two_pow (n := 8) hx (by decide)
  have h1 : ∀ (c : Prop) [Decidable c] (x : Nat),
      (if c then x % 256 &&& mask else x % 256) < 256 := by
    intro c _ x; split
    · exact hm x
    · exact hr x
  have h2 : ∀ (c d : Prop) [Decidable c] [Decidable d] (x : Nat),
      (if d then (if c then x % 256 &&& mask else x % 256) ||| notMask
        else (if c then x % 256 &&& mask else x % 256)) < 256 := by
    intro c d _ _ x; split
    · exact hn _ (h1 c x)
    · exact h1 c x
  unfold encSwitch
  split
  · split
    · exact h2 _ _ _
    · exact hr _
  · split
    · exact hr _
    · split
      · exact hm _
      · split
        · exact hn _ (hr _)
        · exact hd

theorem encSwitch_state_packing (nRF : Int) (rand : Nat → Nat) (s : EncState)
    (hRF : nRF = 1 ∨ nRF = 2 ∨ nRF = 3) (hs : s.state = 0 ∨ s.state = nRF) :
    (encSwitch nRF rand s).state = 0 ∨ (encSwitch nRF rand s).state = nRF := by
  unfold encSwitch
  split
  · split
    · right
      have : nRF ≠ 0 := by omega
      simp [this]
    · left; assumption
  · rename_i h0
    have hst : s.state = nRF := by
      rcases hs with h | h
      · exact absurd h h0
      · exact h
    split
    · right; simpa using hst
    · split
      · right; simpa using hst
      · split
        · right; simpa using hst
        · right; exact hst

theorem wrap32_pred (x : Int) (h1 : 1 ≤ x) (h2 : x < 2147483648) : wrap32 (x - 1) = x - 1 := by
  unfold wrap32; omega

/-- While every pass embeds a byte and the last pixel of the current row lies outside the
scan-line buffer, the loop of `encode` cannot return: it runs out of passes or leaves the
buffer. -/
theorem encLoop_overrun (w : Int) (n : Nat) (nRF : Int) (rand : Nat → Nat)
    (hRF : nRF = 1 ∨ nRF = 2 ∨ nRF = 3) : ∀ (fuel : Nat) (s : EncState),
    (s.state = 0 ∨ s.state = nRF) → s.hpels ≠ 0 → 1 ≤ s.wpels → s.wpels < 2147483648 →
    (BUF_SIZE : Int) ≤ s.pc + 3 * (s.wpels - 1) + 2 →
    encLoop w n nRF rand fuel s = none ∨
      ∃ out, encLoop w n nRF rand fuel s = some (Outcome.fault out) := by
  intro fuel
  induction fuel with
  | zero =>
    intro s _ hh _ _ _
    left
    simp [encLoop, hh]
  | succ fuel ih =>
    intro s hst hh hw1 hw2 hpc
    obtain ⟨e1, e2, e3, e4, e5, e6⟩ := encSwitch_frame nRF rand s
    have hst1 := encSwitch_state_packing nRF rand s hRF hst
    have hpos : (encSwitch nRF rand s).state > -1 := by omega
    simp only [encLoop, hh, if_false]
    unfold encBody
    simp only [hpos, true_and, if_true, e1, e2, e3, e4, e5, e6]
    by_cases hb : s.pc + 2 < BUF_SIZE
    · have hw3 : 2 ≤ s.wpels := by
        by_contra hcon
        have : s.wpels = 1 := by omega
        rw [this] at hpc
        simp only [BUF_SIZE] at hb hpc
        omega
      have hne : wrap32 (s.wpels - 1) ≠ 0 := by rw [wrap32_pred _ hw1 hw2]; omega
      simp only [hb, not_true_eq_false, if_false, hne, ne_eq, not_false_eq_true, if_true]
      apply ih
      · exact hst1
      · simpa [e2] using hh
      · simp only [wrap32_pred _ hw1 hw2]; omega
      · simp only [wrap32_pred _ hw1 hw2]; omega
      · simp only [wrap32_pred _ hw1 hw2, e3]; push_cast; omega
    · right
      simp only [hb, not_false_eq_true, if_true]
      exact ⟨_, rfl⟩

theorem encLoop_overrun_ne (w : Int) (n : Nat) (nRF : Int) (rand : Nat → Nat)
    (hRF : nRF = 1 ∨ nRF = 2 ∨ nRF = 3) (fuel : Nat) (s : EncState)
    (hst : s.state = 0 ∨ s.state = nRF) (hh : s.hpels ≠ 0) (hw1 : 1 ≤ s.wpels)
    (hw2 : s.wpels < 2147483648) (hpc : (BUF_SIZE : Int) ≤ s.pc + 3 * (s.wpels - 1) + 2)
    (out : List Nat) : encLoop w n nRF rand fuel s ≠ some (Outcome.ret 0 out) := by
  intro hres
  rcases encLoop_overrun w n nRF rand hRF fuel s hst hh hw1 hw2 hpc with h | ⟨o, h⟩
  · rw [h] at hres; exact Option.noConfusion hres
  · rw [h] at hres; exact Outcome.noConfusion (Option.some.inj hres)

theorem validate_hdrWide : validateheadere hdrWide 70 1 = hcWide := by decide!

theorem freadRow_dataWide (buf : Buf) (src : List Nat) (h : src.length = 16 ∨ src.length = 12
    ∨ src.length = 8 ∨ src.length = 4) :
    freadRow 4 src buf = ReadResult.ok (fun k => if k < 4 then src.getD k 0 else buf k)
      (src.drop 4) := by
  unfold freadRow
  have h1 : ¬ BUF_SIZE < min 4 src.length := by simp only [BUF_SIZE]; omega
  have h2 : ¬ src.length < 4 := by omega
  simp only [h1, h2, if_false]

/-- C1 at a failing input. The header `hdrWide` (width `2^30 + 1`, height 4, file size 70)
is accepted by `validateheadere` for a one-byte payload, the pixel data has exactly
`height * stride = 16` bytes, and with random fill `encode` never returns 0: it leaves the
scan-line buffer. -/
theorem roundtrip_fails_wide_header :
    (validateheadere hdrWide 70 1).nValid = HDR_CHECKE_PASS ∧
    (dataWide.length : Int) = (validateheadere hdrWide 70 1).nBMPh *
      (validateheadere hdrWide 70 1).nStride ∧
    ∀ (fuel : Nat) (rand : Nat → Nat) (buf0 : Buf) (out : List Nat),
      encode fuel (validateheadere hdrWide 70 1) 1 1 dataWide [0x41] rand buf0
        ≠ some (Outcome.ret 0 out) := by
  rw [validate_hdrWide]
  refine ⟨rfl, rfl, ?_⟩
  intro fuel rand buf0 out
  have hn : toSizeT hcWide.nStride = 4 := rfl
  have hrd := freadRow_dataWide buf0 dataWide (Or.inl rfl)
  unfold encode
  simp only [hn, hrd]
  have hw1 : wrap32 (hcWide.nBMPw - 1) = 1073741824 := rfl
  have hw2 : wrap32 (1073741824 - 1) = 1073741823 := rfl
  simp only [hw1, hw2, ne_eq, OfNat.ofNat_ne_zero, not_false_eq_true, if_true]
  apply encLoop_overrun_ne _ _ _ _ (Or.inl rfl)
  · exact Or.inl rfl
  · show hcWide.nBMPh ≠ 0; decide
  · show (1 : Int) ≤ 1073741823; decide
  · show (1073741823 : Int) < 2147483648; decide
  · show (BUF_SIZE : Int) ≤ ((3 + 3 : Nat) : Int) + 3 * (1073741823 - 1) + 2; decide

/-! ## Passes of the encoder that embed nothing (`state = -1`) -/

theorem encLoop_done (w : Int) (n : Nat) (nRF : Int) (rand : Nat → Nat) (fuel : Nat)
    (s : EncState) (h : s.hpels = 0) :
    encLoop w n nRF rand fuel s = some (Outcome.ret 0 s.out) := by
  cases fuel <;> simp [encLoop, h]

theorem encSwitch_idle (nRF : Int) (rand : Nat → Nat) (s : EncState) (h : s.state = -1) :
    encSwitch nRF rand s = s := by
  unfold encSwitch
  simp [h]

theorem rowBytes_fread (n : Nat) (src : List Nat) (buf : Buf) (h : n ≤ src.length) :
    rowBytes n (fun k => if k < n then src.getD k 0 else buf k) = src.take n := by
  unfold rowBytes
  apply List.ext_getElem
  · simp [List.length_take, Nat.min_eq_left h]
  · intro i h1 h2
    simp only [List.length_map, List.length_range] at h1
    simp only [List.getElem_map, List.getElem_range, h1, if_true, List.getElem_take]
    rw [List.getD_eq_getElem _ _ (by omega)]

theorem freadRow_ok (n : Nat) (src : List Nat) (buf : Buf) (h1 : n ≤ src.length)
    (h2 : n ≤ BUF_SIZE) :
    freadRow n src buf =
      ReadResult.ok (fun k => if k < n then src.getD k 0 else buf k) (src.drop n) := by
  unfold freadRow
  have h3 : ¬ BUF_SIZE < min n src.length := by rw [Nat.min_eq_left h1]; omega
  have h4 : ¬ src.length < n := by omega
  simp only [h3, h4, if_false]

/-- The body of the loop in the state `-1`. -/
theorem encBody_idle (w : Int) (n : Nat) (nRF : Int) (rand : Nat → Nat) (s : EncState)
    (hst : s.state = -1) :
    encBody w n nRF rand s =
      if wrap32 (s.wpels - 1) ≠ 0 then
        Sum.inl { s with wpels := wrap32 (s.wpels - 1), pc := s.pc + 3 }
      else if wrap32 (s.hpels - 1) ≠ 0 then
        match freadRow n s.src s.buf with
        | ReadResult.fault => Sum.inr (Outcome.fault (s.out ++ rowBytes n s.buf))
        | ReadResult.short => Sum.inr (Outcome.ret (-9) (s.out ++ rowBytes n s.buf))
        | ReadResult.ok buf1 rest =>
          Sum.inl { s with buf := buf1, src := rest, wpels := w, hpels := wrap32 (s.hpels - 1),
                           pc := 0, out := s.out ++ rowBytes n s.buf }
      else Sum.inl { s with wpels := w, hpels := wrap32 (s.hpels - 1),
                            out := s.out ++ rowBytes n s.buf } := by
  have hneg : ¬ (s.state > -1) := by omega
  unfold encBody
  rw [encSwitch_idle nRF rand s hst]
  simp only [hneg, false_and, if_false]

/-- In the state `-1` a pass only advances the pixel pointer. -/
theorem encLoop_idle_steps (w : Int) (n : Nat) (nRF : Int) (rand : Nat → Nat) :
    ∀ (m fuel : Nat) (s : EncState), s.state = -1 → s.hpels ≠ 0 →
    s.wpels = (m : Int) + 1 → s.wpels < 2147483648 →
    encLoop w n nRF rand (fuel + m) s =
      encLoop w n nRF rand fuel { s with wpels := 1, pc := s.pc + 3 * m } := by
  intro m
  induction m with
  | zero =>
    intro fuel s _ _ hw _
    have : ({ s with wpels := 1, pc := s.pc + 3 * 0 } : EncState) = s := by
      cases s; simp_all
    rw [this]; rfl
  | succ m ih =>
    intro fuel s hst hh hw hlt
    have hfuel : fuel + (m + 1) = (fuel + m) + 1 := by omega
    have hpred : wrap32 (s.wpels - 1) = (m : Int) + 1 := by
      rw [wrap32_pred _ (by omega) hlt, hw]; push_cast; ring
    have hne : wrap32 (s.wpels - 1) ≠ 0 := by rw [hpred]; omega
    rw [hfuel]
    simp only [encLoop, hh, if_false]
    rw [encBody_idle w n nRF rand s hst, if_pos hne]
    simp only
    rw [ih fuel { s with wpels := wrap32 (s.wpels - 1), pc := s.pc + 3 } hst hh hpred
      (by show wrap32 (s.wpels - 1) < 2147483648; rw [hpred]; omega)]
    congr 1
    simp only [EncState.mk.injEq, true_and, and_true]
    omega

/-- The last pixel of the last row in the state `-1`. -/
theorem encLoop_idle_last (w : Int) (n : Nat) (nRF : Int) (rand : Nat → Nat) (fuel : Nat)
    (s : EncState) (hst : s.state = -1) (hw : s.wpels = 1) (hh : s.hpels = 1) :
    encLoop w n nRF rand (fuel + 1) s = some (Outcome.ret 0 (s.out ++ rowBytes n s.buf)) := by
  have hh0 : ¬ s.hpels = 0 := by omega
  have hw0 : wrap32 (s.wpels - 1) = 0 := by rw [hw]; rfl
  have hh1 : wrap32 (s.hpels - 1) = 0 := by rw [hh]; rfl
  simp only [encLoop, hh0, if_false]
  rw [encBody_idle w n nRF rand s hst]
  simp only [hw0, hh1, ne_eq, not_true_eq_false, if_false]
  rw [encLoop_done _ _ _ _ _ _ rfl]

/-- The last pixel of a row that is not the last, in the state `-1`. -/
theorem encLoop_idle_next (w : Int) (n : Nat) (nRF : Int) (rand : Nat → Nat) (fuel : Nat)
    (s : EncState) (hst : s.state = -1) (hw : s.wpels = 1) (hh1 : 2 ≤ s.hpels)
    (hh2 : s.hpels < 2147483648) (hlen : n ≤ s.src.length) (hn : n ≤ BUF_SIZE) :
    encLoop w n nRF rand (fuel + 1) s =
      encLoop w n nRF rand fuel
        { s with buf := fun k => if k < n then s.src.getD k 0 else s.buf k,
                 src := s.src.drop n, wpels := w, hpels := s.hpels - 1, pc := 0,
                 out := s.out ++ rowBytes n s.buf } := by
  have hh0 : ¬ s.hpels = 0 := by omega
  have hw0 : wrap32 (s.wpels - 1) = 0 := by rw [hw]; rfl
  have hp : wrap32 (s.hpels - 1) = s.hpels - 1 := wrap32_pred _ (by omega) hh2
  have hp0 : s.hpels - 1 ≠ 0 := by omega
  simp only [encLoop, hh0, if_false]
  rw [encBody_idle w n nRF rand s hst]
  simp only [hw0, hp, hp0, ne_eq, not_true_eq_false, not_false_eq_true, if_false, if_true,
    freadRow_ok n s.src s.buf hlen hn]

/-- Once the encoder is in the state `-1`, with `m + 1` pixels left in the current row and
`r` further rows left in the image stream, it returns 0 after writing the current row and
the rest of the image stream unchanged. -/
theorem encLoop_idle_rest (W n : Nat) (nRF : Int) (rand : Nat → Nat) (hW1 : 1 ≤ W)
    (hW2 : W < 2147483648) (hn : n ≤ BUF_SIZE) :
    ∀ (r m : Nat) (s : EncState), s.state = -1 → s.wpels = (m : Int) + 1 → m + 1 ≤ W →
    s.hpels = (r : Int) + 1 → r + 1 < 2147483648 → s.src.length = r * n →
    ∀ fuel : Nat, encLoop W n nRF rand (fuel + r * W + 1 + m) s =
      some (Outcome.ret 0 (s.out ++ rowBytes n s.buf ++ s.src)) := by
  intro r
  induction r with
  | zero =>
    intro m s hst hw hm hh _ hsrc fuel
    rw [encLoop_idle_steps W n nRF rand m _ s hst (by omega) hw (by omega)]
    simp only [Nat.zero_mul, Nat.add_zero]
    rw [encLoop_idle_last W n nRF rand fuel { s with wpels := 1, pc := s.pc + 3 * m } hst rfl
      (by simpa using hh)]
    have : s.src = [] := List.length_eq_zero.1 (by simpa using hsrc)
    simp [this]
  | succ r ih =>
    intro m s hst hw hm hh hr hsrc fuel
    rw [encLoop_idle_steps W n nRF rand m _ s hst (by omega) hw (by omega)]
    have hfuel : fuel + (r + 1) * W + 1 = (fuel + r * W + 1 + (W - 1)) + 1 := by
      rw [Nat.add_mul]; omega
    have hlen : n ≤ s.src.length := by rw [hsrc]; exact Nat.le_mul_of_pos_left n (by omega)
    rw [hfuel, encLoop_idle_next W n nRF rand _ { s with wpels := 1, pc := s.pc + 3 * m } hst rfl
      (by show (2 : Int) ≤ s.hpels; omega) (by show s.hpels < 2147483648; omega) hlen hn]
    rw [ih (W - 1)
      { s with wpels := W, pc := 0, buf := fun k => if k < n then s.src.getD k 0 else s.buf k,
               src := s.src.drop n, hpels := s.hpels - 1, out := s.out ++ rowBytes n s.buf }
      hst (by show (W : Int) = ((W - 1 : Nat) : Int) + 1; omega) (by omega)
      (by show s.hpels - 1 = (r : Int) + 1; omega) (by omega)
      (by show (s.src.drop n).length = r * n
          rw [List.length_drop, hsrc, Nat.add_mul]; omega)]
    simp only [rowBytes_fread n s.src s.buf hlen, List.append_assoc, List.take_append_drop]

theorem encLoop_step (w : Int) (n : Nat) (nRF : Int) (rand : Nat → Nat) (fuel : Nat)
    (s s1 : EncState) (hh : s.hpels ≠ 0) (hb : encBody w n nRF rand s = Sum.inl s1) :
    encLoop w n nRF rand (fuel + 1) s = encLoop w n nRF rand fuel s1 := by
  simp only [encLoop, hh, if_false, hb]

theorem encode_wide_start (fuel : Nat) :
    encode fuel hcWide 1 0 dataWide [0x41] (fun _ => 0) zeroBuf =
      encLoop 1073741825 4 0 (fun _ => 0) fuel sWide0 := rfl

theorem encLoop_wide_steps (fuel : Nat) :
    encLoop 1073741825 4 0 (fun _ => 0) (fuel + 1 + 1) sWide0 =
      encLoop 1073741825 4 0 (fun _ => 0) fuel sWide2 := by
  rw [encLoop_step 1073741825 4 0 (fun _ => 0) _ sWide0 sWide1 (by decide) rfl,
    encLoop_step 1073741825 4 0 (fun _ => 0) _ sWide1 sWide2 (by decide) rfl]

theorem encLoop_wide_idle (fuel : Nat) :
    encLoop 1073741825 4 0 (fun _ => 0) (fuel + 3 * 1073741825 + 1 + 1073741820) sWide2 =
      some (Outcome.ret 0 outWide) := by
  have key := encLoop_idle_rest 1073741825 4 0 (fun _ => 0) (by decide) (by decide)
    (by decide) 3 1073741820 sWide2 rfl rfl (by decide) rfl (by decide) rfl fuel
  simp only [Nat.cast_ofNat] at key
  exact key

theorem encode_wide_nofill (fuel : Nat) :
    encode (fuel + 3 * 1073741825 + 1 + 1073741820 + 1 + 1) hcWide 1 0 dataWide [0x41]
      (fun _ => 0) zeroBuf = some (Outcome.ret 0 outWide) :=
  (encode_wide_start (fuel + 3 * 1073741825 + 1 + 1073741820 + 1 + 1)).trans
    ((encLoop_wide_steps (fuel + 3 * 1073741825 + 1 + 1073741820)).trans
      (encLoop_wide_idle fuel))

/-- C4 at a failing input. The header `hdrWide` is accepted by `validateheadere` for a
one-byte payload; with no fill `encode` returns 0, and in its output pixel 1 unpacks to 248,
not to the high length byte 0, and pixel 2 unpacks to 255, not to the payload byte `0x41`. -/
theorem layout_fails_wide_header :
    (validateheadere hdrWide 70 1).nValid = HDR_CHECKE_PASS ∧
    (∀ fuel : Nat,
      encode (fuel + 3 * 1073741825 + 1 + 1073741820 + 1 + 1) (validateheadere hdrWide 70 1)
        1 0 dataWide [0x41] (fun _ => 0) zeroBuf = some (Outcome.ret 0 outWide)) ∧
    unpackPixel outWide 1073741825 4 0 = 1 ∧
    unpackPixel outWide 1073741825 4 1 = 248 ∧
    unpackPixel outWide 1073741825 4 2 = 255 := by
  rw [validate_hdrWide]
  exact ⟨rfl, encode_wide_nofill, by decide, by decide, by decide⟩

/-! ## Preservation of the encoder invariant -/

theorem byteOK_refl (W o y : Nat) : ByteOK W o y y := ⟨Or.inl rfl, rfl, fun _ => rfl⟩

theorem packBlue_lt (c b : Nat) : packBlue c b < 256 :=
  Nat.or_lt_two_pow (n := 8) (Nat.and_lt_two_pow c (by decide))
    (lt_of_le_of_lt Nat.and_le_right (by decide))

theorem packGreen_lt (c b : Nat) : packGreen c b < 256 :=
  Nat.or_lt_two_pow (n := 8) (Nat.and_lt_two_pow c (by decide))
    (lt_of_le_of_lt Nat.and_le_right (by decide))

theorem packRed_lt (c b : Nat) : packRed c b < 256 :=
  Nat.or_lt_two_pow (n := 8) (Nat.and_lt_two_pow c (by decide))
    (lt_of_le_of_lt Nat.and_le_right (by decide))

theorem packAt_blue (buf : Buf) (pc d : Nat) : packAt buf pc d pc = packBlue (buf pc) d := by
  simp [packAt]

theorem packAt_green (buf : Buf) (pc d : Nat) :
    packAt buf pc d (pc + 1) = packGreen (buf (pc + 1)) d := by
  simp [packAt]

theorem packAt_red (buf : Buf) (pc d : Nat) :
    packAt buf pc d (pc + 2) = packRed (buf (pc + 2)) d := by
  simp [packAt]

theorem packAt_other (buf : Buf) (pc d o : Nat) (h0 : o ≠ pc) (h1 : o ≠ pc + 1)
    (h2 : o ≠ pc + 2) : packAt buf pc d o = buf o := by
  simp [packAt, h0, h1, h2]

/-- Packing a byte into pixel `c < W` of the row keeps every byte of the row related to the
input. -/
theorem bufOK_packAt (img : List Nat) (n W r c d : Nat) (buf : Buf) (hc : c < W)
    (h : BufOK img n W r buf) : BufOK img n W r (packAt buf (3 * c) d) := by
  intro o ho
  obtain ⟨h1, h2, h3⟩ := h o ho
  by_cases e0 : o = 3 * c
  · subst e0
    rw [packAt_blue]
    refine ⟨Or.inr (packBlue_lt _ _), ?_, fun hle => by omega⟩
    have hm : (3 * c) % 3 ≠ 1 := by omega
    simp only [topBits, hm, if_false] at h2 ⊢
    rw [packBlue_high]; exact h2
  · by_cases e1 : o = 3 * c + 1
    · subst e1
      rw [packAt_green]
      refine ⟨Or.inr (packGreen_lt _ _), ?_, fun hle => by omega⟩
      have hm : (3 * c + 1) % 3 = 1 := by omega
      simp only [topBits, hm, if_true] at h2 ⊢
      rw [packGreen_high]; exact h2
    · by_cases e2 : o = 3 * c + 2
      · subst e2
        rw [packAt_red]
        refine ⟨Or.inr (packRed_lt _ _), ?_, fun hle => by omega⟩
        have hm : (3 * c + 2) % 3 ≠ 1 := by omega
        simp only [topBits, hm, if_false] at h2 ⊢
        rw [packRed_high]; exact h2
      · rw [packAt_other _ _ _ _ e0 e1 e2]
        exact ⟨h1, h2, h3⟩

theorem rowBytes_length (n : Nat) (buf : Buf) : (rowBytes n buf).length = n := by
  simp [rowBytes]

theorem rowBytes_getD (n : Nat) (buf : Buf) (o : Nat) (ho : o < n) :
    (rowBytes n buf).getD o 0 = buf o := by
  unfold rowBytes
  rw [List.getD_eq_getElem _ _ (by simpa using ho)]
  simp

/-- Writing the row in the buffer extends the output by one row. -/
theorem outOK_append (img : List Nat) (n W r : Nat) (out : List Nat) (buf : Buf)
    (ho : OutOK img n W r out) (hb : BufOK img n W r buf) :
    OutOK img n W (r + 1) (out ++ rowBytes n buf) := by
  obtain ⟨hlen, hall⟩ := ho
  refine ⟨by rw [List.length_append, rowBytes_length, hlen, Nat.add_mul, Nat.one_mul], ?_⟩
  intro k hk
  by_cases hlt : k < r * n
  · rw [List.getD_append _ _ _ _ (by omega)]
    exact hall k hlt
  · have hge : r * n ≤ k := by omega
    have hk2 : k - r * n < n := by rw [Nat.add_mul] at hk; omega
    rw [List.getD_append_right _ _ _ _ (by omega), hlen, rowBytes_getD _ _ _ hk2]
    have hmod : k % n = k - r * n := by
      have : k = (k - r * n) + r * n := by omega
      rw [this, Nat.add_mul_mod_self_right, Nat.mod_eq_of_lt hk2]
      omega
    have hidx : k = r * n + (k - r * n) := by omega
    rw [hmod]
    have := hb (k - r * n) hk2
    rw [← hidx] at this
    exact this

/-- A freshly read row is the input row. -/
theorem bufOK_fread (img : List Nat) (n W r : Nat) (buf : Buf) :
    BufOK img n W r (fun k => if k < n then (img.drop (r * n)).getD k 0 else buf k) := by
  intro o ho
  simp only [ho, if_true]
  have : (img.drop (r * n)).getD o 0 = img.getD (r * n + o) 0 := by
    simp only [List.getD_eq_getElem?_getD, List.getElem?_drop]
  rw [this]
  exact byteOK_refl _ _ _

/-- What a successful `fread` of a row says. -/
theorem freadRow_eq_ok (n : Nat) (src : List Nat) (buf buf1 : Buf) (rest : List Nat)
    (h : freadRow n src buf = ReadResult.ok buf1 rest) :
    n ≤ src.length ∧ n ≤ BUF_SIZE ∧
    buf1 = (fun k => if k < n then src.getD k 0 else buf k) ∧ rest = src.drop n := by
  unfold freadRow at h
  split at h
  · exact ReadResult.noConfusion h
  · split at h
    · exact ReadResult.noConfusion h
    · rename_i h1 h2
      have hle : n ≤ src.length := by omega
      rw [Nat.min_eq_left hle] at h1
      injection h with e1 e2
      exact ⟨hle, by omega, e1.symm, e2.symm⟩

/-- One pass of the encoder loop keeps the invariant, or ends the run without returning 0. -/
theorem encBody_inv (img : List Nat) (n W H : Nat) (nRF : Int) (rand : Nat → Nat)
    (hW : W < 2147483648) (hH : H < 2147483648) (s : EncState) (r c : Nat)
    (hat : EncAt img n W H r c s) :
    (∃ s1, encBody W n nRF rand s = Sum.inl s1 ∧ EncInv img n W H s1) ∨
    (∃ o, encBody W n nRF rand s = Sum.inr o ∧ ∀ out, o ≠ Outcome.ret 0 out) := by
  obtain ⟨hh, hr, hw, hc, hpc, hout, hbuf, hsrc, hlen⟩ := hat
  obtain ⟨e1, e2, e3, e4, e5, e6⟩ := encSwitch_frame nRF rand s
  unfold encBody
  simp only [e1, e2, e3, e4, e5, e6]
  by_cases hf : (encSwitch nRF rand s).state > -1 ∧ ¬ (s.pc + 2 < BUF_SIZE)
  · right
    rw [if_pos hf]
    exact ⟨_, rfl, fun out h => Outcome.noConfusion h⟩
  · rw [if_neg hf]
    have hbuf1 : BufOK img n W r
        (if (encSwitch nRF rand s).state > -1 then
          packAt s.buf s.pc (encSwitch nRF rand s).dibyte else s.buf) := by
      split
      · rw [hpc]; exact bufOK_packAt img n W r c _ s.buf hc hbuf
      · exact hbuf
    have hwp : wrap32 (s.wpels - 1) = (W : Int) - c - 1 := by
      rw [wrap32_pred _ (by omega) (by omega), hw]
    rw [hwp]
    by_cases hlast : (W : Int) - c - 1 ≠ 0
    · left
      rw [if_pos hlast]
      refine ⟨_, rfl, Or.inl ⟨r, c + 1, hh, hr, ?_, by omega, ?_, hout, hbuf1, hsrc, hlen⟩⟩
      · show (W : Int) - c - 1 = (W : Int) - ((c + 1 : Nat) : Int)
        push_cast; ring
      · show s.pc + 3 = 3 * (c + 1)
        omega
    · rw [if_neg hlast]
      have hout1 := outOK_append img n W r s.out _ hout hbuf1
      have hhp : wrap32 (s.hpels - 1) = (H : Int) - r - 1 := by
        rw [wrap32_pred _ (by omega) (by omega), hh]
      simp only [hhp]
      by_cases hmore : (H : Int) - r - 1 ≠ 0
      · rw [if_pos hmore]
        cases hrd : freadRow n s.src
            (if (encSwitch nRF rand s).state > -1 then
              packAt s.buf s.pc (encSwitch nRF rand s).dibyte else s.buf) with
        | fault =>
          right
          exact ⟨_, rfl, fun out h => Outcome.noConfusion h⟩
        | short =>
          right
          refine ⟨_, rfl, fun out h => ?_⟩
          injection h with h1 _
          exact absurd h1 (by decide)
        | ok buf1 rest =>
          left
          obtain ⟨g1, _, g3, g4⟩ := freadRow_eq_ok _ _ _ _ _ hrd
          refine ⟨_, rfl, Or.inl ⟨r + 1, 0, ?_, by omega, ?_, by omega, rfl, hout1, ?_, ?_, ?_⟩⟩
          · show (H : Int) - r - 1 = (H : Int) - ((r + 1 : Nat) : Int)
            push_cast; ring
          · show (W : Int) = (W : Int) - ((0 : Nat) : Int)
            simp
          · show BufOK img n W (r + 1) buf1
            rw [g3, hsrc]
            exact bufOK_fread img n W (r + 1) _
          · show rest = img.drop ((r + 1 + 1) * n)
            rw [g4, hsrc, List.drop_drop]
            congr 1
            ring
          · rw [hsrc, List.length_drop] at g1
            have : (r + 1 + 1) * n = (r + 1) * n + n := by ring
            omega
      · left
        rw [if_neg hmore]
        have hrH : r + 1 = H := by omega
        refine ⟨_, rfl, Or.inr ⟨?_, ?_⟩⟩
        · show (H : Int) - r - 1 = 0
          omega
        · rw [← hrH]; exact hout1

/-- If the loop of `encode` returns 0 from a state that satisfies the invariant, all `H`
rows have been written and every output byte is related to the input byte. -/
theorem encLoop_inv (img : List Nat) (n W H : Nat) (nRF : Int) (rand : Nat → Nat)
    (hW : W < 2147483648) (hH : H < 2147483648) :
    ∀ (fuel : Nat) (s : EncState) (out : List Nat), EncInv img n W H s →
    encLoop W n nRF rand fuel s = some (Outcome.ret 0 out) → OutOK img n W H out := by
  intro fuel
  induction fuel with
  | zero =>
    intro s out hinv hres
    rcases hinv with ⟨r, c, hat⟩ | ⟨h0, hok⟩
    · have hne : ¬ s.hpels = 0 := by
        obtain ⟨hh, hr, _⟩ := hat
        omega
      simp [encLoop, hne] at hres
    · rw [encLoop_done _ _ _ _ _ _ h0] at hres
      injection hres with hres
      injection hres with _ hres
      rw [← hres]; exact hok
  | succ fuel ih =>
    intro s out hinv hres
    rcases hinv with ⟨r, c, hat⟩ | ⟨h0, hok⟩
    · have hne : ¬ s.hpels = 0 := by
        obtain ⟨hh, hr, _⟩ := hat
        omega
      simp only [encLoop, hne, if_false] at hres
      rcases encBody_inv img n W H nRF rand hW hH s r c hat with ⟨s1, hb, hi⟩ | ⟨o, hb, ho⟩
      · rw [hb] at hres
        exact ih s1 out hi hres
      · rw [hb] at hres
        injection hres with hres
        exact absurd hres (ho out)
    · rw [encLoop_done _ _ _ _ _ _ h0] at hres
      injection hres with hres
      injection hres with _ hres
      rw [← hres]; exact hok

/-- Writing the buffer and reading the next row moves the invariants one row on. -/
theorem flush_read (img : List Nat) (n W r : Nat) (out : List Nat) (buf buf1 : Buf)
    (srcr rest : List Nat) (ho : OutOK img n W r out) (hb : BufOK img n W r buf)
    (hs : srcr = img.drop ((r + 1) * n)) (hl : (r + 1) * n ≤ img.length)
    (hrd : freadRow n srcr buf = ReadResult.ok buf1 rest) :
    OutOK img n W (r + 1) (out ++ rowBytes n buf) ∧ BufOK img n W (r + 1) buf1 ∧
    rest = img.drop ((r + 1 + 1) * n) ∧ (r + 1 + 1) * n ≤ img.length := by
  obtain ⟨g1, _, g3, g4⟩ := freadRow_eq_ok _ _ _ _ _ hrd
  refine ⟨outOK_append img n W r out buf ho hb, ?_, ?_, ?_⟩
  · rw [g3, hs]; exact bufOK_fread img n W (r + 1) _
  · rw [g4, hs, List.drop_drop]
    congr 1
    ring
  · rw [hs, List.length_drop] at g1
    have : (r + 1 + 1) * n = (r + 1) * n + n := by ring
    omega

theorem outOK_nil (img : List Nat) (n W : Nat) : OutOK img n W 0 [] := by
  refine ⟨by simp, ?_⟩
  intro k hk
  simp at hk

/-- If `encode` returns 0 on an image of `W ≥ 1` by `H ≥ 1` pixels, it has written `H` rows
and every output byte is related to the input byte at the same position. -/
theorem encode_inv (hc : HDRCHECK) (W H : Nat) (hcw : hc.nBMPw = W) (hch : hc.nBMPh = H)
    (hW1 : 1 ≤ W) (hW : W < 2147483648) (hH1 : 1 ≤ H) (hH : H < 2147483648)
    (fuel : Nat) (nFS2 nRF : Int) (src data : List Nat) (rand : Nat → Nat) (buf0 : Buf)
    (out : List Nat)
    (henc : encode fuel hc nFS2 nRF src data rand buf0 = some (Outcome.ret 0 out)) :
    OutOK src (toSizeT hc.nStride) W H out := by
  unfold encode at henc
  simp only [hcw, hch] at henc
  generalize toSizeT hc.nStride = n at henc ⊢
  generalize ((nFS2 % 65536).toNat % 256) = c0 at henc
  generalize ((nFS2 % 65536).toNat / 256) = c1 at henc
  cases hrd : freadRow n src buf0 with
  | fault => simp [hrd] at henc
  | short => simp [hrd] at henc
  | ok buf1 rest =>
    simp only [hrd] at henc
    obtain ⟨g1, _, g3, g4⟩ := freadRow_eq_ok _ _ _ _ _ hrd
    have hb0 : BufOK src n W 0 buf1 := by
      have := bufOK_fread src n W 0 buf0
      simp only [Nat.zero_mul, List.drop_zero] at this
      rw [g3]; exact this
    have hb1 : BufOK src n W 0 (packAt buf1 0 c0) :=
      bufOK_packAt src n W 0 0 c0 buf1 (by omega) hb0
    have hs0 : rest = src.drop ((0 + 1) * n) := by simpa using g4
    have hl0 : (0 + 1) * n ≤ src.length := by simpa using g1
    have hw1 : wrap32 ((W : Int) - 1) = (W : Int) - 1 := wrap32_pred _ (by omega) (by omega)
    have hh1 : wrap32 ((H : Int) - 1) = (H : Int) - 1 := wrap32_pred _ (by omega) (by omega)
    rw [hw1] at henc
    by_cases hw2 : (W : Int) - 1 ≠ 0
    · -- at least two pixels per row
      simp only [hw2, ne_eq, not_false_eq_true, if_true] at henc
      have hb2 : BufOK src n W 0 (packAt (packAt buf1 0 c0) 3 c1) :=
        bufOK_packAt src n W 0 1 c1 _ (by omega) hb1
      have hw3 : wrap32 ((W : Int) - 1 - 1) = (W : Int) - 1 - 1 :=
        wrap32_pred _ (by omega) (by omega)
      rw [hw3] at henc
      by_cases hw4 : (W : Int) - 1 - 1 ≠ 0
      · simp only [hw4, ne_eq, not_false_eq_true, if_true] at henc
        refine encLoop_inv src n W H nRF rand hW hH fuel _ out (Or.inl ⟨0, 2, ?_⟩) henc
        refine ⟨?_, by omega, ?_, by omega, rfl, outOK_nil src n W, hb2, hs0, hl0⟩
        · show (H : Int) = (H : Int) - ((0 : Nat) : Int)
          omega
        · show (W : Int) - 1 - 1 = (W : Int) - ((2 : Nat) : Int)
          omega
      · simp only [hw4, if_false, hh1] at henc
        by_cases hh2 : (H : Int) - 1 = 0
        · simp [hh2] at henc
        · simp only [hh2, if_false] at henc
          cases hrd2 : freadRow n rest (packAt (packAt buf1 0 c0) 3 c1) with
          | fault => simp [hrd2] at henc
          | short => simp [hrd2] at henc
          | ok buf2 rest2 =>
            simp only [hrd2] at henc
            obtain ⟨f1, f2, f3, f4⟩ := flush_read src n W 0 [] _ buf2 rest rest2
              (outOK_nil src n W) hb2 hs0 hl0 hrd2
            refine encLoop_inv src n W H nRF rand hW hH fuel _ out (Or.inl ⟨0 + 1, 0, ?_⟩) henc
            refine ⟨?_, by omega, ?_, by omega, rfl, f1, f2, f3, f4⟩
            · show (H : Int) - 1 = (H : Int) - ((0 + 1 : Nat) : Int)
              omega
            · show (W : Int) = (W : Int) - ((0 : Nat) : Int)
              omega
    · -- one pixel per row
      have hW1' : W = 1 := by omega
      simp only [hw2, if_false, hh1] at henc
      by_cases hh2 : (H : Int) - 1 = 0
      · simp [hh2] at henc
      · simp only [hh2, if_false] at henc
        cases hrd2 : freadRow n rest (packAt buf1 0 c0) with
        | fault => simp [hrd2] at henc
        | short => simp [hrd2] at henc
        | ok buf2 rest2 =>
          simp only [hrd2] at henc
          have ho1 : OutOK src n W 0 [] := outOK_nil src n W
          obtain ⟨f1, f2, f3, f4⟩ := flush_read src n W 0 [] _ buf2 rest rest2
            ho1 hb1 hs0 hl0 hrd2
          have hb3 : BufOK src n W (0 + 1) (packAt buf2 0 c1) :=
            bufOK_packAt src n W (0 + 1) 0 c1 buf2 (by omega) f2
          have hw5 : wrap32 ((W : Int) - 1) = 0 := by rw [hw1]; omega
          have hh3 : wrap32 ((H : Int) - 1 - 1) = (H : Int) - 1 - 1 :=
            wrap32_pred _ (by omega) (by omega)
          simp only [hw5, ne_eq, not_true_eq_false, if_false, hh3] at henc
          by_cases hh4 : (H : Int) - 1 - 1 = 0
          · simp [hh4] at henc
          · simp only [hh4, if_false] at henc
            cases hrd3 : freadRow n rest2 (packAt buf2 0 c1) with
            | fault => simp [hrd3] at henc
            | short => simp [hrd3] at henc
            | ok buf3 rest3 =>
              simp only [hrd3] at henc
              simp only [List.nil_append] at f1
              obtain ⟨k1, k2, k3, k4⟩ := flush_read src n W (0 + 1) _ _ buf3 rest2 rest3
                f1 hb3 f3 f4 hrd3
              refine encLoop_inv src n W H nRF rand hW hH fuel _ out (Or.inl ⟨1 + 1, 0, ?_⟩) henc
              refine ⟨?_, by omega, ?_, by omega, rfl, k1, k2, k3, k4⟩
              · show (H : Int) - 1 - 1 = (H : Int) - ((1 + 1 : Nat) : Int)
                omega
              · show (W : Int) = (W : Int) - ((0 : Nat) : Int)
                omega

/-! ## Bounded perturbation -/

set_option maxRecDepth 100000 in
theorem byte_split_f8 : ∀ x : Fin 256, x.val = (x.val &&& 0xf8) + x.val % 8 := by decide

set_option maxRecDepth 100000 in
theorem byte_split_fc : ∀ x : Fin 256, x.val = (x.val &&& 0xfc) + x.val % 4 := by decide

/-- Two bytes with the same top bits differ by at most 3 (green) or 7 (blue, red). -/
theorem byteOK_bound (W o x y : Nat) (h : ByteOK W o x y) (hy : y < 256) :
    ((x : Int) - (y : Int)).natAbs ≤ (if o % 3 = 1 then 3 else 7) := by
  obtain ⟨h1, h2, _⟩ := h
  rcases h1 with rfl | hx
  · simp only [sub_self, Int.natAbs_zero]
    split <;> omega
  · unfold topBits at h2
    by_cases hm : o % 3 = 1
    · simp only [hm, if_true] at h2 ⊢
      have ex := byte_split_fc ⟨x, hx⟩
      have ey := byte_split_fc ⟨y, hy⟩
      simp only at ex ey
      omega
    · simp only [hm, if_false] at h2 ⊢
      have ex := byte_split_f8 ⟨x, hx⟩
      have ey := byte_split_f8 ⟨y, hy⟩
      simp only at ex ey
      omega

theorem wrap32_range (x : Int) : -2147483648 ≤ wrap32 x ∧ wrap32 x < 2147483648 := by
  unfold wrap32; omega

theorem validate_hdr4x4 : validateheadere hdr4x4 102 1 = hc4x4 := by decide!

/-- C5. Bounded perturbation. For a header accepted by `validateheadere`, pixel data of
exactly `height * stride` bytes, and any payload, fill mode and random source: if `encode`
returns 0, its output has the length of the input, every row-padding byte (row offset at
least `3 * width`) equals the input byte, and every other byte differs from the input byte
by at most 7 (blue, red) or 3 (green) in absolute value. -/
theorem bounded_perturbation (p : BmpHeader) (i j : Int) (fuel : Nat) (nFS2 nRF : Int)
    (src data : List Nat) (rand : Nat → Nat) (buf0 : Buf) (out : List Nat)
    (hp : p.InRange)
    (hacc : (validateheadere p i j).nValid = HDR_CHECKE_PASS)
    (hbytes : ∀ k, k < src.length → src.getD k 0 < 256)
    (hlen : src.length =
      (validateheadere p i j).nBMPh.toNat * toSizeT (validateheadere p i j).nStride)
    (henc : encode fuel (validateheadere p i j) nFS2 nRF src data rand buf0
      = some (Outcome.ret 0 out)) :
    out.length = src.length ∧
    ∀ k, k < src.length →
      (3 * (validateheadere p i j).nBMPw
          ≤ ((k % toSizeT (validateheadere p i j).nStride : Nat) : Int) →
        out.getD k 0 = src.getD k 0) ∧
      (k % toSizeT (validateheadere p i j).nStride % 3 = 0 →
        ((out.getD k 0 : Int) - (src.getD k 0 : Int)).natAbs ≤ 7) ∧
      (k % toSizeT (validateheadere p i j).nStride % 3 = 1 →
        ((out.getD k 0 : Int) - (src.getD k 0 : Int)).natAbs ≤ 3) ∧
      (k % toSizeT (validateheadere p i j).nStride % 3 = 2 →
        ((out.getD k 0 : Int) - (src.getD k 0 : Int)).natAbs ≤ 7) := by
  have hA := (validateheadere_accept_iff p i j).1 hacc
  obtain ⟨_, _, _, _, _, ⟨hw, hh⟩, _⟩ := hA
  have hwr : p.biWidth < 2147483648 := hp.2.2.2.2.2.2.2.1.2
  have hhr := (wrap32_range (if p.biHeight < 0 then -p.biHeight else p.biHeight)).2
  have hcw : (validateheadere p i j).nBMPw = (p.biWidth.toNat : Int) := by
    rw [validateheadere_nBMPw, Int.toNat_of_nonneg (by omega)]
  have hch : (validateheadere p i j).nBMPh = ((abs32 p.biHeight).toNat : Int) := by
    rw [validateheadere_nBMPh, Int.toNat_of_nonneg (by omega)]
  have hinv := encode_inv (validateheadere p i j) p.biWidth.toNat (abs32 p.biHeight).toNat
    hcw hch (by omega) (by omega) (by omega) (by unfold abs32; omega) fuel nFS2 nRF src data
    rand buf0 out henc
  obtain ⟨hol, hall⟩ := hinv
  rw [validateheadere_nBMPh] at hlen
  refine ⟨by rw [hol, hlen], ?_⟩
  intro k hk
  have hb := hall k (by rw [← hlen]; exact hk)
  have hbd := byteOK_bound _ _ _ _ hb (hbytes k hk)
  refine ⟨?_, ?_, ?_, ?_⟩
  · intro hpad
    apply hb.2.2
    rw [hcw] at hpad
    omega
  · intro hm
    have : ¬ (k % toSizeT (validateheadere p i j).nStride % 3 = 1) := by omega
    simpa [this] using hbd
  · intro hm
    simpa [hm] using hbd
  · intro hm
    have : ¬ (k % toSizeT (validateheadere p i j).nStride % 3 = 1) := by omega
    simpa [this] using hbd

/-- Witness for C5: the 4 by 4 image `data4x4` with the payload `[0x41]` and no fill. -/
theorem bounded_perturbation_witness :
    hdr4x4.InRange ∧ (validateheadere hdr4x4 102 1).nValid = HDR_CHECKE_PASS ∧
    encode 14 (validateheadere hdr4x4 102 1) 1 0 data4x4 [0x41] (fun _ => 0) zeroBuf
      = some (Outcome.ret 0 out4x4) ∧
    out4x4.length = data4x4.length ∧
    ∀ k, k < data4x4.length →
      (3 * (validateheadere hdr4x4 102 1).nBMPw
          ≤ ((k % toSizeT (validateheadere hdr4x4 102 1).nStride : Nat) : Int) →
        out4x4.getD k 0 = data4x4.getD k 0) ∧
      (k % toSizeT (validateheadere hdr4x4 102 1).nStride % 3 = 0 →
        ((out4x4.getD k 0 : Int) - (data4x4.getD k 0 : Int)).natAbs ≤ 7) ∧
      (k % toSizeT (validateheadere hdr4x4 102 1).nStride % 3 = 1 →
        ((out4x4.getD k 0 : Int) - (data4x4.getD k 0 : Int)).natAbs ≤ 3) ∧
      (k % toSizeT (validateheadere hdr4x4 102 1).nStride % 3 = 2 →
        ((out4x4.getD k 0 : Int) - (data4x4.getD k 0 : Int)).natAbs ≤ 7) :=
  ⟨by decide, by decide!, by decide!,
    bounded_perturbation hdr4x4 102 1 14 1 0 data4x4 [0x41] (fun _ => 0) zeroBuf out4x4
      (by decide) (by decide!) (by decide) (by decide!) (by decide!)⟩

/-! ## Decoding an embedded length of zero -/

theorem validate_hdr2x2 : validateheaderd hdr2x2 70 = hc2x2 := by decide!

theorem decode_2x2_zero (fuel : Nat) :
    decode (fuel + 3) hc2x2 data2x2 zeroBuf = some (Outcome.ret (-5) [0, 0]) := rfl

/-- C10 at a failing input. The 2 by 2 header `hdr2x2` is accepted by `validateheaderd`, the
pixel data `data2x2` has `height * stride = 16` bytes and its first two pixels carry the
length `L = 0 ≤ 2 * 2 - 2`; `decode` writes two bytes and returns `-5`, where the claim has
it return 0 having written nothing. -/
theorem decode_zero_length_emits :
    (validateheaderd hdr2x2 70).nValid = HDR_CHECKD_PASS ∧
    (data2x2.length : Int) =
      (validateheaderd hdr2x2 70).nBMPh * (validateheaderd hdr2x2 70).nStride ∧
    unpackPixel data2x2 2 8 0 + 256 * unpackPixel data2x2 2 8 1 = 0 ∧
    ∀ fuel : Nat,
      decode (fuel + 3) (validateheaderd hdr2x2 70) data2x2 zeroBuf
        = some (Outcome.ret (-5) [0, 0]) := by
  rw [validate_hdr2x2]
  exact ⟨rfl, rfl, by decide, decode_2x2_zero⟩

/-! ## Pixels in the buffer and in the output -/

theorem pixelOffset_rc (W n r c : Nat) (hc : c < W) :
    pixelOffset W n (r * W + c) = r * n + 3 * c := by
  unfold pixelOffset
  have hW : 0 < W := by omega
  have h1 : (r * W + c) / W = r := by
    rw [Nat.add_comm, Nat.add_mul_div_right _ _ hW, Nat.div_eq_of_lt hc, Nat.zero_add]
  have h2 : (r * W + c) % W = c := by
    rw [Nat.add_comm, Nat.add_mul_mod_self_right, Nat.mod_eq_of_lt hc]
  rw [h1, h2]

theorem unpackAt_packAt_self (buf : Buf) (pc d : Nat) (hd : d < 256) :
    unpackAt (packAt buf pc d) pc = d := by
  unfold unpackAt
  rw [packAt_blue, packAt_green, packAt_red]
  exact unpackBytes_pack d _ _ _ hd

theorem unpackAt_packAt_other (buf : Buf) (c c' d : Nat) (h : c' ≠ c) :
    unpackAt (packAt buf (3 * c) d) (3 * c') = unpackAt buf (3 * c') := by
  unfold unpackAt
  rw [packAt_other _ _ _ _ (by omega) (by omega) (by omega),
    packAt_other _ _ _ _ (by omega) (by omega) (by omega),
    packAt_other _ _ _ _ (by omega) (by omega) (by omega)]

/-- A pixel of the row just appended to the output is the pixel of the buffer. -/
theorem unpackPixel_append_row (W n r c : Nat) (out : List Nat) (buf : Buf)
    (hlen : out.length = r * n) (hc : c < W) (hn : 3 * W ≤ n) :
    unpackPixel (out ++ rowBytes n buf) W n (r * W + c) = unpackAt buf (3 * c) := by
  unfold unpackPixel unpackAt
  rw [pixelOffset_rc W n r c hc]
  have e0 : (out ++ rowBytes n buf).getD (r * n + 3 * c) 0 = buf (3 * c) := by
    rw [List.getD_append_right _ _ _ _ (by omega), hlen, Nat.add_sub_cancel_left,
      rowBytes_getD _ _ _ (by omega)]
  have e1 : (out ++ rowBytes n buf).getD (r * n + 3 * c + 1) 0 = buf (3 * c + 1) := by
    rw [List.getD_append_right _ _ _ _ (by omega), hlen,
      show r * n + 3 * c + 1 - r * n = 3 * c + 1 by omega, rowBytes_getD _ _ _ (by omega)]
  have e2 : (out ++ rowBytes n buf).getD (r * n + 3 * c + 2) 0 = buf (3 * c + 2) := by
    rw [List.getD_append_right _ _ _ _ (by omega), hlen,
      show r * n + 3 * c + 2 - r * n = 3 * c + 2 by omega, rowBytes_getD _ _ _ (by omega)]
  rw [e0, e1, e2]

/-- The three bytes of a pixel of the first `r` rows lie in the first `r * n` bytes. -/
theorem pixelOffset_lt (W n r q : Nat) (hq : q < r * W) (hn : 3 * W ≤ n) :
    pixelOffset W n q + 2 < r * n := by
  unfold pixelOffset
  have hW : 0 < W := by
    rcases Nat.eq_zero_or_pos W with h | h
    · rw [h] at hq; simp at hq
    · exact h
  have h1 : q / W < r := (Nat.div_lt_iff_lt_mul hW).2 hq
  have h2 : q % W < W := Nat.mod_lt _ hW
  have h3 : (q / W + 1) * n ≤ r * n := Nat.mul_le_mul_right n h1
  rw [Nat.add_mul] at h3
  omega

/-- Appending to the output does not change the pixels of the rows already written. -/
theorem unpackPixel_append_left (W n r q : Nat) (out more : List Nat)
    (hlen : out.length = r * n) (hq : q < r * W) (hn : 3 * W ≤ n) :
    unpackPixel (out ++ more) W n q = unpackPixel out W n q := by
  have h := pixelOffset_lt W n r q hq hn
  unfold unpackPixel
  rw [List.getD_append _ _ _ _ (by omega), List.getD_append _ _ _ _ (by omega),
    List.getD_append _ _ _ _ (by omega)]

theorem embedded_zero (c0 c1 : Nat) (P : List Nat) : embedded c0 c1 P 0 = c0 := rfl

theorem embedded_one (c0 c1 : Nat) (P : List Nat) : embedded c0 c1 P 1 = c1 := rfl

theorem embedded_payload (c0 c1 : Nat) (P : List Nat) (i : Nat) :
    embedded c0 c1 P (2 + i) = (P.map (fun b => b % 256)).getD i 0 := by
  unfold embedded
  rw [List.getD_append_right _ _ _ _ (by simp)]
  simp

/-- The head of the payload stream is the byte of the current pixel. -/
theorem embedded_of_drop (c0 c1 : Nat) (P : List Nat) (q b : Nat) (rest : List Nat)
    (hq : 2 ≤ q) (h : P.drop (q - 2) = b :: rest) :
    embedded c0 c1 P q = b % 256 ∧ rest = P.drop (q + 1 - 2) ∧ q < 2 + P.length := by
  have hlt : q - 2 < P.length := by
    by_contra hcon
    rw [List.drop_eq_nil_of_le (by omega)] at h
    exact List.noConfusion h
  have hb : P[q - 2] = b := by
    have := List.getElem_drop' (L := P) (i := q - 2) (j := 0) (by simpa using hlt)
    simp only [h, List.getElem_cons_zero, Nat.add_zero] at this
    exact this
  refine ⟨?_, ?_, by omega⟩
  · have e : q = 2 + (q - 2) := by omega
    rw [e, embedded_payload, List.getD_eq_getElem _ _ (by simpa using hlt)]
    simp [hb]
  · have : P.drop (q + 1 - 2) = (P.drop (q - 2)).drop 1 := by
      rw [List.drop_drop]; congr 1; omega
    rw [this, h]; rfl

theorem length_le_of_drop_nil (P : List Nat) (k : Nat) (h : P.drop k = []) : P.length ≤ k := by
  simpa using h

/-! ## The encoder on a bitmap whose rows fit the buffer -/

/-- What the `switch(state)` does to the payload stream at pixel `q`. -/
theorem encSwitch_payload (nRF : Int) (rand : Nat → Nat) (s : EncState) (c0 c1 : Nat)
    (P : List Nat) (q : Nat) (hq : 2 ≤ q)
    (hpay : (s.state = 0 ∧ s.data = P.drop (q - 2)) ∨ (s.state ≠ 0 ∧ P.length ≤ q - 2)) :
    ((encSwitch nRF rand s).state = 0 ∧ (encSwitch nRF rand s).data = P.drop (q + 1 - 2) ∧
      (encSwitch nRF rand s).dibyte = embedded c0 c1 P q ∧ q < 2 + P.length) ∨
    ((encSwitch nRF rand s).state ≠ 0 ∧ P.length ≤ q - 2) := by
  rcases hpay with ⟨h0, hd⟩ | ⟨h0, hl⟩
  · cases hdata : s.data with
    | nil =>
      right
      refine ⟨?_, length_le_of_drop_nil P _ (by rw [← hd, hdata])⟩
      unfold encSwitch
      simp only [h0, if_true, hdata]
      split <;> omega
    | cons b rest =>
      left
      obtain ⟨g1, g2, g3⟩ := embedded_of_drop c0 c1 P q b rest hq (by rw [← hd, hdata])
      unfold encSwitch
      simp only [h0, if_true, hdata]
      exact ⟨trivial, g2, g1.symm, g3⟩
  · right
    refine ⟨?_, hl⟩
    unfold encSwitch
    simp only [h0, if_false]
    split
    · simpa using h0
    · split
      · simpa using h0
      · split
        · simpa using h0
        · exact h0

theorem embedded_lt (c0 c1 : Nat) (P : List Nat) (q : Nat) (h0 : c0 < 256) (h1 : c1 < 256) :
    embedded c0 c1 P q < 256 := by
  unfold embedded
  by_cases hq : q < ([c0, c1] ++ P.map (fun b => b % 256)).length
  · rw [List.getD_eq_getElem _ _ hq]
    have hmem := List.getElem_mem hq
    simp only [List.mem_append, List.mem_cons, List.mem_singleton, List.not_mem_nil, or_false,
      List.mem_map] at hmem
    rcases hmem with (h | h) | ⟨b, _, h⟩
    · rw [h]; exact h0
    · rw [h]; exact h1
    · rw [← h]; exact Nat.mod_lt _ (by decide)
  · rw [List.getD_eq_default _ _ (by omega)]
    decide

/-- One pass of the loop at pixel `c` of row `r`: the encoder moves to the next pixel, to
the next row, or finishes, and the pixels processed so far carry their bytes. -/
theorem encBody_layout (n W H c0 c1 : Nat) (P : List Nat) (nRF : Int) (rand : Nat → Nat)
    (hs : Sane W H n) (h0 : c0 < 256) (h1 : c1 < 256) (s : EncState) (r c : Nat)
    (hat : LayAt n W H c0 c1 P r c s) :
    ∃ s1, encBody W n nRF rand s = Sum.inl s1 ∧
      ((c + 1 < W ∧ LayAt n W H c0 c1 P r (c + 1) s1) ∨
       (c + 1 = W ∧ r + 1 < H ∧ LayAt n W H c0 c1 P (r + 1) 0 s1) ∨
       (c + 1 = W ∧ r + 1 = H ∧ s1.hpels = 0 ∧ LayOut W n c0 c1 P H s1.out)) := by
  obtain ⟨hW1, hW, hH1, hH, hn3, hnB⟩ := hs
  obtain ⟨hh, hr, hw, hc, hpc, hq, hout, hbuf, hsrc, hpay⟩ := hat
  obtain ⟨e1, e2, e3, e4, e5, e6⟩ := encSwitch_frame nRF rand s
  have hpay1 := encSwitch_payload nRF rand s c0 c1 P (r * W + c) hq hpay
  unfold encBody
  simp only [e1, e2, e3, e4, e5, e6]
  have hnf : ¬ ((encSwitch nRF rand s).state > -1 ∧ ¬ (s.pc + 2 < BUF_SIZE)) := by
    rintro ⟨_, hb⟩
    apply hb
    omega
  rw [if_neg hnf]
  -- the buffer after the pass
  have hbuf1 : LayBuf W c0 c1 P r (c + 1)
      (if (encSwitch nRF rand s).state > -1 then
        packAt s.buf s.pc (encSwitch nRF rand s).dibyte else s.buf) := by
    intro c' hc' hlt
    by_cases hcc : c' = c
    · subst hcc
      rcases hpay1 with ⟨g0, _, g2, _⟩ | ⟨_, gl⟩
      · have : (encSwitch nRF rand s).state > -1 := by omega
        rw [if_pos this, hpc, g2]
        exact unpackAt_packAt_self _ _ _ (embedded_lt c0 c1 P _ h0 h1)
      · omega
    · have hold := hbuf c' (by omega) hlt
      split
      · rw [hpc, unpackAt_packAt_other _ _ _ _ hcc]; exact hold
      · exact hold
  have hpay2 : ((encSwitch nRF rand s).state = 0 ∧
        (encSwitch nRF rand s).data = P.drop (r * W + c + 1 - 2)) ∨
      ((encSwitch nRF rand s).state ≠ 0 ∧ P.length ≤ r * W + c + 1 - 2) := by
    rcases hpay1 with ⟨g0, g1, _, _⟩ | ⟨g0, gl⟩
    · exact Or.inl ⟨g0, g1⟩
    · exact Or.inr ⟨g0, by omega⟩
  have hwp : wrap32 (s.wpels - 1) = (W : Int) - c - 1 := by
    rw [wrap32_pred _ (by omega) (by omega), hw]
  rw [hwp]
  by_cases hlast : (W : Int) - c - 1 ≠ 0
  · rw [if_pos hlast]
    refine ⟨_, rfl, Or.inl ⟨by omega, hh, hr, ?_, by omega, ?_, by omega, hout, hbuf1, hsrc,
      hpay2⟩⟩
    · show (W : Int) - c - 1 = (W : Int) - ((c + 1 : Nat) : Int)
      omega
    · show s.pc + 3 = 3 * (c + 1)
      omega
  · rw [if_neg hlast]
    have hcW : c + 1 = W := by omega
    -- the output after the row is written
    have hout1 : LayOut W n c0 c1 P (r + 1)
        (s.out ++ rowBytes n (if (encSwitch nRF rand s).state > -1 then
          packAt s.buf s.pc (encSwitch nRF rand s).dibyte else s.buf)) := by
      obtain ⟨hol, hop⟩ := hout
      refine ⟨by rw [List.length_append, rowBytes_length, hol, Nat.add_mul, Nat.one_mul], ?_⟩
      intro q hq1 hq2
      by_cases hqr : q < r * W
      · rw [unpackPixel_append_left W n r q _ _ hol hqr hn3]
        exact hop q hqr hq2
      · have hqc : q - r * W < W := by rw [Nat.add_mul] at hq1; omega
        have hqe : q = r * W + (q - r * W) := by omega
        rw [hqe, unpackPixel_append_row W n r _ _ _ hol hqc hn3]
        exact hbuf1 _ (by omega) (by omega)
    have hhp : wrap32 (s.hpels - 1) = (H : Int) - r - 1 := by
      rw [wrap32_pred _ (by omega) (by omega), hh]
    simp only [hhp]
    by_cases hmore : (H : Int) - r - 1 ≠ 0
    · rw [if_pos hmore]
      have hrH : r + 1 < H := by omega
      have hlen : n ≤ s.src.length := by
        rw [hsrc]
        exact Nat.le_mul_of_pos_left n (by omega)
      rw [freadRow_ok n s.src _ hlen hnB]
      refine ⟨_, rfl, Or.inr (Or.inl ⟨hcW, hrH, ?_, by omega, ?_, by omega, rfl, ?_, hout1, ?_,
        ?_, ?_⟩)⟩
      · show (H : Int) - r - 1 = (H : Int) - ((r + 1 : Nat) : Int)
        omega
      · show (W : Int) = (W : Int) - ((0 : Nat) : Int)
        omega
      · have : 2 ≤ r * W + c := hq
        rw [Nat.add_mul]; omega
      · intro c' hc' _
        omega
      · show (s.src.drop n).length = (H - 1 - (r + 1)) * n
        rw [List.length_drop, hsrc]
        have : H - 1 - r = (H - 1 - (r + 1)) + 1 := by omega
        rw [this, Nat.add_mul]; omega
      · have e : (r + 1) * W + 0 - 2 = r * W + c + 1 - 2 := by
          rw [Nat.add_mul]; omega
        rw [e]; exact hpay2
    · rw [if_neg hmore]
      have hrH : r + 1 = H := by omega
      refine ⟨_, rfl, Or.inr (Or.inr ⟨hcW, hrH, ?_, ?_⟩)⟩
      · show (H : Int) - r - 1 = 0
        omega
      · rw [← hrH]; exact hout1

/-- From pixel `c` of row `r` the loop of `encode` returns 0 after one pass per remaining
pixel, and in its output every pixel below `2 + |P|` carries its byte. -/
theorem encLoop_layout (n W H c0 c1 : Nat) (P : List Nat) (nRF : Int) (rand : Nat → Nat)
    (hs : Sane W H n) (h0 : c0 < 256) (h1 : c1 < 256) :
    ∀ (rem r c : Nat) (s : EncState), LayAt n W H c0 c1 P r c s →
    rem = (H - 1 - r) * W + (W - c) →
    ∃ out, (∀ extra, encLoop W n nRF rand (rem + extra) s = some (Outcome.ret 0 out)) ∧
      LayOut W n c0 c1 P H out := by
  intro rem
  induction rem with
  | zero =>
    intro r c s hat hrem
    have := hat.2.2.2.1
    omega
  | succ rem ih =>
    intro r c s hat hrem
    have hne : s.hpels ≠ 0 := by
      have := hat.1
      have := hat.2.1
      omega
    obtain ⟨s1, hb, hcase⟩ := encBody_layout n W H c0 c1 P nRF rand hs h0 h1 s r c hat
    have hstep : ∀ extra, encLoop W n nRF rand (rem + 1 + extra) s =
        encLoop W n nRF rand (rem + extra) s1 := by
      intro extra
      rw [show rem + 1 + extra = (rem + extra) + 1 by omega]
      exact encLoop_step W n nRF rand _ s s1 hne hb
    rcases hcase with ⟨hc1, hat1⟩ | ⟨hc1, hr1, hat1⟩ | ⟨hc1, hr1, hdone, hout⟩
    · obtain ⟨out, ho1, ho2⟩ := ih r (c + 1) s1 hat1 (by omega)
      exact ⟨out, fun extra => by rw [hstep, ho1], ho2⟩
    · have hrem1 : rem = (H - 1 - (r + 1)) * W + (W - 0) := by
        have e : H - 1 - r = (H - 1 - (r + 1)) + 1 := by omega
        rw [e, Nat.add_mul] at hrem
        omega
      obtain ⟨out, ho1, ho2⟩ := ih (r + 1) 0 s1 hat1 hrem1
      exact ⟨out, fun extra => by rw [hstep, ho1], ho2⟩
    · exact ⟨s1.out, fun extra => by rw [hstep, encLoop_done _ _ _ _ _ _ hdone], hout⟩

theorem unpackAt_packAt_far (buf : Buf) (pc pc' d : Nat) (h : pc + 3 ≤ pc' ∨ pc' + 3 ≤ pc) :
    unpackAt (packAt buf pc d) pc' = unpackAt buf pc' := by
  unfold unpackAt
  rw [packAt_other _ _ _ _ (by omega) (by omega) (by omega),
    packAt_other _ _ _ _ (by omega) (by omega) (by omega),
    packAt_other _ _ _ _ (by omega) (by omega) (by omega)]

theorem layOut_nil (W n c0 c1 : Nat) (P : List Nat) : LayOut W n c0 c1 P 0 [] := by
  refine ⟨by simp, ?_⟩
  intro q hq
  simp at hq

/-- The two bytes of the 16-bit length are bytes. -/
theorem length_bytes_lt (nFS2 : Int) :
    (nFS2 % 65536).toNat % 256 < 256 ∧ (nFS2 % 65536).toNat / 256 < 256 := by
  have h1 : (nFS2 % 65536).toNat < 65536 := by omega
  omega

/-- On a bitmap whose rows fit the buffer, with at least three pixels and complete pixel
data, `encode` returns 0 after `W * H - 2` passes of its loop, and in its output pixel 0
carries the low length byte, pixel 1 the high length byte and pixel `2 + i` the payload byte
`P[i]`. -/
theorem encode_layout (hc : HDRCHECK) (W H n : Nat) (hcw : hc.nBMPw = W) (hch : hc.nBMPh = H)
    (hcn : toSizeT hc.nStride = n) (hs : Sane W H n) (h3 : 3 ≤ W * H)
    (nFS2 nRF : Int) (src P : List Nat) (rand : Nat → Nat) (buf0 : Buf)
    (hsrc : src.length = H * n) :
    ∃ out, (∀ extra, encode (W * H - 2 + extra) hc nFS2 nRF src P rand buf0
        = some (Outcome.ret 0 out)) ∧
      LayOut W n ((nFS2 % 65536).toNat % 256) ((nFS2 % 65536).toNat / 256) P H out := by
  obtain ⟨hc0, hc1⟩ := length_bytes_lt nFS2
  have hs' := hs
  obtain ⟨hW1, hW, hH1, hH, hn3, hnB⟩ := hs
  unfold encode
  simp only [hcw, hch, hcn]
  generalize ((nFS2 % 65536).toNat % 256) = c0 at hc0 ⊢
  generalize ((nFS2 % 65536).toNat / 256) = c1 at hc1 ⊢
  have hHn : n ≤ H * n := Nat.le_mul_of_pos_left n (by omega)
  rw [freadRow_ok n src buf0 (by omega) hnB]
  simp only
  have hw1 : wrap32 ((W : Int) - 1) = (W : Int) - 1 := wrap32_pred _ (by omega) (by omega)
  have hh1 : wrap32 ((H : Int) - 1) = (H : Int) - 1 := wrap32_pred _ (by omega) (by omega)
  have hrest : (src.drop n).length = (H - 1) * n := by
    rw [List.length_drop, hsrc, Nat.sub_mul, Nat.one_mul]
  rw [hw1]
  by_cases hw2 : (W : Int) - 1 ≠ 0
  · simp only [hw2, ne_eq, not_false_eq_true, if_true]
    have hw3 : wrap32 ((W : Int) - 1 - 1) = (W : Int) - 1 - 1 :=
      wrap32_pred _ (by omega) (by omega)
    rw [hw3]
    have hp0 : unpackAt (packAt (packAt (fun k => if k < n then src.getD k 0 else buf0 k)
        0 c0) 3 c1) (3 * 0) = c0 := by
      rw [unpackAt_packAt_far _ _ _ _ (by omega)]
      exact unpackAt_packAt_self _ _ _ hc0
    have hp1 : unpackAt (packAt (packAt (fun k => if k < n then src.getD k 0 else buf0 k)
        0 c0) 3 c1) (3 * 1) = c1 := unpackAt_packAt_self _ _ _ hc1
    have hlb : LayBuf W c0 c1 P 0 2
        (packAt (packAt (fun k => if k < n then src.getD k 0 else buf0 k) 0 c0) 3 c1) := by
      intro c' hc' _
      have : c' = 0 ∨ c' = 1 := by omega
      rcases this with rfl | rfl
      · rw [hp0, Nat.zero_mul, Nat.zero_add]; rfl
      · rw [hp1, Nat.zero_mul, Nat.zero_add]; rfl
    by_cases hw4 : (W : Int) - 1 - 1 ≠ 0
    · -- three or more pixels per row
      simp only [hw4, ne_eq, not_false_eq_true, if_true]
      have hrem : W * H - 2 = (H - 1 - 0) * W + (W - 2) := by
        have e : (H - 1) * W + W = W * H := by
          rw [Nat.mul_comm W H]
          conv_rhs => rw [← Nat.sub_add_cancel hH1]
          rw [Nat.add_mul, Nat.one_mul]
        have : 2 ≤ W := by omega
        simp only [Nat.sub_zero]
        omega
      apply encLoop_layout n W H c0 c1 P nRF rand hs' hc0 hc1 (W * H - 2) 0 2 _ ?_ hrem
      refine ⟨?_, by omega, ?_, by omega, rfl, by omega, layOut_nil W n c0 c1 P, hlb, ?_,
        Or.inl ⟨rfl, by simp⟩⟩
      · show (H : Int) = (H : Int) - ((0 : Nat) : Int)
        omega
      · show (W : Int) - 1 - 1 = (W : Int) - ((2 : Nat) : Int)
        omega
      · show (src.drop n).length = (H - 1 - 0) * n
        rw [hrest]; rfl
    · -- two pixels per row
      have hW2 : W = 2 := by omega
      subst hW2
      have hH2 : 2 ≤ H := by omega
      have hh2 : ¬ ((H : Int) - 1 = 0) := by omega
      simp only [hw4, if_false, hh1, hh2]
      rw [freadRow_ok n (src.drop n) _ (by rw [hrest]; exact Nat.le_mul_of_pos_left n (by omega))
        hnB]
      simp only [List.nil_append]
      have hlo : LayOut 2 n c0 c1 P (0 + 1) ([] ++ rowBytes n
          (packAt (packAt (fun k => if k < n then src.getD k 0 else buf0 k) 0 c0) 3 c1)) := by
        refine ⟨by simp [rowBytes_length], ?_⟩
        intro q hq1 _
        have hq : q = 0 * 2 + q := by omega
        rw [hq, unpackPixel_append_row 2 n 0 q [] _ (by simp) (by omega) hn3]
        exact hlb q (by omega) (by omega)
      simp only [List.nil_append, Nat.zero_add] at hlo
      apply encLoop_layout n 2 H c0 c1 P nRF rand hs' hc0 hc1 (2 * H - 2) 1 0 _ ?_ (by omega)
      refine ⟨?_, by omega, ?_, by omega, rfl, by omega, hlo, ?_, ?_, Or.inl ⟨rfl, by simp⟩⟩
      · show (H : Int) - 1 = (H : Int) - ((1 : Nat) : Int)
        omega
      · show ((2 : Nat) : Int) = ((2 : Nat) : Int) - ((0 : Nat) : Int)
        omega
      · intro c' hc' _
        omega
      · show ((src.drop n).drop n).length = (H - 1 - 1) * n
        rw [List.length_drop, hrest, Nat.sub_mul (H - 1) 1 n, Nat.one_mul]
  · -- one pixel per row
    have hW1' : W = 1 := by omega
    subst hW1'
    have hH3 : 3 ≤ H := by omega
    have hh2 : ¬ ((H : Int) - 1 = 0) := by omega
    have hw5 : wrap32 (((1 : Nat) : Int) - 1) = 0 := rfl
    have hh3 : wrap32 ((H : Int) - 1 - 1) = (H : Int) - 1 - 1 :=
      wrap32_pred _ (by omega) (by omega)
    have hh4 : ¬ ((H : Int) - 1 - 1 = 0) := by omega
    simp only [hw2, if_false, hh1, hh2]
    rw [freadRow_ok n (src.drop n) _ (by rw [hrest]; exact Nat.le_mul_of_pos_left n (by omega))
      hnB]
    simp only [hw5, ne_eq, not_true_eq_false, if_false, hh3, hh4]
    have hrest2 : ((src.drop n).drop n).length = (H - 1 - 1) * n := by
      rw [List.length_drop, hrest, Nat.sub_mul (H - 1) 1 n, Nat.one_mul]
    rw [freadRow_ok n ((src.drop n).drop n) _
      (by rw [hrest2]; exact Nat.le_mul_of_pos_left n (by omega)) hnB]
    simp only
    have hlo : LayOut 1 n c0 c1 P (1 + 1) (rowBytes n
        (packAt (fun k => if k < n then src.getD k 0 else buf0 k) 0 c0) ++ rowBytes n
        (packAt (fun k => if k < n then (src.drop n).getD k 0 else
          packAt (fun k => if k < n then src.getD k 0 else buf0 k) 0 c0 k) 0 c1)) := by
      refine ⟨by simp [rowBytes_length]; omega, ?_⟩
      intro q hq1 _
      have : q = 0 ∨ q = 1 := by omega
      rcases this with rfl | rfl
      · rw [unpackPixel_append_left 1 n 1 0 _ _ (by simp [rowBytes_length]) (by omega) hn3]
        have := unpackPixel_append_row 1 n 0 0 [] (packAt (fun k => if k < n then
          src.getD k 0 else buf0 k) 0 c0) (by simp) (by omega) hn3
        simp only [List.nil_append, Nat.zero_mul, Nat.zero_add, Nat.mul_zero] at this
        rw [this]
        exact unpackAt_packAt_self _ _ _ hc0
      · have := unpackPixel_append_row 1 n 1 0 (rowBytes n
          (packAt (fun k => if k < n then src.getD k 0 else buf0 k) 0 c0)) (packAt
          (fun k => if k < n then (src.drop n).getD k 0 else
            packAt (fun k => if k < n then src.getD k 0 else buf0 k) 0 c0 k) 0 c1)
          (by simp [rowBytes_length]) (by omega) hn3
        simp only [Nat.one_mul, Nat.add_zero, Nat.mul_zero] at this
        rw [this]
        exact unpackAt_packAt_self _ _ _ hc1
    apply encLoop_layout n 1 H c0 c1 P nRF rand hs' hc0 hc1 (1 * H - 2) 2 0 _ ?_ (by omega)
    refine ⟨?_, by omega, ?_, by omega, rfl, by omega, hlo, ?_, ?_, Or.inl ⟨rfl, by simp⟩⟩
    · show (H : Int) - 1 - 1 = (H : Int) - ((2 : Nat) : Int)
      omega
    · show ((1 : Nat) : Int) = ((1 : Nat) : Int) - ((0 : Nat) : Int)
      omega
    · intro c' hc' _
      omega
    · show (((src.drop n).drop n).drop n).length = (H - 1 - 2) * n
      rw [List.length_drop, hrest2, show H - 1 - 2 = H - 1 - 1 - 1 by omega,
        Nat.sub_mul (H - 1 - 1) 1 n, Nat.one_mul]

/-! ## The decoder on a bitmap whose rows fit the buffer -/

/-- A pixel read from the buffer that holds row `r` is the pixel of the image. -/
theorem unpackAt_row (img : List Nat) (W n r c : Nat) (buf : Buf) (hc : c < W)
    (hn : 3 * W ≤ n) (hbuf : ∀ o, o < n → buf o = img.getD (r * n + o) 0) :
    unpackAt buf (3 * c) = unpackPixel img W n (r * W + c) := by
  unfold unpackAt unpackPixel
  rw [pixelOffset_rc W n r c hc, hbuf _ (by omega), hbuf _ (by omega), hbuf _ (by omega)]
  rfl

theorem fread_row (img : List Nat) (n r : Nat) (buf : Buf) :
    ∀ o, o < n → (fun k => if k < n then (img.drop (r * n)).getD k 0 else buf k) o
      = img.getD (r * n + o) 0 := by
  intro o ho
  simp only [ho, if_true, List.getD_eq_getElem?_getD, List.getElem?_drop]

theorem payloadOf_succ (img : List Nat) (W n k : Nat) :
    payloadOf img W n (k + 1) = payloadOf img W n k ++ [unpackPixel img W n (2 + k)] := by
  unfold payloadOf
  rw [List.range_succ, List.map_append]
  rfl

theorem unpackBytes_lt (a b c : Nat) : unpackBytes a b c < 256 := by
  unfold unpackBytes
  have h1 : a &&& 7 < 8 := Nat.and_lt_two_pow a (n := 3) (by decide)
  have h2 : b &&& 3 < 4 := Nat.and_lt_two_pow b (n := 2) (by decide)
  have h3 : c &&& 7 < 8 := Nat.and_lt_two_pow c (n := 3) (by decide)
  have e2 : (b &&& 3) <<< 3 < 256 := by rw [Nat.shiftLeft_eq]; omega
  have e3 : (c &&& 7) <<< 5 < 256 := by rw [Nat.shiftLeft_eq]; omega
  have e1 : 0 ||| (a &&& 7) < 256 := by rw [Nat.zero_or]; omega
  exact Nat.or_lt_two_pow (n := 8) (Nat.or_lt_two_pow (n := 8) e1 e2) e3

/-- From a pixel before the last payload pixel the loop of `decode` returns 0 after one
pass per byte still to write, having written the bytes of the pixels `2, ..., L + 1`. -/
theorem decLoop_correct (img : List Nat) (n W H L : Nat) (hs : Sane W H n) :
    ∀ (rem r c : Nat) (s : DecState), DecAt img n W H L r c s → rem = s.dfsw →
    ∀ extra, decLoop W n (rem + extra) s = some (Outcome.ret 0 (payloadOf img W n L)) := by
  obtain ⟨hW1, hW, hH1, hH, hn3, hnB⟩ := hs
  intro rem
  induction rem with
  | zero =>
    intro r c s hat hrem
    have := hat.2.2.2.2.2.2.2.2.2.2.2.1
    omega
  | succ rem ih =>
    intro r c s hat hrem extra
    obtain ⟨hh, hr, hw, hc, hpc, hq, hbuf, hsrc, himg, hout, hcnt, hd1, hL1, hL2⟩ := hat
    have hne : ¬ s.hpels = 0 := by omega
    rw [show rem + 1 + extra = (rem + extra) + 1 by omega]
    simp only [decLoop, hne, if_false]
    have hwp : wrap32 (s.wpels - 1) = (W : Int) - c - 1 := by
      rw [wrap32_pred _ (by omega) (by omega), hw]
    have hdf : (s.dfsw + 65535) % 65536 = s.dfsw - 1 := by omega
    -- there is a next pixel
    have hnext : r * W + c + 1 < W * H := by
      have : 2 ≤ W * H := by
        by_contra hcon
        have : L = 0 := by omega
        omega
      omega
    rw [hwp, hdf]
    by_cases hlast : (W : Int) - c - 1 ≠ 0
    · -- next pixel of the same row
      simp only [hlast, ne_eq, not_false_eq_true, if_true]
      have hb : ¬ ¬ (s.pc + 3 + 2 < BUF_SIZE) := by omega
      rw [if_neg hb]
      have hpix : unpackAt s.buf (s.pc + 3) = unpackPixel img W n (2 + (r * W + c - 1)) := by
        rw [hpc, show 3 * c + 3 = 3 * (c + 1) by omega,
          unpackAt_row img W n r (c + 1) s.buf (by omega) hn3 hbuf,
          show r * W + (c + 1) = 2 + (r * W + c - 1) by omega]
      by_cases hz : s.dfsw - 1 = 0
      · rw [if_pos hz]
        have hLq : L = (r * W + c - 1) + 1 := by omega
        rw [hLq, payloadOf_succ, hout, hpix]
      · rw [if_neg hz]
        apply ih r (c + 1)
        · refine ⟨hh, hr, ?_, by omega, ?_, by omega, hbuf, hsrc, himg, ?_, ?_, ?_, hL1, hL2⟩
          · show (W : Int) - c - 1 = (W : Int) - ((c + 1 : Nat) : Int)
            omega
          · show s.pc + 3 = 3 * (c + 1)
            omega
          · show s.out ++ [unpackAt s.buf (s.pc + 3)] = payloadOf img W n (r * W + (c + 1) - 1)
            rw [show r * W + (c + 1) - 1 = (r * W + c - 1) + 1 by omega, payloadOf_succ, hout,
              hpix]
          · show s.dfsw - 1 + (r * W + (c + 1) - 1) = L
            omega
          · show 1 ≤ s.dfsw - 1
            omega
        · show rem = s.dfsw - 1
          omega
    · -- first pixel of the next row
      have hcW : c + 1 = W := by omega
      have hrH : r + 1 < H := by
        by_contra hcon
        have hrH' : r + 1 = H := by omega
        have : W * H = r * W + W := by rw [← hrH', Nat.mul_add, Nat.mul_comm]; omega
        omega
      have hhp : wrap32 (s.hpels - 1) = (H : Int) - r - 1 := by
        rw [wrap32_pred _ (by omega) (by omega), hh]
      have hmore : ¬ ((H : Int) - r - 1 = 0) := by omega
      have hlen : n ≤ s.src.length := by
        rw [hsrc, List.length_drop, himg]
        have : H = (r + 1) + (H - (r + 1)) := by omega
        rw [this, Nat.add_mul]
        have : n ≤ (H - (r + 1)) * n := Nat.le_mul_of_pos_left n (by omega)
        omega
      simp only [hlast, if_false, hhp, hmore, freadRow_ok n s.src s.buf hlen hnB]
      have hb : ¬ ¬ (0 + 2 < BUF_SIZE) := by decide
      rw [if_neg hb]
      have hbuf1 : ∀ o, o < n → (fun k => if k < n then s.src.getD k 0 else s.buf k) o
          = img.getD ((r + 1) * n + o) 0 := by
        rw [hsrc]; exact fread_row img n (r + 1) s.buf
      have hpix : unpackAt (fun k => if k < n then s.src.getD k 0 else s.buf k) 0
          = unpackPixel img W n (2 + (r * W + c - 1)) := by
        have := unpackAt_row img W n (r + 1) 0 _ (by omega) hn3 hbuf1
        rw [Nat.mul_zero] at this
        rw [this, show (r + 1) * W + 0 = 2 + (r * W + c - 1) by rw [Nat.add_mul]; omega]
      by_cases hz : s.dfsw - 1 = 0
      · rw [if_pos hz]
        have hLq : L = (r * W + c - 1) + 1 := by omega
        rw [hLq, payloadOf_succ, hout, hpix]
      · rw [if_neg hz]
        apply ih (r + 1) 0
        · refine ⟨?_, hrH, ?_, by omega, rfl, ?_, hbuf1, ?_, himg, ?_, ?_, ?_, hL1, hL2⟩
          · show (H : Int) - r - 1 = (H : Int) - ((r + 1 : Nat) : Int)
            omega
          · show (W : Int) = (W : Int) - ((0 : Nat) : Int)
            omega
          · rw [Nat.add_mul]; omega
          · show s.src.drop n = img.drop ((r + 1 + 1) * n)
            rw [hsrc, List.drop_drop]
            rw [show (r + 1) * n + n = (r + 1 + 1) * n by ring]
          · show s.out ++ [unpackAt (fun k => if k < n then s.src.getD k 0 else s.buf k) 0]
              = payloadOf img W n ((r + 1) * W + 0 - 1)
            rw [show (r + 1) * W + 0 - 1 = (r * W + c - 1) + 1 by rw [Nat.add_mul]; omega,
              payloadOf_succ, hout, hpix]
          · show s.dfsw - 1 + ((r + 1) * W + 0 - 1) = L
            rw [Nat.add_mul]; omega
          · show 1 ≤ s.dfsw - 1
            omega
        · show rem = s.dfsw - 1
          omega

theorem payloadOf_zero (img : List Nat) (W n : Nat) : payloadOf img W n 0 = [] := rfl

theorem lengthOf_lt (img : List Nat) (W n : Nat) : lengthOf img W n < 65536 := by
  unfold lengthOf unpackPixel
  have h0 := unpackBytes_lt (img.getD (pixelOffset W n 0) 0)
    (img.getD (pixelOffset W n 0 + 1) 0) (img.getD (pixelOffset W n 0 + 2) 0)
  have h1 := unpackBytes_lt (img.getD (pixelOffset W n 1) 0)
    (img.getD (pixelOffset W n 1 + 1) 0) (img.getD (pixelOffset W n 1 + 2) 0)
  omega

/-- On a bitmap whose rows fit the buffer, with complete pixel data whose first two pixels
carry a length `L` with `1 ≤ L ≤ W * H - 2`, `decode` returns 0 after `L` passes of its
loop, having written the bytes of the pixels `2, ..., L + 1`. -/
theorem decode_correct (hc : HDRCHECK) (W H n : Nat) (hcw : hc.nBMPw = W) (hch : hc.nBMPh = H)
    (hcn : toSizeT hc.nStride = n) (hs : Sane W H n) (img : List Nat) (buf0 : Buf)
    (himg : img.length = H * n) (hL1 : 1 ≤ lengthOf img W n)
    (hL2 : lengthOf img W n ≤ W * H - 2)
    (hcap : ¬ wrap32 ((W : Int) * H) - FILE_SIZE_PIXELS < (lengthOf img W n : Int)) :
    ∀ extra, decode (lengthOf img W n + extra) hc img buf0
      = some (Outcome.ret 0 (payloadOf img W n (lengthOf img W n))) := by
  have hs' := hs
  obtain ⟨hW1, hW, hH1, hH, hn3, hnB⟩ := hs
  intro extra
  have hHn : n ≤ img.length := by rw [himg]; exact Nat.le_mul_of_pos_left n (by omega)
  have hrow0 : ∀ o, o < n → (fun k => if k < n then img.getD k 0 else buf0 k) o
      = img.getD (0 * n + o) 0 := by
    have := fread_row img n 0 buf0
    simpa using this
  have hp0 : unpackAt (fun k => if k < n then img.getD k 0 else buf0 k) 0
      = unpackPixel img W n 0 := by
    have := unpackAt_row img W n 0 0 _ (by omega) hn3 hrow0
    simpa using this
  unfold decode
  simp only [hcw, hch, hcn]
  rw [freadRow_ok n img buf0 hHn hnB]
  simp only [hp0]
  have hw1 : wrap32 ((W : Int) - 1) = (W : Int) - 1 := wrap32_pred _ (by omega) (by omega)
  have hh1 : wrap32 ((H : Int) - 1) = (H : Int) - 1 := wrap32_pred _ (by omega) (by omega)
  rw [hw1]
  by_cases hw2 : (W : Int) - 1 ≠ 0
  · simp only [hw2, ne_eq, not_false_eq_true, if_true]
    have hp1 : unpackAt (fun k => if k < n then img.getD k 0 else buf0 k) 3
        = unpackPixel img W n 1 := by
      have := unpackAt_row img W n 0 1 _ (by omega) hn3 hrow0
      simpa using this
    rw [hp1]
    have hcap' : ¬ wrap32 ((W : Int) * H) - FILE_SIZE_PIXELS <
        ((unpackPixel img W n 0 + 256 * unpackPixel img W n 1 : Nat) : Int) := hcap
    rw [if_neg hcap']
    apply decLoop_correct img n W H (lengthOf img W n) hs' (lengthOf img W n) 0 1
    · refine ⟨?_, by omega, ?_, by omega, rfl, by omega, hrow0, ?_, himg, ?_, ?_, hL1, hL2,
        lengthOf_lt img W n⟩
      · show (H : Int) = (H : Int) - ((0 : Nat) : Int)
        omega
      · show (W : Int) - 1 = (W : Int) - ((1 : Nat) : Int)
        omega
      · show img.drop n = img.drop ((0 + 1) * n)
        simp
      · show [] = payloadOf img W n (0 * W + 1 - 1)
        simp [payloadOf_zero]
      · show unpackPixel img W n 0 + 256 * unpackPixel img W n 1 + (0 * W + 1 - 1)
          = lengthOf img W n
        simp [lengthOf]
    · rfl
  · have hW1' : W = 1 := by omega
    subst hW1'
    have hH3 : 3 ≤ H := by omega
    have hh2 : ¬ ((H : Int) - 1 = 0) := by omega
    have hrest : n ≤ (img.drop n).length := by
      rw [List.length_drop, himg]
      have : H = 2 + (H - 2) := by omega
      rw [this, Nat.add_mul]
      omega
    simp only [hw2, if_false, hh1, hh2]
    rw [freadRow_ok n (img.drop n) _ hrest hnB]
    simp only
    have hrow1 : ∀ o, o < n → (fun k => if k < n then (img.drop n).getD k 0 else
        (fun k => if k < n then img.getD k 0 else buf0 k) k) o = img.getD (1 * n + o) 0 := by
      have := fread_row img n 1 (fun k => if k < n then img.getD k 0 else buf0 k)
      simpa using this
    have hp1 : unpackAt (fun k => if k < n then (img.drop n).getD k 0 else
        (fun k => if k < n then img.getD k 0 else buf0 k) k) 0 = unpackPixel img 1 n 1 := by
      have := unpackAt_row img 1 n 1 0 _ (by omega) hn3 hrow1
      simpa using this
    rw [hp1]
    have hcap' : ¬ wrap32 (((1 : Nat) : Int) * H) - FILE_SIZE_PIXELS <
        ((unpackPixel img 1 n 0 + 256 * unpackPixel img 1 n 1 : Nat) : Int) := hcap
    rw [if_neg hcap']
    apply decLoop_correct img n 1 H (lengthOf img 1 n) hs' (lengthOf img 1 n) 1 0
    · refine ⟨?_, by omega, ?_, by omega, rfl, by omega, hrow1, ?_, himg, ?_, ?_, hL1, hL2,
        lengthOf_lt img 1 n⟩
      · show (H : Int) - 1 = (H : Int) - ((1 : Nat) : Int)
        omega
      · show ((1 : Nat) : Int) = ((1 : Nat) : Int) - ((0 : Nat) : Int)
        omega
      · show (img.drop n).drop n = img.drop ((1 + 1) * n)
        rw [List.drop_drop]
        congr 1
        ring
      · show [] = payloadOf img 1 n (1 * 1 + 0 - 1)
        simp [payloadOf_zero]
      · show unpackPixel img 1 n 0 + 256 * unpackPixel img 1 n 1 + (1 * 1 + 0 - 1)
          = lengthOf img 1 n
        simp [lengthOf]
    · rfl

/-! ## Round trip on a bitmap whose rows fit the buffer -/

theorem map_mod_eq_self (P : List Nat) (hP : ∀ b ∈ P, b < 256) :
    P.map (fun b => b % 256) = P := by
  induction P with
  | nil => rfl
  | cons b P ih =>
    rw [List.map_cons, Nat.mod_eq_of_lt (hP b (List.mem_cons_self _ _)),
      ih (fun x hx => hP x (List.mem_cons_of_mem _ hx))]

/-- An output in which the pixels carry the length of `P` and then the bytes of `P` decodes
to the length `|P|` and the payload `P`. -/
theorem layOut_decodes (W H n : Nat) (P : List Nat) (out : List Nat)
    (hP2 : P.length ≤ 65535) (hPb : ∀ b ∈ P, b < 256) (hcap : P.length + 2 ≤ W * H)
    (hlay : LayOut W n (P.length % 256) (P.length / 256) P H out) :
    lengthOf out W n = P.length ∧ payloadOf out W n P.length = P := by
  obtain ⟨_, hpix⟩ := hlay
  have hHW : H * W = W * H := Nat.mul_comm H W
  constructor
  · unfold lengthOf
    rw [hpix 0 (by omega) (by omega), hpix 1 (by omega) (by omega), embedded_zero,
      embedded_one]
    omega
  · unfold payloadOf
    apply List.ext_getElem
    · simp
    · intro i h1 h2
      simp only [List.length_map, List.length_range] at h1
      simp only [List.getElem_map, List.getElem_range]
      rw [hpix (2 + i) (by omega) (by omega), embedded_payload, map_mod_eq_self P hPb,
        List.getD_eq_getElem _ _ h1]

/-- Round trip for a geometry whose rows fit the buffer: `encode` returns 0 and `decode`,
run on its output, returns 0 having written exactly the payload. -/
theorem roundtrip_sane (hc : HDRCHECK) (W H n : Nat) (hcw : hc.nBMPw = W) (hch : hc.nBMPh = H)
    (hcn : toSizeT hc.nStride = n) (hs : Sane W H n) (P : List Nat) (hP1 : 1 ≤ P.length)
    (hP2 : P.length ≤ 65535) (hPb : ∀ b ∈ P, b < 256) (hcap : P.length + 2 ≤ W * H)
    (hcapm : ¬ wrap32 ((W : Int) * H) - FILE_SIZE_PIXELS < (P.length : Int))
    (src : List Nat) (hsrc : src.length = H * n) (nRF : Int) (rand : Nat → Nat)
    (buf0 buf1 : Buf) :
    ∃ out, (∀ extra, encode (W * H - 2 + extra) hc P.length nRF src P rand buf0
        = some (Outcome.ret 0 out)) ∧
      ∀ extra, decode (P.length + extra) hc out buf1 = some (Outcome.ret 0 P) := by
  obtain ⟨out, henc, hlay⟩ := encode_layout hc W H n hcw hch hcn hs (by omega) P.length nRF
    src P rand buf0 hsrc
  have hdf : ((P.length : Int) % 65536).toNat = P.length := by omega
  rw [hdf] at hlay
  obtain ⟨hlen, hpay⟩ := layOut_decodes W H n P out hP2 hPb hcap hlay
  refine ⟨out, henc, ?_⟩
  have hdec := decode_correct hc W H n hcw hch hcn hs out buf1 hlay.1 (by omega) (by omega)
    (by rw [hlen]; exact hcapm)
  rw [hlen, hpay] at hdec
  exact hdec

/-! ## Accepted headers whose stride computation does not overflow -/

theorem validateheaderd_geometry (p : BmpHeader) (i j : Int) :
    (validateheaderd p i).nBMPw = (validateheadere p i j).nBMPw ∧
    (validateheaderd p i).nBMPh = (validateheadere p i j).nBMPh ∧
    (validateheaderd p i).nStride = (validateheadere p i j).nStride := by
  rw [validateheaderd_nBMPw, validateheaderd_nBMPh, validateheaderd_nStride,
    validateheadere_nBMPw, validateheadere_nBMPh, validateheadere_nStride]
  exact ⟨rfl, rfl, rfl⟩

/-- An accepted header with fields in range and `3 * width ≤ stride` has a geometry whose
rows fit the buffer, and its capacity check holds in the integers. -/
theorem accepted_sane (p : BmpHeader) (i j : Int) (hp : p.InRange)
    (hacc : (validateheadere p i j).nValid = HDR_CHECKE_PASS)
    (hfit : 3 * (validateheadere p i j).nBMPw ≤ (validateheadere p i j).nStride)
    (hj1 : 1 ≤ j) (hj2 : j ≤ 65535) :
    (validateheadere p i j).nBMPw = ((validateheadere p i j).nBMPw.toNat : Int) ∧
    (validateheadere p i j).nBMPh = ((validateheadere p i j).nBMPh.toNat : Int) ∧
    toSizeT (validateheadere p i j).nStride = (validateheadere p i j).nStride.toNat ∧
    Sane (validateheadere p i j).nBMPw.toNat (validateheadere p i j).nBMPh.toNat
      (validateheadere p i j).nStride.toNat ∧
    j + 2 ≤ (((validateheadere p i j).nBMPw.toNat * (validateheadere p i j).nBMPh.toNat : Nat)
      : Int) ∧
    ¬ wrap32 ((((validateheadere p i j).nBMPw.toNat : Nat) : Int) *
      (((validateheadere p i j).nBMPh.toNat : Nat) : Int)) - FILE_SIZE_PIXELS < j := by
  have hA := (validateheadere_accept_iff p i j).1 hacc
  obtain ⟨_, _, _, _, _, ⟨hw, hh⟩, _, _, _, _, _, _, ⟨_, hs⟩, _, _, hcap⟩ := hA
  have hwr : p.biWidth < 2147483648 := hp.2.2.2.2.2.2.2.1.2
  have hhr := (wrap32_range (if p.biHeight < 0 then -p.biHeight else p.biHeight)).2
  rw [validateheadere_nBMPw, validateheadere_nBMPh, validateheadere_nStride] at *
  have hhr' : abs32 p.biHeight < 2147483648 := hhr
  generalize strideOf p.biWidth p.biBitCount = s at *
  generalize abs32 p.biHeight = h at *
  generalize p.biWidth = w at *
  have e1 : (w.toNat : Int) = w := Int.toNat_of_nonneg (by omega)
  have e2 : (h.toNat : Int) = h := Int.toNat_of_nonneg (by omega)
  have e3 : (s.toNat : Int) = s := Int.toNat_of_nonneg (by omega)
  have hmul : ((w.toNat * h.toNat : Nat) : Int) = w * h := by push_cast; rw [e1, e2]
  have hpos : 1 ≤ w.toNat * h.toNat := Nat.mul_pos (by omega) (by omega)
  refine ⟨e1.symm, e2.symm, ?_, ⟨by omega, by omega, by omega, by omega, by omega, ?_⟩, ?_, ?_⟩
  · unfold toSizeT
    congr 1
    omega
  · show s.toNat ≤ 8192
    omega
  · rw [hmul]
    have key : ∀ m : Int, 1 ≤ m → wrap32 m - 2 ≥ j → j + 2 ≤ m := by
      intro m hm hc
      unfold wrap32 at hc
      omega
    exact key (w * h) (by rw [← hmul]; exact_mod_cast hpos) hcap
  · rw [e1, e2]
    exact not_lt.2 hcap

/-- Round trip for accepted headers without overflow. For a header with fields in range that
`validateheadere` accepts for the payload size `|P|`, with `3 * width ≤ stride`, a payload
of 1 to 65535 bytes and pixel data of exactly `height * stride` bytes: `encode` returns 0
for every fill mode and random source, and `decode`, run on its output with the geometry
`validateheaderd` computes, returns 0 having written exactly the payload. -/
theorem roundtrip_accepted (p : BmpHeader) (i : Int) (P src : List Nat) (nRF : Int)
    (rand : Nat → Nat) (buf0 buf1 : Buf) (hp : p.InRange)
    (hacc : (validateheadere p i P.length).nValid = HDR_CHECKE_PASS)
    (hfit : 3 * (validateheadere p i P.length).nBMPw ≤ (validateheadere p i P.length).nStride)
    (hP1 : 1 ≤ P.length) (hP2 : P.length ≤ 65535) (hPb : ∀ b ∈ P, b < 256)
    (hsrc : src.length = (validateheadere p i P.length).nBMPh.toNat *
      (validateheadere p i P.length).nStride.toNat) :
    ∃ out,
      (∀ extra, encode ((validateheadere p i P.length).nBMPw.toNat *
          (validateheadere p i P.length).nBMPh.toNat - 2 + extra)
          (validateheadere p i P.length) P.length nRF src P rand buf0
        = some (Outcome.ret 0 out)) ∧
      ∀ extra, decode (P.length + extra) (validateheaderd p i) out buf1
        = some (Outcome.ret 0 P) := by
  obtain ⟨g1, g2, g3, g4, g5, g6⟩ := accepted_sane p i P.length hp hacc hfit (by omega)
    (by omega)
  obtain ⟨d1, d2, d3⟩ := validateheaderd_geometry p i P.length
  obtain ⟨out, henc, hlay⟩ := encode_layout (validateheadere p i P.length) _ _ _ g1 g2 g3 g4
    (by omega) P.length nRF src P rand buf0 hsrc
  have hdf : ((P.length : Int) % 65536).toNat = P.length := by omega
  rw [hdf] at hlay
  obtain ⟨hlen, hpay⟩ := layOut_decodes _ _ _ P out hP2 hPb (by omega) hlay
  refine ⟨out, henc, ?_⟩
  have hdec := decode_correct (validateheaderd p i) _ _ _ (d1.trans g1) (d2.trans g2)
    (by rw [d3]; exact g3) g4 out buf1 hlay.1 (by omega) (by omega) (by rw [hlen]; exact g6)
  rw [hlen, hpay] at hdec
  exact hdec

/-- The round trip on the 4 by 4 image `data4x4` with the payload `[0x41]`. -/
theorem roundtrip_4x4 (nRF : Int) (rand : Nat → Nat) (buf0 buf1 : Buf) :
    ∃ out,
      (∀ extra, encode (14 + extra) (validateheadere hdr4x4 102 1) 1 nRF data4x4 [0x41] rand
        buf0 = some (Outcome.ret 0 out)) ∧
      ∀ extra, decode (1 + extra) (validateheaderd hdr4x4 102) out buf1
        = some (Outcome.ret 0 [0x41]) := by
  have h := roundtrip_accepted hdr4x4 102 [0x41] data4x4 nRF rand buf0 buf1 (by decide)
    (by decide!) (by decide!) (by decide) (by decide) (by decide) (by decide!)
  simp only [List.length_singleton, Nat.cast_one] at h
  rw [validate_hdr4x4] at h ⊢
  exact h

/-- Encoded layout for accepted headers without overflow. Under the hypotheses of
`roundtrip_accepted`, `encode` returns 0 and in its output pixel 0 unpacks to `|P| mod 256`,
pixel 1 to `|P| div 256` and pixel `2 + i` to `P[i]`, for every fill mode. -/
theorem layout_accepted (p : BmpHeader) (i : Int) (P src : List Nat) (nRF : Int)
    (rand : Nat → Nat) (buf0 : Buf) (hp : p.InRange)
    (hacc : (validateheadere p i P.length).nValid = HDR_CHECKE_PASS)
    (hfit : 3 * (validateheadere p i P.length).nBMPw ≤ (validateheadere p i P.length).nStride)
    (hP1 : 1 ≤ P.length) (hP2 : P.length ≤ 65535) (hPb : ∀ b ∈ P, b < 256)
    (hsrc : src.length = (validateheadere p i P.length).nBMPh.toNat *
      (validateheadere p i P.length).nStride.toNat) :
    ∃ out,
      (∀ extra, encode ((validateheadere p i P.length).nBMPw.toNat *
          (validateheadere p i P.length).nBMPh.toNat - 2 + extra)
          (validateheadere p i P.length) P.length nRF src P rand buf0
        = some (Outcome.ret 0 out)) ∧
      unpackPixel out (validateheadere p i P.length).nBMPw.toNat
        (validateheadere p i P.length).nStride.toNat 0 = P.length % 256 ∧
      unpackPixel out (validateheadere p i P.length).nBMPw.toNat
        (validateheadere p i P.length).nStride.toNat 1 = P.length / 256 ∧
      ∀ k, k < P.length →
        unpackPixel out (validateheadere p i P.length).nBMPw.toNat
          (validateheadere p i P.length).nStride.toNat (2 + k) = P.getD k 0 := by
  obtain ⟨g1, g2, g3, g4, g5, g6⟩ := accepted_sane p i P.length hp hacc hfit (by omega)
    (by omega)
  obtain ⟨out, henc, hlay⟩ := encode_layout (validateheadere p i P.length) _ _ _ g1 g2 g3 g4
    (by omega) P.length nRF src P rand buf0 hsrc
  have hdf : ((P.length : Int) % 65536).toNat = P.length := by omega
  rw [hdf] at hlay
  obtain ⟨_, hpix⟩ := hlay
  have hcap : P.length + 2 ≤ (validateheadere p i P.length).nBMPw.toNat *
      (validateheadere p i P.length).nBMPh.toNat := by omega
  rw [Nat.mul_comm] at hcap
  refine ⟨out, henc, ?_, ?_, ?_⟩
  · rw [hpix 0 (by omega) (by omega), embedded_zero]
  · rw [hpix 1 (by omega) (by omega), embedded_one]
  · intro k hk
    rw [hpix (2 + k) (by omega) (by omega), embedded_payload, map_mod_eq_self P hPb]

/-! ## Stride arithmetic for 24-bit rows -/

/-- Clearing the five low bits rounds down to a multiple of 32. -/
theorem ldiff_31 (m : Nat) : Nat.ldiff m 31 = m / 32 * 32 := by
  apply Nat.eq_of_testBit_eq
  intro k
  have h31 : (31 : Nat) = 2 ^ 5 - 1 := by decide
  have hr : m / 32 * 32 = (m >>> 5) <<< 5 := by
    rw [Nat.shiftLeft_eq, Nat.shiftRight_eq_div_pow]
  rw [Nat.testBit_ldiff, hr, Nat.testBit_shiftLeft, Nat.testBit_shiftRight, h31,
    Nat.testBit_two_pow_sub_one]
  by_cases hk : k < 5
  · simp [hk]
  · have : 5 + (k - 5) = k := by omega
    simp [hk, this]
    omega

/-- The mask of the stride expression, on a non-negative int. -/
theorem land_not31 (x : Int) (hx : 0 ≤ x) : Int.land x (~~~(31 : Int)) = x / 32 * 32 := by
  obtain ⟨m, rfl⟩ := Int.eq_ofNat_of_zero_le hx
  show ((Nat.ldiff m 31 : Nat) : Int) = (m : Int) / 32 * 32
  rw [ldiff_31]
  push_cast
  rfl

/-- The shift of the stride expression, on a non-negative int. -/
theorem shiftRight_three (x : Int) (hx : 0 ≤ x) : x >>> (3 : Int) = x / 8 := by
  obtain ⟨m, rfl⟩ := Int.eq_ofNat_of_zero_le hx
  have h := Int.shiftRight_coe_nat m 3
  rw [Nat.shiftRight_eq_div_pow] at h
  exact h

/-- For a 24-bit image whose row bit count fits an int, the stride is the row byte count
rounded up to a multiple of four. -/
theorem strideOf_24 (w : Int) (h1 : 0 ≤ w) (h2 : w ≤ 89478484) :
    strideOf w 24 = (3 * w + 3) / 4 * 4 := by
  unfold strideOf
  have e1 : wrap32 (w * ((24 : Nat) : Int)) = 24 * w := by unfold wrap32; push_cast; omega
  have e2 : wrap32 (24 * w + 31) = 24 * w + 31 := by unfold wrap32; omega
  rw [e1, e2, land_not31 _ (by omega), shiftRight_three _ (by omega)]
  omega

/-! ## Stride rounding -/

theorem validateheaderd_nPadding (p : BmpHeader) (i : Int) :
    (validateheaderd p i).nPadding =
      wrap32 (strideOf p.biWidth p.biBitCount - wrap32 (p.biWidth * 3)) := by
  simp only [validateheaderd, check_nPadding, HDRCHECK.setPadding, check_nStride, check_nBMPw,
    HDRCHECK.setStride, HDRCHECK.setDlen, HDRCHECK.setH, HDRCHECK.setW]

/-- C16. Stride rounding. For a 24-bit header whose width `w` is non-negative with
`24 * w + 31` representable as an `int`, the stride both validators compute is a multiple of 4
that is at least `3 * w`, it is the least such multiple, the program's test `stride % 4 == 0`
succeeds, and the padding the validators compute is `stride - 3 * w`, one of 0, 1, 2, 3. -/
theorem stride_rounding (p : BmpHeader) (i j : Int) (hb : p.biBitCount = 24)
    (h0 : 0 ≤ p.biWidth) (h1 : 24 * p.biWidth + 31 < 2147483648) :
    (validateheadere p i j).nStride = strideOf p.biWidth 24 ∧
    (validateheaderd p i).nStride = strideOf p.biWidth 24 ∧
    (4 : Int) ∣ strideOf p.biWidth 24 ∧
    3 * p.biWidth ≤ strideOf p.biWidth 24 ∧
    (∀ m : Int, (4 : Int) ∣ m → 3 * p.biWidth ≤ m → strideOf p.biWidth 24 ≤ m) ∧
    (strideOf p.biWidth 24).tmod 4 = 0 ∧
    (validateheadere p i j).nPadding = strideOf p.biWidth 24 - 3 * p.biWidth ∧
    (validateheaderd p i).nPadding = strideOf p.biWidth 24 - 3 * p.biWidth ∧
    0 ≤ strideOf p.biWidth 24 - 3 * p.biWidth ∧ strideOf p.biWidth 24 - 3 * p.biWidth ≤ 3 := by
  have hs := strideOf_24 p.biWidth h0 (by omega)
  have hpad : wrap32 (strideOf p.biWidth 24 - wrap32 (p.biWidth * 3)) =
      strideOf p.biWidth 24 - 3 * p.biWidth := by
    rw [hs]; unfold wrap32; omega
  refine ⟨by rw [validateheadere_nStride, hb], by rw [validateheaderd_nStride, hb],
    ?_, ?_, ?_, ?_, ?_, ?_, ?_, ?_⟩
  · rw [hs]; exact Dvd.intro_left _ rfl
  · rw [hs]; omega
  · intro m hm hle
    rw [hs]
    obtain ⟨k, rfl⟩ := hm
    omega
  · rw [hs]
    exact Int.tmod_eq_zero_of_dvd (Dvd.intro_left _ rfl)
  · rw [validateheadere_nPadding, hb, hpad]
  · rw [validateheaderd_nPadding, hb, hpad]
  · rw [hs]; omega
  · rw [hs]; omega

/-- Witness for C16: width 4 gives stride 12 and padding 0. -/
theorem stride_rounding_witness :
    hdr4x4.biBitCount = 24 ∧ 0 ≤ hdr4x4.biWidth ∧ 24 * hdr4x4.biWidth + 31 < 2147483648 ∧
    hdr4x4.biWidth = 4 ∧ strideOf hdr4x4.biWidth 24 = 12 ∧
    ((validateheadere hdr4x4 102 1).nStride = strideOf hdr4x4.biWidth 24 ∧
    (validateheaderd hdr4x4 102).nStride = strideOf hdr4x4.biWidth 24 ∧
    (4 : Int) ∣ strideOf hdr4x4.biWidth 24 ∧
    3 * hdr4x4.biWidth ≤ strideOf hdr4x4.biWidth 24 ∧
    (∀ m : Int, (4 : Int) ∣ m → 3 * hdr4x4.biWidth ≤ m → strideOf hdr4x4.biWidth 24 ≤ m) ∧
    (strideOf hdr4x4.biWidth 24).tmod 4 = 0 ∧
    (validateheadere hdr4x4 102 1).nPadding = strideOf hdr4x4.biWidth 24 - 3 * hdr4x4.biWidth ∧
    (validateheaderd hdr4x4 102).nPadding = strideOf hdr4x4.biWidth 24 - 3 * hdr4x4.biWidth ∧
    0 ≤ strideOf hdr4x4.biWidth 24 - 3 * hdr4x4.biWidth ∧
    strideOf hdr4x4.biWidth 24 - 3 * hdr4x4.biWidth ≤ 3) :=
  ⟨rfl, by decide, by decide, rfl, by decide!,
    stride_rounding hdr4x4 102 1 rfl (by decide) (by decide)⟩

/-! ## The sign of the height -/

theorem abs32_neg (h : Int) (h1 : -2147483648 < h) (h2 : h < 2147483648) :
    abs32 (-h) = abs32 h ∧ abs32 h = (h.natAbs : Int) := by
  unfold abs32 wrap32
  constructor
  · split <;> split <;> omega
  · split <;> omega

/-- C17. The sign of the height is irrelevant. For every header, file size and payload size,
and every height `h` in the range of an `int` other than the minimum, both validators return
the same `HDRCHECK` (pass count, flags, width, height, stride, padding, data length) for
`biHeight = h` and `biHeight = -h`, and the height they report is the absolute value of `h`. -/
theorem height_sign_irrelevant (p : BmpHeader) (i j h : Int) (h1 : -2147483648 < h)
    (h2 : h < 2147483648) :
    validateheadere { p with biHeight := h } i j = validateheadere { p with biHeight := -h } i j ∧
    validateheaderd { p with biHeight := h } i = validateheaderd { p with biHeight := -h } i ∧
    (validateheadere { p with biHeight := h } i j).nBMPh = (h.natAbs : Int) ∧
    (validateheaderd { p with biHeight := h } i).nBMPh = (h.natAbs : Int) := by
  obtain ⟨e1, e2⟩ := abs32_neg h h1 h2
  refine ⟨?_, ?_, ?_, ?_⟩
  · unfold validateheadere
    simp only [e1]
  · unfold validateheaderd
    simp only [e1]
  · rw [validateheadere_nBMPh]; exact e2
  · rw [validateheaderd_nBMPh]; exact e2

/-- Witness for C17: the 4 by 4 header stored top-down (`biHeight = -4`). -/
theorem height_sign_irrelevant_witness :
    (-2147483648 : Int) < 4 ∧ (4 : Int) < 2147483648 ∧
    validateheadere { hdr4x4 with biHeight := 4 } 102 1
      = validateheadere { hdr4x4 with biHeight := -4 } 102 1 ∧
    validateheaderd { hdr4x4 with biHeight := 4 } 102
      = validateheaderd { hdr4x4 with biHeight := -4 } 102 ∧
    (validateheadere { hdr4x4 with biHeight := 4 } 102 1).nBMPh = ((4 : Int).natAbs : Int) ∧
    (validateheaderd { hdr4x4 with biHeight := 4 } 102).nBMPh = ((4 : Int).natAbs : Int) :=
  ⟨by decide, by decide, height_sign_irrelevant hdr4x4 102 1 4 (by decide) (by decide)⟩

/-! ## Acceptance for encoding and acceptance for decoding -/

/-- With one pixel per row and one row, `encode` ends right after the first row read. -/
theorem encode_one_by_one (hc : HDRCHECK) (hcw : hc.nBMPw = 1) (hch : hc.nBMPh = 1)
    (fuel : Nat) (nFS2 nRF : Int) (src data : List Nat) (rand : Nat → Nat) (buf0 : Buf) :
    encode fuel hc nFS2 nRF src data rand buf0 =
      match freadRow (toSizeT hc.nStride) src buf0 with
      | ReadResult.fault => some (Outcome.fault [])
      | ReadResult.short => some (Outcome.ret (-1) [])
      | ReadResult.ok _ _ => some (Outcome.ret (-2) []) := by
  have h0 : wrap32 ((1 : Int) - 1) = 0 := by decide
  unfold encode
  simp only [hcw, hch, h0]
  cases freadRow (toSizeT hc.nStride) src buf0 <;> simp

/-- C14. A 1 by 1 image must fail. For a header of width 1 and height 1 or -1, and every file
size: `validateheadere` rejects for every payload size `j ≥ 0`, `validateheaderd` rejects,
and `encode` invoked with that geometry never returns 0; once its first row read succeeds it
returns `-2` having written nothing. -/
theorem one_by_one_fails (p : BmpHeader) (i j : Int) (hw : p.biWidth = 1)
    (hh : p.biHeight = 1 ∨ p.biHeight = -1) (hj : 0 ≤ j) :
    (validateheadere p i j).nValid ≠ HDR_CHECKE_PASS ∧
    (validateheaderd p i).nValid ≠ HDR_CHECKD_PASS ∧
    (∀ (fuel : Nat) (nFS2 nRF : Int) (src data : List Nat) (rand : Nat → Nat) (buf0 : Buf)
        (out : List Nat),
      encode fuel (validateheadere p i j) nFS2 nRF src data rand buf0
        ≠ some (Outcome.ret 0 out)) ∧
    (∀ (fuel : Nat) (nFS2 nRF : Int) (src data : List Nat) (rand : Nat → Nat) (buf0 : Buf),
      toSizeT (validateheadere p i j).nStride ≤ src.length →
      toSizeT (validateheadere p i j).nStride ≤ BUF_SIZE →
      encode fuel (validateheadere p i j) nFS2 nRF src data rand buf0
        = some (Outcome.ret (-2) [])) := by
  have hab : abs32 p.biHeight = 1 := by
    rcases hh with h | h <;> rw [h] <;> decide
  have hcw : (validateheadere p i j).nBMPw = 1 := by rw [validateheadere_nBMPw, hw]
  have hch : (validateheadere p i j).nBMPh = 1 := by rw [validateheadere_nBMPh, hab]
  refine ⟨?_, ?_, ?_, ?_⟩
  · intro hacc
    have hA := (validateheadere_accept_iff p i j).1 hacc
    have hcap := hA.2.2.2.2.2.2.2.2.2.2.2.2.2.2.2
    rw [hw, hab] at hcap
    have : wrap32 (1 * 1) - 2 = -1 := by decide
    rw [this] at hcap
    omega
  · intro hacc
    have hA := (validateheaderd_accept_iff p i).1 hacc
    have hcap := hA.2.2.2.2.2.1
    rw [hw, hab] at hcap
    have : wrap32 (1 * 1) = 1 := by decide
    rw [this] at hcap
    omega
  · intro fuel nFS2 nRF src data rand buf0 out
    rw [encode_one_by_one _ hcw hch]
    cases freadRow (toSizeT (validateheadere p i j).nStride) src buf0 <;> simp
  · intro fuel nFS2 nRF src data rand buf0 h1 h2
    rw [encode_one_by_one _ hcw hch, freadRow_ok _ _ _ h1 h2]

/-- Witness for C14: the header `hdr1x1` with a file of 58 bytes and a payload of one byte. -/
theorem one_by_one_fails_witness :
    hdr1x1.biWidth = 1 ∧ (hdr1x1.biHeight = 1 ∨ hdr1x1.biHeight = -1) ∧ (0 : Int) ≤ 1 ∧
    (validateheadere hdr1x1 58 1).nValid ≠ HDR_CHECKE_PASS ∧
    (validateheaderd hdr1x1 58).nValid ≠ HDR_CHECKD_PASS ∧
    encode 0 (validateheadere hdr1x1 58 1) 1 0 [255, 255, 255, 0] [0x41] (fun _ => 0) zeroBuf
      = some (Outcome.ret (-2) []) :=
  ⟨rfl, Or.inl rfl, by decide,
    (one_by_one_fails hdr1x1 58 1 rfl (Or.inl rfl) (by decide)).1,
    (one_by_one_fails hdr1x1 58 1 rfl (Or.inl rfl) (by decide)).2.1,
    (one_by_one_fails hdr1x1 58 1 rfl (Or.inl rfl) (by decide)).2.2.2 0 1 0 [255, 255, 255, 0]
      [0x41] (fun _ => 0) zeroBuf (by decide!) (by decide!)⟩

/-! ## The scan-line buffer bound -/

/-- While every pass embeds a byte and the last pixel of the current row lies outside the
scan-line buffer, the loop of `encode` leaves the buffer once it has passes enough to reach
its end. -/
theorem encLoop_overrun_fault (w : Int) (n : Nat) (nRF : Int) (rand : Nat → Nat)
    (hRF : nRF = 1 ∨ nRF = 2 ∨ nRF = 3) : ∀ (fuel : Nat) (s : EncState),
    (s.state = 0 ∨ s.state = nRF) → s.hpels ≠ 0 → 1 ≤ s.wpels → s.wpels < 2147483648 →
    (BUF_SIZE : Int) ≤ s.pc + 3 * (s.wpels - 1) + 2 → 1 ≤ fuel →
    BUF_SIZE + 1 ≤ s.pc + 3 * fuel →
    ∃ out, encLoop w n nRF rand fuel s = some (Outcome.fault out) := by
  intro fuel
  induction fuel with
  | zero =>
    intro s _ _ _ _ _ h1 _
    omega
  | succ fuel ih =>
    intro s hst hh hw1 hw2 hpc _ hfuel
    obtain ⟨e1, e2, e3, e4, e5, e6⟩ := encSwitch_frame nRF rand s
    have hst1 := encSwitch_state_packing nRF rand s hRF hst
    have hpos : (encSwitch nRF rand s).state > -1 := by omega
    simp only [encLoop, hh, if_false]
    unfold encBody
    simp only [hpos, true_and, if_true, e1, e2, e3, e4, e5, e6]
    by_cases hb : s.pc + 2 < BUF_SIZE
    · have hw3 : 2 ≤ s.wpels := by
        by_contra hcon
        have : s.wpels = 1 := by omega
        rw [this] at hpc
        simp only [BUF_SIZE] at hb hpc
        omega
      have hne : wrap32 (s.wpels - 1) ≠ 0 := by rw [wrap32_pred _ hw1 hw2]; omega
      simp only [hb, not_true_eq_false, if_false, hne, ne_eq, not_false_eq_true, if_true]
      apply ih
      · exact hst1
      · simpa [e2] using hh
      · simp only [wrap32_pred _ hw1 hw2]; omega
      · simp only [wrap32_pred _ hw1 hw2]; omega
      · simp only [wrap32_pred _ hw1 hw2, e3]; push_cast; omega
      · simp only [BUF_SIZE] at hb hfuel; omega
      · show BUF_SIZE + 1 ≤ s.pc + 3 + 3 * fuel
        omega
    · simp only [hb, not_false_eq_true, if_true]
      exact ⟨_, rfl⟩

/-- For a width that is non-negative and not zero, with `24 * w + 31` representable as an
`int`, a stride below `BUF_SIZE` bounds the width by 2729 and lies between `3 * w` and 8188. -/
theorem width_bound_of_stride (w : Int) (h0 : 0 ≤ w) (hw : w ≠ 0)
    (h1 : 24 * w + 31 < 2147483648) (hs : strideOf w 24 < 8192) :
    1 ≤ w ∧ w ≤ 2729 ∧ 3 * w ≤ strideOf w 24 ∧ strideOf w 24 ≤ 8188 := by
  rw [strideOf_24 w h0 (by omega)] at hs ⊢
  omega

theorem validate_hdrWide_d : validateheaderd hdrWide 70 =
    { hcWide with nValid := 15, dwFlags := 32767 } := by decide!

/-- C18 at a failing input, with the part of the claim that holds. The header `hdrWide`
(width `2^30 + 1`, height 4, file size 70) is accepted by both validators with stride 4, so
the width exceeds 2729 and `3 * width` exceeds the stride; with random fill `encode` then
accesses the scan-line buffer outside its `BUF_SIZE` bytes. For every header accepted by
either validator whose width is non-negative with `24 * width + 31` representable as an
`int`, the bounds `1 ≤ width ≤ 2729` and `3 * width ≤ stride ≤ 8188` hold. -/
theorem buffer_bound_fails_wide_header :
    ((validateheadere hdrWide 70 1).nValid = HDR_CHECKE_PASS ∧
      (validateheaderd hdrWide 70).nValid = HDR_CHECKD_PASS ∧
      (validateheadere hdrWide 70 1).nBMPw = 1073741825 ∧
      (validateheadere hdrWide 70 1).nStride = 4 ∧
      ¬ (validateheadere hdrWide 70 1).nBMPw ≤ 2729 ∧
      ¬ 3 * (validateheadere hdrWide 70 1).nBMPw ≤ (validateheadere hdrWide 70 1).nStride) ∧
    (∀ (rand : Nat → Nat) (buf0 : Buf), ∃ out,
      encode 2730 (validateheadere hdrWide 70 1) 1 1 dataWide [0x41] rand buf0
        = some (Outcome.fault out)) ∧
    (∀ (p : BmpHeader) (i j : Int),
      ((validateheadere p i j).nValid = HDR_CHECKE_PASS ∨
        (validateheaderd p i).nValid = HDR_CHECKD_PASS) →
      0 ≤ p.biWidth → 24 * p.biWidth + 31 < 2147483648 →
      1 ≤ (validateheadere p i j).nBMPw ∧ (validateheadere p i j).nBMPw ≤ 2729 ∧
      3 * (validateheadere p i j).nBMPw ≤ (validateheadere p i j).nStride ∧
      (validateheadere p i j).nStride ≤ 8188 ∧
      (validateheaderd p i).nBMPw = (validateheadere p i j).nBMPw ∧
      (validateheaderd p i).nStride = (validateheadere p i j).nStride) := by
  refine ⟨?_, ?_, ?_⟩
  · rw [validate_hdrWide, validate_hdrWide_d]
    exact ⟨rfl, rfl, rfl, rfl, by decide, by decide⟩
  · intro rand buf0
    rw [validate_hdrWide]
    have hn : toSizeT hcWide.nStride = 4 := rfl
    have hrd := freadRow_dataWide buf0 dataWide (Or.inl rfl)
    unfold encode
    simp only [hn, hrd]
    have hw1 : wrap32 (hcWide.nBMPw - 1) = 1073741824 := rfl
    have hw2 : wrap32 (1073741824 - 1) = 1073741823 := rfl
    simp only [hw1, hw2, ne_eq, OfNat.ofNat_ne_zero, not_false_eq_true, if_true]
    apply encLoop_overrun_fault _ _ _ _ (Or.inl rfl)
    · exact Or.inl rfl
    · show hcWide.nBMPh ≠ 0; decide
    · show (1 : Int) ≤ 1073741823; decide
    · show (1073741823 : Int) < 2147483648; decide
    · show (BUF_SIZE : Int) ≤ ((3 + 3 : Nat) : Int) + 3 * (1073741823 - 1) + 2; decide
    · decide
    · show BUF_SIZE + 1 ≤ 3 + 3 + 3 * 2730; decide
  · intro p i j hacc h0 h1
    rw [validateheaderd_nBMPw, validateheaderd_nStride, validateheadere_nBMPw,
      validateheadere_nStride]
    have key : p.biBitCount = 24 ∧ strideOf p.biWidth p.biBitCount < 8192 ∧ p.biWidth ≠ 0 := by
      rcases hacc with hE | hD
      · obtain ⟨_, _, _, _, _, ⟨a6, _⟩, _, a8, _, _, _, _, ⟨_, a13⟩, _⟩ :=
          (validateheadere_accept_iff p i j).1 hE
        exact ⟨a8, a13, by omega⟩
      · obtain ⟨_, _, _, _, _, a6, _, a8, _, _, _, _, ⟨_, a13⟩, _⟩ :=
          (validateheaderd_accept_iff p i).1 hD
        refine ⟨a8, a13, ?_⟩
        intro hz
        rw [hz, Int.zero_mul] at a6
        exact absurd a6 (by decide)
    obtain ⟨k1, k2, k3⟩ := key
    rw [k1] at k2 ⊢
    obtain ⟨b1, b2, b3, b4⟩ := width_bound_of_stride p.biWidth h0 k3 h1 k2
    exact ⟨b1, b2, b3, b4, rfl, rfl⟩

/-! ## The capacity test of `decode` -/

/-- The function `decode` is its head, the capacity test, and its loop. -/
theorem decode_eq_decHead (fuel : Nat) (hc : HDRCHECK) (src : List Nat) (buf0 : Buf) :
    decode fuel hc src buf0 =
      match decHead hc src buf0 with
      | Sum.inr o => some o
      | Sum.inl s =>
        if wrap32 (hc.nBMPw * hc.nBMPh) - FILE_SIZE_PIXELS < (s.dfsw : Int) then
          some (Outcome.ret (-4) [])
        else decLoop hc.nBMPw (toSizeT hc.nStride) fuel s := by
  unfold decode decHead
  cases hrd : freadRow (toSizeT hc.nStride) src buf0 with
  | fault => simp only [hrd]
  | short => simp only [hrd]
  | ok buf rest =>
    simp only [hrd]
    by_cases hw : wrap32 (hc.nBMPw - 1) ≠ 0
    · simp only [hw, ne_eq, not_false_eq_true, if_true]
    · simp only [hw, if_false]
      by_cases hh : wrap32 (hc.nBMPh - 1) = 0
      · simp only [hh, if_true]
      · simp only [hh, if_false]
        cases hrd2 : freadRow (toSizeT hc.nStride) rest buf with
        | fault => simp only [hrd2]
        | short => simp only [hrd2]
        | ok buf2 rest2 => simp only [hrd2]

/-- The loop of `decode` returns 0, `-5` or `-6` when it returns. -/
theorem decLoop_code (w : Int) (n : Nat) : ∀ (fuel : Nat) (s : DecState) (c : Int)
    (out : List Nat), decLoop w n fuel s = some (Outcome.ret c out) →
    c = 0 ∨ c = -5 ∨ c = -6 := by
  intro fuel
  induction fuel with
  | zero =>
    intro s c out h
    simp only [decLoop] at h
    split at h
    · injection h with h; injection h with h _; exact Or.inl h.symm
    · exact Option.noConfusion h
  | succ fuel ih =>
    intro s c out h
    simp only [decLoop] at h
    split at h
    · injection h with h; injection h with h _; exact Or.inl h.symm
    · split at h
      · injection h with h
        rename_i o heq
        split at heq
        · exact Sum.noConfusion heq
        · split at heq
          · injection heq with heq
            rw [← heq] at h
            injection h with h _
            exact Or.inr (Or.inl h.symm)
          · split at heq
            · injection heq with heq
              rw [← heq] at h
              exact Outcome.noConfusion h
            · injection heq with heq
              rw [← heq] at h
              injection h with h _
              exact Or.inr (Or.inr h.symm)
            · exact Sum.noConfusion heq
      · split at h
        · injection h with h
          exact Outcome.noConfusion h
        · split at h
          · injection h with h; injection h with h _; exact Or.inl h.symm
          · exact ih _ c out h

theorem unpackAt_lt (buf : Buf) (pc : Nat) : unpackAt buf pc < 256 := unpackBytes_lt _ _ _

theorem length_word_lt (a b : Nat) (ha : a < 256) (hb : b < 256) : a + 256 * b < 65536 := by
  omega

theorem toSizeT_of_nonneg (x : Int) (h0 : 0 ≤ x) (h1 : x < 8192) : toSizeT x = x.toNat := by
  unfold toSizeT
  rw [Int.emod_eq_of_lt h0 (by omega)]

/-- With complete pixel data for a geometry of at least one row, rows that fit the buffer
and, for a width of 1, at least two rows, the head of `decode` reaches the capacity test; the
length it has assembled is below `2^16`, and when a row holds its `width` pixels it is the
length carried by the first two pixels of the image. -/
theorem decHead_reached (hc : HDRCHECK) (src : List Nat) (buf0 : Buf)
    (hw : IsInt32 hc.nBMPw) (hh1 : 1 ≤ hc.nBMPh) (hh2 : hc.nBMPh < 2147483648)
    (hs0 : 0 ≤ hc.nStride) (hs1 : hc.nStride < 8192)
    (hsrc : (src.length : Int) = hc.nBMPh * hc.nStride)
    (hone : hc.nBMPw = 1 → 2 ≤ hc.nBMPh) :
    ∃ s, decHead hc src buf0 = Sum.inl s ∧ s.dfsw < 65536 ∧
      (1 ≤ hc.nBMPw → 3 * hc.nBMPw ≤ hc.nStride →
        s.dfsw = lengthOf src hc.nBMPw.toNat hc.nStride.toNat) := by
  have hn := toSizeT_of_nonneg hc.nStride hs0 hs1
  have hnc : ((hc.nStride.toNat : Nat) : Int) = hc.nStride := Int.toNat_of_nonneg hs0
  have hnB : hc.nStride.toNat ≤ BUF_SIZE := by simp only [BUF_SIZE]; omega
  have hmul : 1 * hc.nStride ≤ hc.nBMPh * hc.nStride :=
    Int.mul_le_mul_of_nonneg_right hh1 hs0
  have hlen : hc.nStride.toNat ≤ src.length := by omega
  obtain ⟨hwa, hwb⟩ := hw
  unfold decHead
  simp only [hn]
  rw [freadRow_ok _ src buf0 hlen hnB]
  simp only
  generalize hn' : hc.nStride.toNat = n at *
  have hrow0 : ∀ o, o < n → (fun k => if k < n then src.getD k 0 else buf0 k) o
      = src.getD (0 * n + o) 0 := by
    have := fread_row src n 0 buf0
    simpa using this
  by_cases hw2 : wrap32 (hc.nBMPw - 1) ≠ 0
  · rw [if_pos hw2]
    refine ⟨_, rfl, ?_, ?_⟩
    · exact length_word_lt _ _ (unpackAt_lt _ _) (unpackAt_lt _ _)
    · intro hw1 hfit
      have hWc : ((hc.nBMPw.toNat : Nat) : Int) = hc.nBMPw := Int.toNat_of_nonneg (by omega)
      generalize hc.nBMPw.toNat = W at *
      have hW2 : 2 ≤ W := by
        by_contra hcon
        have : hc.nBMPw = 1 := by omega
        rw [this] at hw2
        exact hw2 (by decide)
      have hn3 : 3 * W ≤ n := by omega
      have hp0 := unpackAt_row src W n 0 0 _ (by omega) hn3 hrow0
      have hp1 := unpackAt_row src W n 0 1 _ (by omega) hn3 hrow0
      simp only [Nat.mul_zero, Nat.zero_mul, Nat.zero_add, Nat.mul_one] at hp0 hp1
      exact congrArg₂ (fun a b => a + 256 * b) hp0 hp1
  · rw [if_neg hw2]
    have hw1 : hc.nBMPw = 1 := by
      have h0 : wrap32 (hc.nBMPw - 1) = 0 := by
        by_contra hcon
        exact hw2 hcon
      unfold wrap32 at h0
      omega
    have hH2 := hone hw1
    have hh3 : wrap32 (hc.nBMPh - 1) = hc.nBMPh - 1 := wrap32_pred _ hh1 hh2
    have hh4 : ¬ (hc.nBMPh - 1 = 0) := by omega
    have hmul2 : 2 * hc.nStride ≤ hc.nBMPh * hc.nStride :=
      Int.mul_le_mul_of_nonneg_right hH2 hs0
    have hrest : n ≤ (src.drop n).length := by
      rw [List.length_drop]
      omega
    rw [hh3, if_neg hh4, freadRow_ok n (src.drop n) _ hrest hnB]
    refine ⟨_, rfl, ?_, ?_⟩
    · exact length_word_lt _ _ (unpackAt_lt _ _) (unpackAt_lt _ _)
    · intro _ hfit
      have hW1 : hc.nBMPw.toNat = 1 := by rw [hw1]; rfl
      rw [hW1]
      have hn3 : 3 * 1 ≤ n := by omega
      have hrow1 : ∀ o, o < n → (fun k => if k < n then (src.drop n).getD k 0 else
          (fun k => if k < n then src.getD k 0 else buf0 k) k) o = src.getD (1 * n + o) 0 := by
        have := fread_row src n 1 (fun k => if k < n then src.getD k 0 else buf0 k)
        simpa using this
      have hp0 := unpackAt_row src 1 n 0 0 _ (by omega) hn3 hrow0
      have hp1 := unpackAt_row src 1 n 1 0 _ (by omega) hn3 hrow1
      simp only [Nat.mul_zero, Nat.zero_mul, Nat.zero_add, Nat.mul_one, Nat.add_zero] at hp0 hp1
      exact congrArg₂ (fun a b => a + 256 * b) hp0 hp1

theorem abs32_cases (x : Int) (h1 : -2147483648 ≤ x) (h2 : x < 2147483648) :
    abs32 x = -2147483648 ∨ (0 ≤ abs32 x ∧ abs32 x < 2147483648) := by
  unfold abs32 wrap32
  split <;> omega

/-- A header accepted by `validateheaderd` has a height of at least 1. -/
theorem acceptD_height_pos (p : BmpHeader) (i : Int) (hp : p.InRange)
    (hacc : (validateheaderd p i).nValid = HDR_CHECKD_PASS) :
    1 ≤ abs32 p.biHeight ∧ abs32 p.biHeight < 2147483648 := by
  have a6 := ((validateheaderd_accept_iff p i).1 hacc).2.2.2.2.2.1
  obtain ⟨hb1, hb2⟩ := hp.2.2.2.2.2.2.2.2.1
  rcases abs32_cases p.biHeight hb1 hb2 with h | ⟨h0, h1⟩
  · rw [h] at a6
    unfold wrap32 at a6
    omega
  · refine ⟨?_, h1⟩
    by_contra hcon
    have hz : abs32 p.biHeight = 0 := by omega
    rw [hz, Int.mul_zero] at a6
    exact absurd a6 (by decide)


/-! ## The bytes `encode` writes: the invariant of its loop for any geometry -/

theorem genBuf_packAt (img : List Nat) (n W : Nat) (pl : Nat → Option Nat) (r c d : Nat)
    (buf : Buf) (hc : c < W) (hpl : pl (r * W + c) = some d)
    (h : GenBuf img n W pl r c buf) : GenBuf img n W pl r (c + 1) (packAt buf (3 * c) d) := by
  intro o ho
  have hb := h o ho
  by_cases h1 : o / 3 < c
  · rw [packAt_other _ _ _ _ (by omega) (by omega) (by omega), hb]
    simp only [h1, if_true, show o / 3 < c + 1 by omega]
  · rw [if_neg h1] at hb
    by_cases h2 : o / 3 = c
    · have hlt : o / 3 < c + 1 := by omega
      rw [if_pos hlt]
      unfold encByte
      rw [if_pos (by omega), h2, hpl]
      simp only
      have hcases : o = 3 * c ∨ o = 3 * c + 1 ∨ o = 3 * c + 2 := by omega
      rcases hcases with e | e | e
      · have hb0 := h (3 * c) (by omega)
        rw [if_neg (by omega)] at hb0
        rw [e, packAt_blue, hb0]
        unfold packChannel
        rw [if_pos (by omega)]
      · have hb0 := h (3 * c + 1) (by omega)
        rw [if_neg (by omega)] at hb0
        rw [e, packAt_green, hb0]
        unfold packChannel
        rw [if_neg (by omega), if_pos (by omega)]
      · have hb0 := h (3 * c + 2) (by omega)
        rw [if_neg (by omega)] at hb0
        rw [e, packAt_red, hb0]
        unfold packChannel
        rw [if_neg (by omega), if_neg (by omega)]
    · rw [packAt_other _ _ _ _ (by omega) (by omega) (by omega), hb,
        if_neg (show ¬ o / 3 < c + 1 by omega)]

theorem genBuf_skip (img : List Nat) (n W : Nat) (pl : Nat → Option Nat) (r c : Nat)
    (buf : Buf) (hc : c < W) (hpl : pl (r * W + c) = none)
    (h : GenBuf img n W pl r c buf) : GenBuf img n W pl r (c + 1) buf := by
  intro o ho
  have hb := h o ho
  by_cases h1 : o / 3 < c
  · rw [hb]
    simp only [h1, if_true, show o / 3 < c + 1 by omega]
  · rw [if_neg h1] at hb
    by_cases h2 : o / 3 = c
    · rw [if_pos (show o / 3 < c + 1 by omega), hb]
      unfold encByte
      rw [if_pos (by omega), h2, hpl]
    · rw [hb, if_neg (show ¬ o / 3 < c + 1 by omega)]

theorem genOut_append (img : List Nat) (n W : Nat) (pl : Nat → Option Nat) (r : Nat)
    (out : List Nat) (buf : Buf) (ho : GenOut img n W pl r out)
    (hb : GenBuf img n W pl r W buf) : GenOut img n W pl (r + 1) (out ++ rowBytes n buf) := by
  obtain ⟨hlen, hall⟩ := ho
  refine ⟨by rw [List.length_append, rowBytes_length, hlen, Nat.add_mul, Nat.one_mul], ?_⟩
  intro r' o hr' ho'
  by_cases hlt : r' < r
  · have hpos : r' * n + o < r * n := by
      have : (r' + 1) * n ≤ r * n := Nat.mul_le_mul_right n (by omega)
      rw [Nat.add_mul] at this
      omega
    rw [List.getD_append _ _ _ _ (by omega)]
    exact hall r' o hlt ho'
  · have hr : r' = r := by omega
    subst hr
    rw [List.getD_append_right _ _ _ _ (by omega), hlen, Nat.add_sub_cancel_left,
      rowBytes_getD _ _ _ ho', hb o ho']
    by_cases h1 : o / 3 < W
    · rw [if_pos h1]
    · rw [if_neg h1]
      unfold encByte
      rw [if_neg h1]

theorem genBuf_fread (img : List Nat) (n W : Nat) (pl : Nat → Option Nat) (r : Nat)
    (buf : Buf) :
    GenBuf img n W pl r 0 (fun k => if k < n then (img.drop (r * n)).getD k 0 else buf k) := by
  intro o ho
  rw [fread_row img n r buf o ho, if_neg (by omega)]

theorem genOut_nil (img : List Nat) (n W : Nat) (pl : Nat → Option Nat) :
    GenOut img n W pl 0 [] := by
  refine ⟨by simp, ?_⟩
  intro r' o hr' _
  omega

/-- The `switch(state)` of a pass delivers the byte planned for the pixel: either a byte is
planned, it is in `dibyte` and the state lets it be embedded, or none is planned and the
state is `-1`; the stream state moves on to the next pixel. -/
theorem encSwitch_planned (nRF : Int) (rand : Nat → Nat) (s : EncState) (c0 c1 : Nat)
    (P : List Nat) (q : Nat) (hRF : nRF = 0 ∨ nRF = 1 ∨ nRF = 2 ∨ nRF = 3) (hq : 2 ≤ q)
    (hst : GenState P nRF q s) :
    ((planned c0 c1 P nRF rand q = some (encSwitch nRF rand s).dibyte ∧
        (encSwitch nRF rand s).state > -1) ∨
      (planned c0 c1 P nRF rand q = none ∧ ¬ (encSwitch nRF rand s).state > -1)) ∧
    GenState P nRF (q + 1) (encSwitch nRF rand s) := by
  rcases hst with ⟨h0, hd, hle, hr⟩ | ⟨hs, hlt, hr⟩
  · -- the payload stream is still being read
    cases hdata : s.data with
    | nil =>
      have hlen : P.length ≤ q - 2 := length_le_of_drop_nil P (q - 2) (by rw [← hd, hdata])
      have hq0 : q - (2 + P.length) = 0 := by omega
      have hpl : planned c0 c1 P nRF rand q = fillByte nRF rand 0 := by
        unfold planned
        rw [if_neg (by omega), hq0]
      have hsw : encSwitch nRF rand s =
          { s with state := (if nRF ≠ 0 then nRF else -1),
                   dibyte :=
                     (if (if nRF ≠ 0 then nRF else -1) = 3 then
                       (if (if nRF ≠ 0 then nRF else -1) = 2 then rand s.rnd % 256 &&& mask
                         else rand s.rnd % 256) ||| notMask
                     else (if (if nRF ≠ 0 then nRF else -1) = 2 then rand s.rnd % 256 &&& mask
                         else rand s.rnd % 256)),
                   rnd := s.rnd + 1 } := by
        unfold encSwitch
        simp only [h0, if_true, hdata]
      rw [hsw, hpl, hr]
      refine ⟨?_, Or.inr ⟨rfl, by omega, fun _ => by show 0 + 1 = q + 1 - (2 + P.length); omega⟩⟩
      rcases hRF with h | h | h | h <;> subst h <;> simp [fillByte]
    | cons b rest =>
      obtain ⟨g1, g2, g3⟩ := embedded_of_drop c0 c1 P q b rest hq (by rw [← hd, hdata])
      have hsw : encSwitch nRF rand s = { s with dibyte := b % 256, data := rest } := by
        unfold encSwitch
        simp only [h0, if_true, hdata]
      rw [hsw]
      refine ⟨Or.inl ⟨?_, ?_⟩, Or.inl ⟨h0, ?_, by omega, hr⟩⟩
      · unfold planned
        rw [if_pos g3, g1]
      · show s.state > -1
        omega
      · show rest = P.drop (q + 1 - 2)
        exact g2
  · -- the payload is exhausted
    have hpl : planned c0 c1 P nRF rand q = fillByte nRF rand (q - (2 + P.length)) := by
      unfold planned
      rw [if_neg (by omega)]
    rw [hpl]
    rcases hRF with h | h | h | h
    · subst h
      have hs' : s.state = -1 := by simpa using hs
      rw [encSwitch_idle _ _ _ hs']
      refine ⟨Or.inr ⟨by simp [fillByte], by omega⟩, Or.inr ⟨hs, by omega, fun h => absurd rfl h⟩⟩
    · subst h
      have hs' : s.state = 1 := by simpa using hs
      have hrn := hr (by decide)
      have hsw : encSwitch 1 rand s = { s with dibyte := rand s.rnd % 256, rnd := s.rnd + 1 } := by
        unfold encSwitch
        simp [hs']
      rw [hsw]
      refine ⟨Or.inl ⟨by simp [fillByte, hrn], by show s.state > -1; omega⟩,
        Or.inr ⟨hs, by omega, fun _ => by show s.rnd + 1 = q + 1 - (2 + P.length); omega⟩⟩
    · subst h
      have hs' : s.state = 2 := by simpa using hs
      have hrn := hr (by decide)
      have hsw : encSwitch 2 rand s =
          { s with dibyte := (rand s.rnd % 256) &&& mask, rnd := s.rnd + 1 } := by
        unfold encSwitch
        simp [hs']
      rw [hsw]
      refine ⟨Or.inl ⟨by simp [fillByte, hrn], by show s.state > -1; omega⟩,
        Or.inr ⟨hs, by omega, fun _ => by show s.rnd + 1 = q + 1 - (2 + P.length); omega⟩⟩
    · subst h
      have hs' : s.state = 3 := by simpa using hs
      have hrn := hr (by decide)
      have hsw : encSwitch 3 rand s =
          { s with dibyte := (rand s.rnd % 256) ||| notMask, rnd := s.rnd + 1 } := by
        unfold encSwitch
        simp [hs']
      rw [hsw]
      refine ⟨Or.inl ⟨by simp [fillByte, hrn], by show s.state > -1; omega⟩,
        Or.inr ⟨hs, by omega, fun _ => by show s.rnd + 1 = q + 1 - (2 + P.length); omega⟩⟩

/-- One pass of the encoder loop keeps the invariant, or ends the run without returning 0. -/
theorem encBody_gen (img : List Nat) (n W H : Nat) (c0 c1 : Nat) (P : List Nat) (nRF : Int)
    (rand : Nat → Nat) (hRF : nRF = 0 ∨ nRF = 1 ∨ nRF = 2 ∨ nRF = 3)
    (hW : W < 2147483648) (hH : H < 2147483648) (s : EncState) (r c : Nat)
    (hat : GenAt img n W H c0 c1 P nRF rand r c s) :
    (∃ s1, encBody W n nRF rand s = Sum.inl s1 ∧ GenInv img n W H c0 c1 P nRF rand s1) ∨
    (∃ o, encBody W n nRF rand s = Sum.inr o ∧ ∀ out, o ≠ Outcome.ret 0 out) := by
  obtain ⟨hh, hr, hw, hc, hpc, hq, hout, hbuf, hsrc, hlen, hst⟩ := hat
  obtain ⟨e1, e2, e3, e4, e5, e6⟩ := encSwitch_frame nRF rand s
  obtain ⟨hact, hst1⟩ := encSwitch_planned nRF rand s c0 c1 P (r * W + c) hRF hq hst
  unfold encBody
  simp only [e1, e2, e3, e4, e5, e6]
  by_cases hf : (encSwitch nRF rand s).state > -1 ∧ ¬ (s.pc + 2 < BUF_SIZE)
  · right
    rw [if_pos hf]
    exact ⟨_, rfl, fun out h => Outcome.noConfusion h⟩
  · rw [if_neg hf]
    have hbuf1 : GenBuf img n W (planned c0 c1 P nRF rand) r (c + 1)
        (if (encSwitch nRF rand s).state > -1 then
          packAt s.buf s.pc (encSwitch nRF rand s).dibyte else s.buf) := by
      rcases hact with ⟨hpl, hpos⟩ | ⟨hpl, hneg⟩
      · rw [if_pos hpos, hpc]
        exact genBuf_packAt img n W _ r c _ s.buf hc hpl hbuf
      · rw [if_neg hneg]
        exact genBuf_skip img n W _ r c s.buf hc hpl hbuf
    have hwp : wrap32 (s.wpels - 1) = (W : Int) - c - 1 := by
      rw [wrap32_pred _ (by omega) (by omega), hw]
    rw [hwp]
    by_cases hlast : (W : Int) - c - 1 ≠ 0
    · left
      rw [if_pos hlast]
      refine ⟨_, rfl, Or.inl ⟨r, c + 1, hh, hr, ?_, by omega, ?_, by omega, hout, hbuf1, hsrc,
        hlen, ?_⟩⟩
      · show (W : Int) - c - 1 = (W : Int) - ((c + 1 : Nat) : Int)
        push_cast; ring
      · show s.pc + 3 = 3 * (c + 1)
        omega
      · have hst2 : GenState P nRF (r * W + (c + 1)) (encSwitch nRF rand s) := hst1
        rcases hst2 with ⟨g1, g2, g3, g4⟩ | ⟨g1, g2, g3⟩
        · exact Or.inl ⟨g1, g2, g3, g4⟩
        · exact Or.inr ⟨g1, g2, g3⟩
    · rw [if_neg hlast]
      have hcW : c + 1 = W := by omega
      rw [hcW] at hbuf1
      have hout1 := genOut_append img n W _ r s.out _ hout hbuf1
      have hhp : wrap32 (s.hpels - 1) = (H : Int) - r - 1 := by
        rw [wrap32_pred _ (by omega) (by omega), hh]
      simp only [hhp]
      by_cases hmore : (H : Int) - r - 1 ≠ 0
      · rw [if_pos hmore]
        cases hrd : freadRow n s.src
            (if (encSwitch nRF rand s).state > -1 then
              packAt s.buf s.pc (encSwitch nRF rand s).dibyte else s.buf) with
        | fault =>
          right
          exact ⟨_, rfl, fun out h => Outcome.noConfusion h⟩
        | short =>
          right
          refine ⟨_, rfl, fun out h => ?_⟩
          injection h with h1 _
          exact absurd h1 (by decide)
        | ok buf1 rest =>
          left
          obtain ⟨g1, _, g3, g4⟩ := freadRow_eq_ok _ _ _ _ _ hrd
          refine ⟨_, rfl, Or.inl ⟨r + 1, 0, ?_, by omega, ?_, by omega, rfl, ?_, hout1, ?_, ?_,
            ?_, ?_⟩⟩
          · show (H : Int) - r - 1 = (H : Int) - ((r + 1 : Nat) : Int)
            push_cast; ring
          · show (W : Int) = (W : Int) - ((0 : Nat) : Int)
            simp
          · rw [Nat.add_mul]; omega
          · show GenBuf img n W _ (r + 1) 0 buf1
            rw [g3, hsrc]
            exact genBuf_fread img n W _ (r + 1) _
          · show rest = img.drop ((r + 1 + 1) * n)
            rw [g4, hsrc, List.drop_drop]
            congr 1
            ring
          · rw [hsrc, List.length_drop] at g1
            have : (r + 1 + 1) * n = (r + 1) * n + n := by ring
            omega
          · have hidx : (r + 1) * W + 0 = r * W + c + 1 := by rw [Nat.add_mul]; omega
            rw [hidx]
            rcases hst1 with ⟨k1, k2, k3, k4⟩ | ⟨k1, k2, k3⟩
            · exact Or.inl ⟨k1, k2, k3, k4⟩
            · exact Or.inr ⟨k1, k2, k3⟩
      · left
        rw [if_neg hmore]
        have hrH : r + 1 = H := by omega
        refine ⟨_, rfl, Or.inr ⟨?_, ?_, ?_⟩⟩
        · show (H : Int) - r - 1 = 0
          omega
        · rw [← hrH]; exact hout1
        · rw [← hrH]; exact hlen

/-- If the loop of `encode` returns 0 from a state that satisfies the invariant, it has
written `H` rows, all present in the input, each byte as `encByte` gives it. -/
theorem encLoop_gen (img : List Nat) (n W H : Nat) (c0 c1 : Nat) (P : List Nat) (nRF : Int)
    (rand : Nat → Nat) (hRF : nRF = 0 ∨ nRF = 1 ∨ nRF = 2 ∨ nRF = 3)
    (hW : W < 2147483648) (hH : H < 2147483648) :
    ∀ (fuel : Nat) (s : EncState) (out : List Nat), GenInv img n W H c0 c1 P nRF rand s →
    encLoop W n nRF rand fuel s = some (Outcome.ret 0 out) →
    GenOut img n W (planned c0 c1 P nRF rand) H out ∧ H * n ≤ img.length := by
  intro fuel
  induction fuel with
  | zero =>
    intro s out hinv hres
    rcases hinv with ⟨r, c, hat⟩ | ⟨h0, hok⟩
    · have hne : ¬ s.hpels = 0 := by
        obtain ⟨hh, hr, _⟩ := hat
        omega
      simp [encLoop, hne] at hres
    · rw [encLoop_done _ _ _ _ _ _ h0] at hres
      injection hres with hres
      injection hres with _ hres
      rw [← hres]; exact hok
  | succ fuel ih =>
    intro s out hinv hres
    rcases hinv with ⟨r, c, hat⟩ | ⟨h0, hok⟩
    · have hne : ¬ s.hpels = 0 := by
        obtain ⟨hh, hr, _⟩ := hat
        omega
      simp only [encLoop, hne, if_false] at hres
      rcases encBody_gen img n W H c0 c1 P nRF rand hRF hW hH s r c hat with
        ⟨s1, hb, hi⟩ | ⟨o, hb, ho⟩
      · rw [hb] at hres
        exact ih s1 out hi hres
      · rw [hb] at hres
        injection hres with hres
        exact absurd hres (ho out)
    · rw [encLoop_done _ _ _ _ _ _ h0] at hres
      injection hres with hres
      injection hres with _ hres
      rw [← hres]; exact hok

theorem planned_zero (c0 c1 : Nat) (P : List Nat) (nRF : Int) (rand : Nat → Nat) :
    planned c0 c1 P nRF rand 0 = some c0 := by
  unfold planned
  rw [if_pos (by omega)]
  rfl

theorem planned_one (c0 c1 : Nat) (P : List Nat) (nRF : Int) (rand : Nat → Nat) :
    planned c0 c1 P nRF rand 1 = some c1 := by
  unfold planned
  rw [if_pos (by omega)]
  rfl

theorem genState_start (P : List Nat) (nRF : Int) (s : EncState) (h0 : s.state = 0)
    (hd : s.data = P) (hr : s.rnd = 0) : GenState P nRF 2 s :=
  Or.inl ⟨h0, by simpa using hd, by omega, hr⟩

/-- Writing the buffer and reading the next row moves the invariants one row on. -/
theorem gen_flush_read (img : List Nat) (n W : Nat) (pl : Nat → Option Nat) (r : Nat)
    (out : List Nat) (buf buf1 : Buf) (srcr rest : List Nat) (ho : GenOut img n W pl r out)
    (hb : GenBuf img n W pl r W buf) (hs : srcr = img.drop ((r + 1) * n))
    (hl : (r + 1) * n ≤ img.length) (hrd : freadRow n srcr buf = ReadResult.ok buf1 rest) :
    GenOut img n W pl (r + 1) (out ++ rowBytes n buf) ∧ GenBuf img n W pl (r + 1) 0 buf1 ∧
    rest = img.drop ((r + 1 + 1) * n) ∧ (r + 1 + 1) * n ≤ img.length := by
  obtain ⟨g1, _, g3, g4⟩ := freadRow_eq_ok _ _ _ _ _ hrd
  refine ⟨genOut_append img n W pl r out buf ho hb, ?_, ?_, ?_⟩
  · rw [g3, hs]; exact genBuf_fread img n W pl (r + 1) _
  · rw [g4, hs, List.drop_drop]
    congr 1
    ring
  · rw [hs, List.length_drop] at g1
    have : (r + 1 + 1) * n = (r + 1) * n + n := by ring
    omega

/-- If `encode` returns 0 on a geometry of `W ≥ 1` by `H ≥ 1` pixels, with a fill mode
among 0, 1, 2, 3, then the input held `H` rows and the output holds `H` rows in which each
byte is as `encByte` gives it: the bytes of the pixel processed as number `q` have received
the byte `planned q` when there is one and are the input bytes otherwise. -/
theorem encode_gen (hc : HDRCHECK) (W H : Nat) (hcw : hc.nBMPw = W) (hch : hc.nBMPh = H)
    (hW1 : 1 ≤ W) (hW : W < 2147483648) (hH1 : 1 ≤ H) (hH : H < 2147483648)
    (fuel : Nat) (nFS2 nRF : Int) (hRF : nRF = 0 ∨ nRF = 1 ∨ nRF = 2 ∨ nRF = 3)
    (src P : List Nat) (rand : Nat → Nat) (buf0 : Buf) (out : List Nat)
    (henc : encode fuel hc nFS2 nRF src P rand buf0 = some (Outcome.ret 0 out)) :
    GenOut src (toSizeT hc.nStride) W
      (planned ((nFS2 % 65536).toNat % 256) ((nFS2 % 65536).toNat / 256) P nRF rand) H out ∧
    H * toSizeT hc.nStride ≤ src.length := by
  unfold encode at henc
  simp only [hcw, hch] at henc
  generalize toSizeT hc.nStride = n at henc ⊢
  generalize ((nFS2 % 65536).toNat % 256) = c0 at henc ⊢
  generalize ((nFS2 % 65536).toNat / 256) = c1 at henc ⊢
  have hpl0 : planned c0 c1 P nRF rand (0 * W + 0) = some c0 := by
    simpa using planned_zero c0 c1 P nRF rand
  cases hrd : freadRow n src buf0 with
  | fault => simp [hrd] at henc
  | short => simp [hrd] at henc
  | ok buf1 rest =>
    simp only [hrd] at henc
    obtain ⟨g1, _, g3, g4⟩ := freadRow_eq_ok _ _ _ _ _ hrd
    have hb0 : GenBuf src n W (planned c0 c1 P nRF rand) 0 0 buf1 := by
      have := genBuf_fread src n W (planned c0 c1 P nRF rand) 0 buf0
      simp only [Nat.zero_mul, List.drop_zero] at this
      rw [g3]; exact this
    have hb1 : GenBuf src n W (planned c0 c1 P nRF rand) 0 (0 + 1) (packAt buf1 0 c0) :=
      genBuf_packAt src n W _ 0 0 c0 buf1 (by omega) hpl0 hb0
    have hs0 : rest = src.drop ((0 + 1) * n) := by simpa using g4
    have hl0 : (0 + 1) * n ≤ src.length := by simpa using g1
    have hw1 : wrap32 ((W : Int) - 1) = (W : Int) - 1 := wrap32_pred _ (by omega) (by omega)
    have hh1 : wrap32 ((H : Int) - 1) = (H : Int) - 1 := wrap32_pred _ (by omega) (by omega)
    rw [hw1] at henc
    by_cases hw2 : (W : Int) - 1 ≠ 0
    · -- at least two pixels per row
      simp only [hw2, ne_eq, not_false_eq_true, if_true] at henc
      have hpl1 : planned c0 c1 P nRF rand (0 * W + 1) = some c1 := by
        simpa using planned_one c0 c1 P nRF rand
      have hb2 : GenBuf src n W (planned c0 c1 P nRF rand) 0 (1 + 1)
          (packAt (packAt buf1 0 c0) 3 c1) :=
        genBuf_packAt src n W _ 0 1 c1 _ (by omega) hpl1 hb1
      have hw3 : wrap32 ((W : Int) - 1 - 1) = (W : Int) - 1 - 1 :=
        wrap32_pred _ (by omega) (by omega)
      rw [hw3] at henc
      by_cases hw4 : (W : Int) - 1 - 1 ≠ 0
      · simp only [hw4, ne_eq, not_false_eq_true, if_true] at henc
        refine encLoop_gen src n W H c0 c1 P nRF rand hRF hW hH fuel _ out
          (Or.inl ⟨0, 2, ?_⟩) henc
        refine ⟨?_, by omega, ?_, by omega, rfl, by omega, genOut_nil src n W _, hb2, hs0, hl0,
          ?_⟩
        · show (H : Int) = (H : Int) - ((0 : Nat) : Int)
          omega
        · show (W : Int) - 1 - 1 = (W : Int) - ((2 : Nat) : Int)
          omega
        · rw [Nat.zero_mul, Nat.zero_add]
          exact genState_start P nRF _ rfl rfl rfl
      · simp only [hw4, if_false, hh1] at henc
        have hW2 : W = 2 := by omega
        by_cases hh2 : (H : Int) - 1 = 0
        · simp [hh2] at henc
        · simp only [hh2, if_false] at henc
          cases hrd2 : freadRow n rest (packAt (packAt buf1 0 c0) 3 c1) with
          | fault => simp [hrd2] at henc
          | short => simp [hrd2] at henc
          | ok buf2 rest2 =>
            simp only [hrd2] at henc
            have hb2' : GenBuf src n W (planned c0 c1 P nRF rand) 0 W
                (packAt (packAt buf1 0 c0) 3 c1) := by
              rw [hW2] at hb2 ⊢; exact hb2
            obtain ⟨f1, f2, f3, f4⟩ := gen_flush_read src n W _ 0 [] _ buf2 rest rest2
              (genOut_nil src n W _) hb2' hs0 hl0 hrd2
            refine encLoop_gen src n W H c0 c1 P nRF rand hRF hW hH fuel _ out
              (Or.inl ⟨0 + 1, 0, ?_⟩) henc
            refine ⟨?_, by omega, ?_, by omega, rfl, by omega, f1, f2, f3, f4, ?_⟩
            · show (H : Int) - 1 = (H : Int) - ((0 + 1 : Nat) : Int)
              omega
            · show (W : Int) = (W : Int) - ((0 : Nat) : Int)
              omega
            · rw [show (0 + 1) * W + 0 = 2 by omega]
              exact genState_start P nRF _ rfl rfl rfl
    · -- one pixel per row
      have hW1' : W = 1 := by omega
      simp only [hw2, if_false, hh1] at henc
      by_cases hh2 : (H : Int) - 1 = 0
      · simp [hh2] at henc
      · simp only [hh2, if_false] at henc
        cases hrd2 : freadRow n rest (packAt buf1 0 c0) with
        | fault => simp [hrd2] at henc
        | short => simp [hrd2] at henc
        | ok buf2 rest2 =>
          simp only [hrd2] at henc
          have hb1' : GenBuf src n W (planned c0 c1 P nRF rand) 0 W (packAt buf1 0 c0) := by
            rw [hW1'] at hb1 ⊢; exact hb1
          obtain ⟨f1, f2, f3, f4⟩ := gen_flush_read src n W _ 0 [] _ buf2 rest rest2
            (genOut_nil src n W _) hb1' hs0 hl0 hrd2
          have hpl1 : planned c0 c1 P nRF rand ((0 + 1) * W + 0) = some c1 := by
            rw [show (0 + 1) * W + 0 = 1 by omega]
            exact planned_one c0 c1 P nRF rand
          have hb3 : GenBuf src n W (planned c0 c1 P nRF rand) (0 + 1) (0 + 1)
              (packAt buf2 0 c1) :=
            genBuf_packAt src n W _ (0 + 1) 0 c1 buf2 (by omega) hpl1 f2
          have hw5 : wrap32 ((W : Int) - 1) = 0 := by rw [hw1]; omega
          have hh3 : wrap32 ((H : Int) - 1 - 1) = (H : Int) - 1 - 1 :=
            wrap32_pred _ (by omega) (by omega)
          simp only [hw5, ne_eq, not_true_eq_false, if_false, hh3] at henc
          by_cases hh4 : (H : Int) - 1 - 1 = 0
          · simp [hh4] at henc
          · simp only [hh4, if_false] at henc
            cases hrd3 : freadRow n rest2 (packAt buf2 0 c1) with
            | fault => simp [hrd3] at henc
            | short => simp [hrd3] at henc
            | ok buf3 rest3 =>
              simp only [hrd3] at henc
              simp only [List.nil_append] at f1
              have hb3' : GenBuf src n W (planned c0 c1 P nRF rand) (0 + 1) W
                  (packAt buf2 0 c1) := by
                rw [hW1'] at hb3 ⊢; exact hb3
              obtain ⟨k1, k2, k3, k4⟩ := gen_flush_read src n W _ (0 + 1) _ _ buf3 rest2 rest3
                f1 hb3' f3 f4 hrd3
              refine encLoop_gen src n W H c0 c1 P nRF rand hRF hW hH fuel _ out
                (Or.inl ⟨1 + 1, 0, ?_⟩) henc
              refine ⟨?_, by omega, ?_, by omega, rfl, by omega, k1, k2, k3, k4, ?_⟩
              · show (H : Int) - 1 - 1 = (H : Int) - ((1 + 1 : Nat) : Int)
                omega
              · show (W : Int) = (W : Int) - ((0 : Nat) : Int)
                omega
              · rw [show (1 + 1) * W + 0 = 2 by omega]
                exact genState_start P nRF _ rfl rfl rfl

/-! ## Reading pixels off the bytes `encode` writes -/

theorem div_mod_row (n r x : Nat) (hx : x < n) : (r * n + x) / n = r ∧ (r * n + x) % n = x := by
  have hn : 0 < n := by omega
  constructor
  · rw [Nat.add_comm, Nat.add_mul_div_right _ _ hn, Nat.div_eq_of_lt hx, Nat.zero_add]
  · rw [Nat.add_comm, Nat.add_mul_mod_self_right, Nat.mod_eq_of_lt hx]

theorem pixelOffset_eq (W n k : Nat) (hW : 0 < W) :
    pixelOffset W n k = (k / W) * n + 3 * (k % W) ∧ k % W < W ∧ (k / W) * W + k % W = k :=
  ⟨rfl, Nat.mod_lt _ hW, Nat.div_add_mod' k W⟩

/-- When a row holds its `W` pixels, the pixel with row-major index `k` of the output
carries the byte planned for it. -/
theorem genOut_pixel (img : List Nat) (n W H : Nat) (pl : Nat → Option Nat) (out : List Nat)
    (k d : Nat) (hg : GenOut img n W pl H out) (hn : 3 * W ≤ n) (hk : k < W * H)
    (hpl : pl k = some d) (hd : d < 256) : unpackPixel out W n k = d := by
  have hW : 0 < W := by
    rcases Nat.eq_zero_or_pos W with h | h
    · rw [h, Nat.zero_mul] at hk; omega
    · exact h
  obtain ⟨hoff, hc, hidx⟩ := pixelOffset_eq W n k hW
  have hr : k / W < H := Nat.div_lt_of_lt_mul hk
  have hbyte : ∀ e, e < 3 → out.getD ((k / W) * n + (3 * (k % W) + e)) 0 =
      packChannel (3 * (k % W) + e) (img.getD ((k / W) * n + (3 * (k % W) + e)) 0) d := by
    intro e he
    rw [hg.2 (k / W) (3 * (k % W) + e) hr (by omega)]
    unfold encByte
    have hdiv : (3 * (k % W) + e) / 3 = k % W := by omega
    rw [hdiv, if_pos hc, hidx, hpl]
  have h0 := hbyte 0 (by omega)
  have h1 := hbyte 1 (by omega)
  have h2 := hbyte 2 (by omega)
  unfold packChannel at h0 h1 h2
  rw [if_pos (by omega)] at h0
  rw [if_neg (by omega), if_pos (by omega)] at h1
  rw [if_neg (by omega), if_neg (by omega)] at h2
  unfold unpackPixel
  rw [hoff]
  rw [Nat.add_zero] at h0
  rw [show (k / W) * n + 3 * (k % W) + 1 = (k / W) * n + (3 * (k % W) + 1) by omega,
    show (k / W) * n + 3 * (k % W) + 2 = (k / W) * n + (3 * (k % W) + 2) by omega, h0, h1, h2]
  exact unpackBytes_pack d _ _ _ hd

/-- The three bytes of a pixel for which nothing is planned, and with it for every later
pixel, are the input bytes, when the input has exactly `H` rows and either a row holds its
`W` pixels or all pixels for which something is planned lie in the first row. -/
theorem genOut_untouched (img : List Nat) (n W H : Nat) (pl : Nat → Option Nat)
    (out : List Nat) (q0 k e : Nat) (hg : GenOut img n W pl H out) (hlen : img.length = H * n)
    (hW : 0 < W) (hgeo : 3 * W ≤ n ∨ q0 ≤ W) (hpl : ∀ q, q0 ≤ q → pl q = none)
    (hk : q0 ≤ k) (he : e < 3) :
    out.getD (pixelOffset W n k + e) 0 = img.getD (pixelOffset W n k + e) 0 := by
  obtain ⟨hoff, hc, hidx⟩ := pixelOffset_eq W n k hW
  by_cases ht : H * n ≤ pixelOffset W n k + e
  · rw [List.getD_eq_default _ _ (by rw [hg.1]; exact ht),
      List.getD_eq_default _ _ (by rw [hlen]; exact ht)]
  · have ht' : pixelOffset W n k + e < H * n := by omega
    have hn : 0 < n := by
      rcases Nat.eq_zero_or_pos n with h | h
      · rw [h, Nat.mul_zero] at ht'; omega
      · exact h
    generalize htdef : pixelOffset W n k + e = t at *
    have hr' : t / n < H := Nat.div_lt_of_lt_mul (by rw [Nat.mul_comm]; exact ht')
    have ho : t % n < n := Nat.mod_lt _ hn
    have hsplit : t / n * n + t % n = t := Nat.div_add_mod' t n
    have hbyte := hg.2 (t / n) (t % n) hr' ho
    rw [hsplit] at hbyte
    rw [hbyte]
    unfold encByte
    by_cases hin : t % n / 3 < W
    · rw [if_pos hin]
      have hge : q0 ≤ t / n * W + t % n / 3 := by
        rcases hgeo with hs | hw
        · -- a row holds its pixels
          have hx : 3 * (k % W) + e < n := by omega
          have heq : t = (k / W) * n + (3 * (k % W) + e) := by omega
          obtain ⟨d1, d2⟩ := div_mod_row n (k / W) (3 * (k % W) + e) hx
          rw [heq, d1, d2]
          have : (3 * (k % W) + e) / 3 = k % W := by omega
          rw [this, hidx]
          exact hk
        · -- everything planned lies in the first row
          by_contra hcon
          have hlt : t / n * W + t % n / 3 < W := by omega
          have hr0 : t / n = 0 := by
            by_contra hne
            have : W ≤ t / n * W := Nat.le_mul_of_pos_left W (Nat.pos_of_ne_zero hne)
            omega
          rw [hr0, Nat.zero_mul, Nat.zero_add] at hsplit hcon
          have hkr : k / W = 0 := by
            by_contra hne
            have : n ≤ k / W * n := Nat.le_mul_of_pos_left n (Nat.pos_of_ne_zero hne)
            omega
          rw [hkr, Nat.zero_mul, Nat.zero_add] at hidx
          rw [hkr, Nat.zero_mul, Nat.zero_add] at hoff
          omega
      rw [hpl _ hge]
    · rw [if_neg hin]

/-! ## Geometry of an accepted header -/

/-- A header accepted by `validateheadere` has a width and a height of at least 1, 24 bits
per pixel and a stride below `BUF_SIZE`; a row holds its pixels unless the width is so large
that `24 * width + 31` overflows. -/
theorem acceptE_geometry (p : BmpHeader) (i j : Int) (hp : p.InRange)
    (hacc : (validateheadere p i j).nValid = HDR_CHECKE_PASS) :
    1 ≤ p.biWidth ∧ p.biWidth < 2147483648 ∧ 1 ≤ abs32 p.biHeight ∧
    abs32 p.biHeight < 2147483648 ∧ p.biBitCount = 24 ∧
    strideOf p.biWidth p.biBitCount < 8192 ∧
    (3 * p.biWidth ≤ strideOf p.biWidth p.biBitCount ∨ 89478484 < p.biWidth) := by
  obtain ⟨_, _, _, _, _, ⟨a6, a6'⟩, _, a8, _, _, _, _, ⟨_, a13⟩, _⟩ :=
    (validateheadere_accept_iff p i j).1 hacc
  have hwr : p.biWidth < 2147483648 := hp.2.2.2.2.2.2.2.1.2
  have hhr := (wrap32_range (if p.biHeight < 0 then -p.biHeight else p.biHeight)).2
  refine ⟨by omega, hwr, by omega, hhr, a8, a13, ?_⟩
  by_cases hbig : 89478484 < p.biWidth
  · exact Or.inr hbig
  · left
    rw [a8, strideOf_24 p.biWidth (by omega) (by omega)]
    omega

/-- With a fill mode that embeds a byte in every pixel and a width above 2730, `encode`
never returns 0: it leaves the scan-line buffer first. -/
theorem encode_wide_fill (hc : HDRCHECK) (W : Nat) (hcw : hc.nBMPw = W) (hW1 : 2731 ≤ W)
    (hW2 : W < 2147483648) (hH : hc.nBMPh ≠ 0) (fuel : Nat) (nFS2 nRF : Int)
    (hRF : nRF = 1 ∨ nRF = 2 ∨ nRF = 3) (src data : List Nat) (rand : Nat → Nat) (buf0 : Buf)
    (out : List Nat) : encode fuel hc nFS2 nRF src data rand buf0 ≠ some (Outcome.ret 0 out) := by
  intro henc
  unfold encode at henc
  simp only [hcw] at henc
  cases hrd : freadRow (toSizeT hc.nStride) src buf0 with
  | fault => simp [hrd] at henc
  | short => simp [hrd] at henc
  | ok buf1 rest =>
    simp only [hrd] at henc
    have hw1 : wrap32 ((W : Int) - 1) = (W : Int) - 1 := wrap32_pred _ (by omega) (by omega)
    have hw2 : (W : Int) - 1 ≠ 0 := by omega
    have hw3 : wrap32 ((W : Int) - 1 - 1) = (W : Int) - 1 - 1 :=
      wrap32_pred _ (by omega) (by omega)
    have hw4 : (W : Int) - 1 - 1 ≠ 0 := by omega
    rw [hw1] at henc
    simp only [hw2, ne_eq, not_false_eq_true, if_true] at henc
    rw [hw3] at henc
    simp only [hw4, ne_eq, not_false_eq_true, if_true] at henc
    refine encLoop_overrun_ne _ _ _ _ hRF fuel _ (Or.inl rfl) hH ?_ ?_ ?_ out henc
    · show (1 : Int) ≤ (W : Int) - 1 - 1
      omega
    · show (W : Int) - 1 - 1 < 2147483648
      omega
    · show (BUF_SIZE : Int) ≤ ((3 + 3 : Nat) : Int) + 3 * ((W : Int) - 1 - 1 - 1) + 2
      simp only [BUF_SIZE]
      push_cast
      omega

theorem and_or_self (a m : Nat) : (a &&& m) ||| m = m := by
  apply Nat.eq_of_testBit_eq
  intro k
  rw [Nat.testBit_or, Nat.testBit_and]
  cases a.testBit k <;> cases m.testBit k <;> rfl

theorem fillByte_lt (nRF : Int) (rand : Nat → Nat) (t d : Nat)
    (h : fillByte nRF rand t = some d) : d < 256 := by
  have hr : rand t % 256 < 256 := Nat.mod_lt _ (by decide)
  unfold fillByte at h
  split at h
  · injection h with h; omega
  · split at h
    · injection h with h
      rw [← h]
      exact lt_of_le_of_lt Nat.and_le_left hr
    · split at h
      · injection h with h
        rw [← h]
        exact Nat.or_lt_two_pow (n := 8) hr (by decide)
      · exact Option.noConfusion h

/-! ## Fill modes -/

/-- C12. Fill-mode bit bias. For a header accepted by `validateheadere` and a fill mode among
random (1), dark (2) and light (3): if `encode` returns 0 on the payload `P`, then every pixel
with row-major index `k` from `2 + |P|` on carries the byte made from the `(k - 2 - |P|)`-th
value of `rand()`: that value as a byte (random), the byte and `0x29` (dark, so the bits
`0xD6` are 0), the byte or `0xD6` (light, so the bits `0xD6` are 1). -/
theorem fill_mode_bias (p : BmpHeader) (i j : Int) (fuel : Nat) (nFS2 nRF : Int)
    (src P : List Nat) (rand : Nat → Nat) (buf0 : Buf) (out : List Nat) (k : Nat)
    (hp : p.InRange) (hacc : (validateheadere p i j).nValid = HDR_CHECKE_PASS)
    (hRF : nRF = 1 ∨ nRF = 2 ∨ nRF = 3)
    (henc : encode fuel (validateheadere p i j) nFS2 nRF src P rand buf0
      = some (Outcome.ret 0 out))
    (hk1 : 2 + P.length ≤ k)
    (hk2 : k < (validateheadere p i j).nBMPw.toNat * (validateheadere p i j).nBMPh.toNat) :
    (nRF = 1 →
      unpackPixel out (validateheadere p i j).nBMPw.toNat (validateheadere p i j).nStride.toNat k
        = rand (k - 2 - P.length) % 256) ∧
    (nRF = 2 →
      unpackPixel out (validateheadere p i j).nBMPw.toNat (validateheadere p i j).nStride.toNat k
        = (rand (k - 2 - P.length) % 256) &&& 0x29 ∧
      unpackPixel out (validateheadere p i j).nBMPw.toNat (validateheadere p i j).nStride.toNat k
        &&& 0xD6 = 0) ∧
    (nRF = 3 →
      unpackPixel out (validateheadere p i j).nBMPw.toNat (validateheadere p i j).nStride.toNat k
        = (rand (k - 2 - P.length) % 256) ||| 0xD6 ∧
      unpackPixel out (validateheadere p i j).nBMPw.toNat (validateheadere p i j).nStride.toNat k
        &&& 0xD6 = 0xD6) := by
  obtain ⟨g1, g2, g3, g4, g5, g6, g7⟩ := acceptE_geometry p i j hp hacc
  have hcw : (validateheadere p i j).nBMPw = (p.biWidth.toNat : Int) := by
    rw [validateheadere_nBMPw, Int.toNat_of_nonneg (by omega)]
  have hch : (validateheadere p i j).nBMPh = ((abs32 p.biHeight).toNat : Int) := by
    rw [validateheadere_nBMPh, Int.toNat_of_nonneg (by omega)]
  have hfit : 3 * p.biWidth ≤ strideOf p.biWidth p.biBitCount := by
    rcases g7 with h | h
    · exact h
    · exfalso
      exact encode_wide_fill (validateheadere p i j) p.biWidth.toNat hcw (by omega) (by omega)
        (by rw [validateheadere_nBMPh]; omega) fuel nFS2 nRF hRF src P rand buf0 out henc
  have hcn : toSizeT (validateheadere p i j).nStride = (validateheadere p i j).nStride.toNat := by
    rw [validateheadere_nStride]
    exact toSizeT_of_nonneg _ (by omega) g6
  obtain ⟨hgen, _⟩ := encode_gen (validateheadere p i j) p.biWidth.toNat
    (abs32 p.biHeight).toNat hcw hch (by omega) (by omega) (by omega) (by omega) fuel nFS2 nRF
    (Or.inr hRF) src P rand buf0 out henc
  rw [hcn] at hgen
  rw [validateheadere_nBMPw, validateheadere_nBMPh] at hk2
  rw [validateheadere_nBMPw, validateheadere_nStride] at *
  have hn3 : 3 * p.biWidth.toNat ≤ (strideOf p.biWidth p.biBitCount).toNat := by omega
  have hpl : planned ((nFS2 % 65536).toNat % 256) ((nFS2 % 65536).toNat / 256) P nRF rand k
      = fillByte nRF rand (k - 2 - P.length) := by
    unfold planned
    rw [if_neg (by omega), show k - (2 + P.length) = k - 2 - P.length by omega]
  have hpix : ∀ d, fillByte nRF rand (k - 2 - P.length) = some d →
      unpackPixel out p.biWidth.toNat (strideOf p.biWidth p.biBitCount).toNat k = d := by
    intro d hd
    exact genOut_pixel src _ _ _ _ out k d hgen hn3 hk2 (hpl.trans hd) (fillByte_lt _ _ _ _ hd)
  refine ⟨?_, ?_, ?_⟩
  · intro h
    exact hpix _ (by rw [h]; rfl)
  · intro h
    have := hpix (rand (k - 2 - P.length) % 256 &&& 0x29) (by rw [h]; rfl)
    rw [this]
    exact ⟨rfl, and_and_disjoint _ 0x29 0xD6 (by decide)⟩
  · intro h
    have := hpix (rand (k - 2 - P.length) % 256 ||| 0xD6) (by rw [h]; rfl)
    rw [this]
    refine ⟨rfl, ?_⟩
    rw [or_and_mask, show (0xD6 : Nat) &&& 0xD6 = 0xD6 by decide]
    exact and_or_self _ _

/-- Witness for C12: the 4 by 4 image `data4x4`, the payload `[0x41]`, dark fill and the
sequence `randSeq`; pixel 3 carries `randSeq 0 % 256 &&& 0x29 = 8`. -/
theorem fill_mode_bias_witness :
    hdr4x4.InRange ∧ (validateheadere hdr4x4 102 1).nValid = HDR_CHECKE_PASS ∧
    encode 14 (validateheadere hdr4x4 102 1) 1 2 data4x4 [0x41] randSeq zeroBuf
      = some (Outcome.ret 0 out4x4Dark) ∧
    unpackPixel out4x4Dark 4 12 3 = 8 ∧
    ((2 : Int) = 2 →
      unpackPixel out4x4Dark (validateheadere hdr4x4 102 1).nBMPw.toNat
        (validateheadere hdr4x4 102 1).nStride.toNat 3
        = (randSeq (3 - 2 - [0x41].length) % 256) &&& 0x29 ∧
      unpackPixel out4x4Dark (validateheadere hdr4x4 102 1).nBMPw.toNat
        (validateheadere hdr4x4 102 1).nStride.toNat 3 &&& 0xD6 = 0) :=
  ⟨by decide, by decide!, by decide!, by decide!,
    (fill_mode_bias hdr4x4 102 1 14 1 2 data4x4 [0x41] randSeq zeroBuf out4x4Dark 3
      (by decide) (by decide!) (Or.inr (Or.inl rfl)) (by decide!) (by decide)
      (by decide!)).2.1⟩

/-! ## Without fill the random source has no influence -/

/-- Without fill, one pass of the loop does the same for two random sources. -/
theorem encBody_nofill (w : Int) (n : Nat) (rand rand' : Nat → Nat) (s t : EncState)
    (h : NoFillSim s t) :
    (∃ a b, encBody w n 0 rand s = Sum.inl a ∧ encBody w n 0 rand' t = Sum.inl b ∧
      NoFillSim a b) ∨
    (∃ o, encBody w n 0 rand s = Sum.inr o ∧ encBody w n 0 rand' t = Sum.inr o) := by
  obtain ⟨wp, hp, pc, buf, src, data, st, d, r, out⟩ := s
  obtain ⟨wp', hp', pc', buf', src', data', st', d', r', out'⟩ := t
  obtain ⟨h1, h2, h3, h4, h5, h6, h7, h8, h9⟩ := h
  simp only at h1 h2 h3 h4 h5 h6 h7 h8 h9
  subst h1 h2 h3 h4 h5 h6 h7 h8
  rcases h9 with h0 | hm
  · subst h0
    cases data with
    | nil =>
      have hneg : ¬ ((-1 : Int) > -1) := by decide
      unfold encBody encSwitch
      simp only [if_true, ne_eq, not_true_eq_false, if_false, hneg, false_and]
      by_cases hw : wrap32 (wp - 1) = 0
      · simp only [hw, not_true_eq_false, if_false]
        by_cases hh : wrap32 (hp - 1) = 0
        · simp only [hh, not_true_eq_false, if_false]
          exact Or.inl ⟨_, _, rfl, rfl, rfl, rfl, rfl, rfl, rfl, rfl, rfl, rfl, Or.inr rfl⟩
        · simp only [hh, not_false_eq_true, if_true]
          cases freadRow n src buf with
          | fault => exact Or.inr ⟨_, rfl, rfl⟩
          | short => exact Or.inr ⟨_, rfl, rfl⟩
          | ok b1 rest =>
            exact Or.inl ⟨_, _, rfl, rfl, rfl, rfl, rfl, rfl, rfl, rfl, rfl, rfl, Or.inr rfl⟩
      · simp only [hw, not_false_eq_true, if_true]
        exact Or.inl ⟨_, _, rfl, rfl, rfl, rfl, rfl, rfl, rfl, rfl, rfl, rfl, Or.inr rfl⟩
    | cons b rest =>
      have hpos : ((0 : Int) > -1) := by decide
      unfold encBody encSwitch
      simp only [if_true, hpos, true_and]
      by_cases hf : pc + 2 < BUF_SIZE
      · simp only [hf, not_true_eq_false, if_false]
        by_cases hw : wrap32 (wp - 1) = 0
        · simp only [hw, ne_eq, not_true_eq_false, if_false]
          by_cases hh : wrap32 (hp - 1) = 0
          · simp only [hh, not_true_eq_false, if_false]
            exact Or.inl ⟨_, _, rfl, rfl, rfl, rfl, rfl, rfl, rfl, rfl, rfl, rfl, Or.inl rfl⟩
          · simp only [hh, not_false_eq_true, if_true]
            cases freadRow n src (packAt buf pc (b % 256)) with
            | fault => exact Or.inr ⟨_, rfl, rfl⟩
            | short => exact Or.inr ⟨_, rfl, rfl⟩
            | ok b1 rest1 =>
              exact Or.inl ⟨_, _, rfl, rfl, rfl, rfl, rfl, rfl, rfl, rfl, rfl, rfl, Or.inl rfl⟩
        · simp only [hw, ne_eq, not_false_eq_true, if_true]
          exact Or.inl ⟨_, _, rfl, rfl, rfl, rfl, rfl, rfl, rfl, rfl, rfl, rfl, Or.inl rfl⟩
      · simp only [hf, not_false_eq_true, if_true]
        exact Or.inr ⟨_, rfl, rfl⟩
  · subst hm
    rw [encBody_idle w n 0 rand _ rfl, encBody_idle w n 0 rand' _ rfl]
    by_cases hw : wrap32 (wp - 1) = 0
    · simp only [hw, ne_eq, not_true_eq_false, if_false]
      by_cases hh : wrap32 (hp - 1) = 0
      · simp only [hh, not_true_eq_false, if_false]
        exact Or.inl ⟨_, _, rfl, rfl, rfl, rfl, rfl, rfl, rfl, rfl, rfl, rfl, Or.inr rfl⟩
      · simp only [hh, not_false_eq_true, if_true]
        cases freadRow n src buf with
        | fault => exact Or.inr ⟨_, rfl, rfl⟩
        | short => exact Or.inr ⟨_, rfl, rfl⟩
        | ok b1 rest =>
          exact Or.inl ⟨_, _, rfl, rfl, rfl, rfl, rfl, rfl, rfl, rfl, rfl, rfl, Or.inr rfl⟩
    · simp only [hw, ne_eq, not_false_eq_true, if_true]
      exact Or.inl ⟨_, _, rfl, rfl, rfl, rfl, rfl, rfl, rfl, rfl, rfl, rfl, Or.inr rfl⟩

/-- Without fill, the loop of `encode` ends the same way for two random sources. -/
theorem encLoop_nofill (w : Int) (n : Nat) (rand rand' : Nat → Nat) :
    ∀ (fuel : Nat) (s t : EncState), NoFillSim s t →
    encLoop w n 0 rand fuel s = encLoop w n 0 rand' fuel t := by
  intro fuel
  induction fuel with
  | zero =>
    intro s t h
    simp only [encLoop, h.2.1, h.2.2.2.2.2.2.2.1]
  | succ fuel ih =>
    intro s t h
    simp only [encLoop, h.2.1, h.2.2.2.2.2.2.2.1]
    by_cases hh : t.hpels = 0
    · simp only [hh, if_true]
    · simp only [hh, if_false]
      rcases encBody_nofill w n rand rand' s t h with ⟨a, b, ha, hb, hab⟩ | ⟨o, ha, hb⟩
      · rw [ha, hb]
        exact ih a b hab
      · rw [ha, hb]

/-- Without fill, `encode` ends the same way for two random sources. -/
theorem encode_nofill (fuel : Nat) (hc : HDRCHECK) (nFS2 : Int) (src data : List Nat)
    (rand rand' : Nat → Nat) (buf0 : Buf) :
    encode fuel hc nFS2 0 src data rand buf0 = encode fuel hc nFS2 0 src data rand' buf0 := by
  have key : ∀ s : EncState, s.state = 0 →
      encLoop hc.nBMPw (toSizeT hc.nStride) 0 rand fuel s =
        encLoop hc.nBMPw (toSizeT hc.nStride) 0 rand' fuel s := by
    intro s hs
    exact encLoop_nofill _ _ rand rand' fuel s s
      ⟨rfl, rfl, rfl, rfl, rfl, rfl, rfl, rfl, Or.inl hs⟩
  unfold encode
  simp only
  cases freadRow (toSizeT hc.nStride) src buf0 with
  | fault => rfl
  | short => rfl
  | ok buf rest =>
    simp only
    split
    · rfl
    · split
      · exact key _ rfl
      · split
        · rfl
        · split
          · rfl
          · rfl
          · exact key _ rfl

/-- C13. Fill mode none leaves the leftover pixels untouched. For a header accepted by
`validateheadere`, pixel data of exactly `height * stride` bytes and a payload `P` of at most
65535 bytes: if `encode` returns 0 with fill mode 0, then the three channel bytes of every
pixel with row-major index `k ≥ 2 + |P|` are the input bytes, and `encode` returns 0 with the
same output for every other random source. -/
theorem no_fill_untouched (p : BmpHeader) (i j : Int) (fuel : Nat) (nFS2 : Int)
    (src P : List Nat) (rand : Nat → Nat) (buf0 : Buf) (out : List Nat) (k : Nat)
    (hp : p.InRange) (hacc : (validateheadere p i j).nValid = HDR_CHECKE_PASS)
    (hP2 : P.length ≤ 65535)
    (hlen : src.length =
      (validateheadere p i j).nBMPh.toNat * toSizeT (validateheadere p i j).nStride)
    (henc : encode fuel (validateheadere p i j) nFS2 0 src P rand buf0
      = some (Outcome.ret 0 out))
    (hk : 2 + P.length ≤ k) :
    (∀ e, e < 3 →
      out.getD (pixelOffset (validateheadere p i j).nBMPw.toNat
          (toSizeT (validateheadere p i j).nStride) k + e) 0
        = src.getD (pixelOffset (validateheadere p i j).nBMPw.toNat
          (toSizeT (validateheadere p i j).nStride) k + e) 0) ∧
    ∀ rand' : Nat → Nat,
      encode fuel (validateheadere p i j) nFS2 0 src P rand' buf0 = some (Outcome.ret 0 out) := by
  obtain ⟨g1, g2, g3, g4, g5, g6, g7⟩ := acceptE_geometry p i j hp hacc
  have hcw : (validateheadere p i j).nBMPw = (p.biWidth.toNat : Int) := by
    rw [validateheadere_nBMPw, Int.toNat_of_nonneg (by omega)]
  have hch : (validateheadere p i j).nBMPh = ((abs32 p.biHeight).toNat : Int) := by
    rw [validateheadere_nBMPh, Int.toNat_of_nonneg (by omega)]
  obtain ⟨hgen, _⟩ := encode_gen (validateheadere p i j) p.biWidth.toNat
    (abs32 p.biHeight).toNat hcw hch (by omega) (by omega) (by omega) (by omega) fuel nFS2 0
    (Or.inl rfl) src P rand buf0 out henc
  refine ⟨?_, fun rand' => by rw [← encode_nofill fuel _ nFS2 src P rand rand' buf0]; exact henc⟩
  intro e he
  have hgeo : 3 * p.biWidth.toNat ≤ toSizeT (validateheadere p i j).nStride ∨
      2 + P.length ≤ p.biWidth.toNat := by
    rcases g7 with h | h
    · left
      rw [validateheadere_nStride, toSizeT_of_nonneg _ (by omega) g6]
      omega
    · right
      omega
  rw [validateheadere_nBMPh] at hlen
  rw [validateheadere_nBMPw]
  refine genOut_untouched src _ _ _ _ out (2 + P.length) k e hgen hlen (by omega) hgeo ?_ hk he
  intro q hq
  unfold planned
  rw [if_neg (by omega)]
  rfl

/-- Witness for C13: the 4 by 4 image `data4x4`, the payload `[0x41]` and no fill; the bytes
of pixel 3 (offsets 9, 10, 11) are unchanged. -/
theorem no_fill_untouched_witness :
    hdr4x4.InRange ∧ (validateheadere hdr4x4 102 1).nValid = HDR_CHECKE_PASS ∧
    [0x41].length ≤ 65535 ∧
    data4x4.length = (validateheadere hdr4x4 102 1).nBMPh.toNat *
      toSizeT (validateheadere hdr4x4 102 1).nStride ∧
    encode 14 (validateheadere hdr4x4 102 1) 1 0 data4x4 [0x41] (fun _ => 0) zeroBuf
      = some (Outcome.ret 0 out4x4) ∧
    out4x4.drop 9 = data4x4.drop 9 ∧
    ((∀ e, e < 3 →
      out4x4.getD (pixelOffset (validateheadere hdr4x4 102 1).nBMPw.toNat
          (toSizeT (validateheadere hdr4x4 102 1).nStride) 3 + e) 0
        = data4x4.getD (pixelOffset (validateheadere hdr4x4 102 1).nBMPw.toNat
          (toSizeT (validateheadere hdr4x4 102 1).nStride) 3 + e) 0) ∧
    ∀ rand' : Nat → Nat,
      encode 14 (validateheadere hdr4x4 102 1) 1 0 data4x4 [0x41] rand' zeroBuf
        = some (Outcome.ret 0 out4x4)) :=
  ⟨by decide, by decide!, by decide, by decide!, by decide!, by decide,
    no_fill_untouched hdr4x4 102 1 14 1 data4x4 [0x41] (fun _ => 0) zeroBuf out4x4 3
      (by decide) (by decide!) (by decide) (by decide!) (by decide!) (by decide)⟩

/-! ## Short image data -/

theorem encLoop_stop (w : Int) (n : Nat) (nRF : Int) (rand : Nat → Nat) (fuel : Nat)
    (s : EncState) (o : Outcome) (hh : s.hpels ≠ 0) (hb : encBody w n nRF rand s = Sum.inr o) :
    encLoop w n nRF rand (fuel + 1) s = some o := by
  simp only [encLoop, hh, if_false, hb]

/-- On a geometry whose rows fit the buffer, from a pixel of row `r` with fewer than
`H - 1 - r` rows left in the image stream, the loop of `encode` returns `-9`. -/
theorem encLoop_short (n W H : Nat) (nRF : Int) (rand : Nat → Nat) (hs : Sane W H n) :
    ∀ (rem r c : Nat) (s : EncState),
    s.hpels = (H : Int) - r → r < H → s.wpels = (W : Int) - c → c < W → s.pc = 3 * c →
    s.src.length < (H - 1 - r) * n → rem = (H - 1 - r) * W + (W - c) →
    ∃ out, ∀ fuel, rem ≤ fuel → encLoop W n nRF rand fuel s = some (Outcome.ret (-9) out) := by
  obtain ⟨hW1, hW, hH1, hH, hn3, hnB⟩ := hs
  intro rem
  induction rem with
  | zero =>
    intro r c s _ _ _ hc _ _ hrem
    omega
  | succ rem ih =>
    intro r c s hh hr hw hc hpc hsrc hrem
    have hne : ¬ s.hpels = 0 := by omega
    obtain ⟨e1, e2, e3, e4, e5, e6⟩ := encSwitch_frame nRF rand s
    have hrows : 1 ≤ H - 1 - r := by
      by_contra hcon
      have : H - 1 - r = 0 := by omega
      rw [this, Nat.zero_mul] at hsrc
      omega
    have hnf : ¬ ((encSwitch nRF rand s).state > -1 ∧ ¬ (s.pc + 2 < BUF_SIZE)) := by
      intro hcon
      exact hcon.2 (by omega)
    have hwp : wrap32 (s.wpels - 1) = (W : Int) - c - 1 := by
      rw [wrap32_pred _ (by omega) (by omega), hw]
    by_cases hlast : (W : Int) - c - 1 ≠ 0
    · -- next pixel of the same row
      obtain ⟨s1, hb, p1, p2, p3, p4⟩ : ∃ s1, encBody W n nRF rand s = Sum.inl s1 ∧
          s1.hpels = s.hpels ∧ s1.wpels = (W : Int) - c - 1 ∧ s1.pc = s.pc + 3 ∧
          s1.src = s.src := by
        refine ⟨{ encSwitch nRF rand s with
            buf := (if (encSwitch nRF rand s).state > -1 then
              packAt s.buf s.pc (encSwitch nRF rand s).dibyte else s.buf),
            wpels := (W : Int) - c - 1, pc := s.pc + 3 }, ?_, e2, rfl, rfl, e5⟩
        unfold encBody
        simp only [e1, e2, e3, e4, e5, e6, hnf, if_false, hwp, hlast, ne_eq, not_false_eq_true,
          if_true]
      obtain ⟨out, hout⟩ := ih r (c + 1) s1 (by rw [p1, hh]) hr
        (by rw [p2]; push_cast; ring) (by omega) (by rw [p3]; omega)
        (by rw [p4]; exact hsrc) (by omega)
      refine ⟨out, fun fuel hfuel => ?_⟩
      obtain ⟨f, rfl⟩ : ∃ f, fuel = f + 1 := ⟨fuel - 1, by omega⟩
      rw [encLoop_step W n nRF rand f s s1 hne hb]
      exact hout f (by omega)
    · -- last pixel of the row: the next row is read
      have hhp : wrap32 (s.hpels - 1) = (H : Int) - r - 1 := by
        rw [wrap32_pred _ (by omega) (by omega), hh]
      have hmore : (H : Int) - r - 1 ≠ 0 := by omega
      by_cases hrow : s.src.length < n
      · -- the read comes up short
        have hrd : ∀ buf, freadRow n s.src buf = ReadResult.short := by
          intro buf
          unfold freadRow
          rw [if_neg (by rw [Nat.min_eq_right (by omega)]; omega), if_pos hrow]
        obtain ⟨out, hb⟩ : ∃ out, encBody W n nRF rand s = Sum.inr (Outcome.ret (-9) out) := by
          refine ⟨s.out ++ rowBytes n (if (encSwitch nRF rand s).state > -1 then
              packAt s.buf s.pc (encSwitch nRF rand s).dibyte else s.buf), ?_⟩
          unfold encBody
          simp only [e1, e2, e3, e4, e5, e6, hnf, if_false, hwp, hlast, hhp, hmore, ne_eq,
            not_false_eq_true, if_true, hrd]
        refine ⟨out, fun fuel hfuel => ?_⟩
        obtain ⟨f, rfl⟩ : ∃ f, fuel = f + 1 := ⟨fuel - 1, by omega⟩
        exact encLoop_stop W n nRF rand f s _ hne hb
      · have hrd : ∀ buf, freadRow n s.src buf =
            ReadResult.ok (fun k => if k < n then s.src.getD k 0 else buf k) (s.src.drop n) :=
          fun buf => freadRow_ok n s.src buf (by omega) hnB
        obtain ⟨s1, hb, p1, p2, p3, p4⟩ : ∃ s1, encBody W n nRF rand s = Sum.inl s1 ∧
            s1.hpels = (H : Int) - r - 1 ∧ s1.wpels = (W : Int) ∧ s1.pc = 0 ∧
            s1.src = s.src.drop n := by
          refine ⟨{ encSwitch nRF rand s with
              buf := (fun k => if k < n then s.src.getD k 0 else
                (if (encSwitch nRF rand s).state > -1 then
                  packAt s.buf s.pc (encSwitch nRF rand s).dibyte else s.buf) k),
              src := s.src.drop n, wpels := W, hpels := (H : Int) - r - 1, pc := 0,
              out := s.out ++ rowBytes n
                (if (encSwitch nRF rand s).state > -1 then
                  packAt s.buf s.pc (encSwitch nRF rand s).dibyte else s.buf) }, ?_,
            rfl, rfl, rfl, rfl⟩
          unfold encBody
          simp only [e1, e2, e3, e4, e5, e6, hnf, if_false, hwp, hlast, hhp, hmore, ne_eq,
            not_false_eq_true, if_true, hrd]
        have hsub : (H - 1 - r) * n = (H - 1 - (r + 1)) * n + n := by
          have : H - 1 - r = (H - 1 - (r + 1)) + 1 := by omega
          rw [this, Nat.add_mul, Nat.one_mul]
        have hsubW : (H - 1 - r) * W = (H - 1 - (r + 1)) * W + W := by
          have : H - 1 - r = (H - 1 - (r + 1)) + 1 := by omega
          rw [this, Nat.add_mul, Nat.one_mul]
        obtain ⟨out, hout⟩ := ih (r + 1) 0 s1 (by rw [p1]; push_cast; ring) (by omega)
          (by rw [p2]; simp) (by omega) (by rw [p3])
          (by rw [p4, List.length_drop]; omega) (by omega)
        refine ⟨out, fun fuel hfuel => ?_⟩
        obtain ⟨f, rfl⟩ : ∃ f, fuel = f + 1 := ⟨fuel - 1, by omega⟩
        rw [encLoop_step W n nRF rand f s s1 hne hb]
        exact hout f (by omega)

theorem freadRow_short (n : Nat) (src : List Nat) (buf : Buf) (h1 : src.length < n)
    (h2 : src.length ≤ BUF_SIZE) : freadRow n src buf = ReadResult.short := by
  unfold freadRow
  rw [if_neg (by rw [Nat.min_eq_right (by omega)]; omega), if_pos h1]

/-- On a geometry of `W ≥ 1` by `H ≥ 1` pixels whose rows fit the buffer, with fewer than
`H * n` bytes in the image stream, `encode` returns the code of the read that came up short:
`-1` for the first row, `-4` for the second row of a 1-pixel-wide image, `-7` for the second
row of a 2-pixel-wide image or the third row of a 1-pixel-wide image, `-9` otherwise. -/
theorem encode_short (hc : HDRCHECK) (W H n : Nat) (hcw : hc.nBMPw = W) (hch : hc.nBMPh = H)
    (hcn : toSizeT hc.nStride = n) (hs : Sane W H n) (nFS2 nRF : Int) (src data : List Nat)
    (rand : Nat → Nat) (buf0 : Buf) (hshort : src.length < H * n) :
    ∃ out, ∀ fuel, W * H ≤ fuel →
      encode fuel hc nFS2 nRF src data rand buf0 = some (Outcome.ret
        (if src.length < n then -1
          else if W = 1 ∧ src.length < 2 * n then -4
          else if (W = 2 ∧ src.length < 2 * n) ∨ (W = 1 ∧ src.length < 3 * n) then -7
          else -9) out) := by
  have hs' := hs
  obtain ⟨hW1, hW, hH1, hH, hn3, hnB⟩ := hs
  have hw1 : wrap32 ((W : Int) - 1) = (W : Int) - 1 := wrap32_pred _ (by omega) (by omega)
  have hh1 : wrap32 ((H : Int) - 1) = (H : Int) - 1 := wrap32_pred _ (by omega) (by omega)
  have hHW : ∀ a, a + 1 ≤ H → a * W + W ≤ W * H := by
    intro a ha
    have : (a + 1) * W ≤ H * W := Nat.mul_le_mul_right W ha
    rw [Nat.add_mul, Nat.one_mul, Nat.mul_comm H W] at this
    exact this
  have hHn : ∀ a, a + 1 ≤ H → H * n = (H - 1 - a) * n + (a + 1) * n := by
    intro a ha
    rw [← Nat.add_mul]
    congr 1
    omega
  by_cases hA : src.length < n
  · refine ⟨[], fun fuel _ => ?_⟩
    rw [if_pos hA]
    unfold encode
    simp only [hcn, freadRow_short n src buf0 hA (by omega)]
  · rw [if_neg hA]
    have hrd := freadRow_ok n src buf0 (by omega) hnB
    by_cases hw2 : (W : Int) - 1 ≠ 0
    · -- at least two pixels per row
      have hne1 : ¬ (W = 1 ∧ src.length < 2 * n) := fun h => hw2 (by omega)
      have hw3 : wrap32 ((W : Int) - 1 - 1) = (W : Int) - 1 - 1 :=
        wrap32_pred _ (by omega) (by omega)
      rw [if_neg hne1]
      by_cases hw4 : (W : Int) - 1 - 1 ≠ 0
      · -- at least three pixels per row
        have hne2 : ¬ ((W = 2 ∧ src.length < 2 * n) ∨ (W = 1 ∧ src.length < 3 * n)) := by
          intro h; omega
        rw [if_neg hne2]
        obtain ⟨out, hout⟩ := encLoop_short n W H nRF rand hs' ((H - 1 - 0) * W + (W - 2)) 0 2
          { wpels := (W : Int) - 1 - 1, hpels := H, pc := 3 + 3,
            buf := packAt (packAt (fun k => if k < n then src.getD k 0 else buf0 k)
              0 ((nFS2 % 65536).toNat % 256)) 3 ((nFS2 % 65536).toNat / 256),
            src := src.drop n, data := data, state := 0, dibyte := 0, rnd := 0, out := [] }
          (by show (H : Int) = (H : Int) - ((0 : Nat) : Int); simp) (by omega)
          (by show (W : Int) - 1 - 1 = (W : Int) - ((2 : Nat) : Int); omega) (by omega) rfl
          (by show (src.drop n).length < (H - 1 - 0) * n
              rw [List.length_drop]
              have := hHn 0 (by omega)
              omega)
          rfl
        refine ⟨out, fun fuel hfuel => ?_⟩
        unfold encode
        simp only [hcw, hch, hcn, hrd, hw1, hw2, hw3, hw4, ne_eq, not_false_eq_true, if_true]
        apply hout
        have := hHW (H - 1 - 0) (by omega)
        omega
      · -- two pixels per row
        have hW2 : W = 2 := by omega
        have hH2 : 2 ≤ H := by
          by_contra hcon
          have : H = 1 := by omega
          rw [this, Nat.one_mul] at hshort
          omega
        have hh2 : ¬ ((H : Int) - 1 = 0) := by omega
        by_cases hB : src.length < 2 * n
        · rw [if_pos (Or.inl ⟨hW2, hB⟩)]
          refine ⟨[] ++ rowBytes n (packAt (packAt (fun k => if k < n then src.getD k 0 else buf0 k) 0 ((nFS2 % 65536).toNat % 256)) 3 ((nFS2 % 65536).toNat / 256)),
            fun fuel _ => ?_⟩
          unfold encode
          simp only [hcw, hch, hcn, hrd, hw1, hw2, hw3, hw4, hh1, hh2, ne_eq,
            not_false_eq_true, not_true_eq_false, if_true, if_false,
            freadRow_short n (src.drop n) _ (by rw [List.length_drop]; omega)
              (by rw [List.length_drop]; omega)]
        · have hne2 : ¬ ((W = 2 ∧ src.length < 2 * n) ∨ (W = 1 ∧ src.length < 3 * n)) := by
            intro h; omega
          rw [if_neg hne2]
          have hrd2 : ∀ buf, freadRow n (src.drop n) buf = ReadResult.ok
              (fun k => if k < n then (src.drop n).getD k 0 else buf k) ((src.drop n).drop n) :=
            fun buf => freadRow_ok n (src.drop n) buf (by rw [List.length_drop]; omega) hnB
          obtain ⟨out, hout⟩ := encLoop_short n W H nRF rand hs' ((H - 1 - 1) * W + (W - 0)) 1 0
            { wpels := (W : Int), hpels := (H : Int) - 1, pc := 0,
              buf := (fun k => if k < n then (src.drop n).getD k 0 else
                (packAt (packAt (fun k => if k < n then src.getD k 0 else buf0 k)
                  0 ((nFS2 % 65536).toNat % 256)) 3 ((nFS2 % 65536).toNat / 256)) k),
              src := (src.drop n).drop n, data := data, state := 0, dibyte := 0, rnd := 0,
              out := [] ++ rowBytes n
                (packAt (packAt (fun k => if k < n then src.getD k 0 else buf0 k)
                  0 ((nFS2 % 65536).toNat % 256)) 3 ((nFS2 % 65536).toNat / 256)) }
            (by show (H : Int) - 1 = (H : Int) - ((1 : Nat) : Int); simp) (by omega)
            (by show (W : Int) = (W : Int) - ((0 : Nat) : Int); simp) (by omega) rfl
            (by show ((src.drop n).drop n).length < (H - 1 - 1) * n
                rw [List.length_drop, List.length_drop]
                have := hHn 1 (by omega)
                omega)
            rfl
          refine ⟨out, fun fuel hfuel => ?_⟩
          unfold encode
          simp only [hcw, hch, hcn, hrd, hw1, hw2, hw3, hw4, hh1, hh2, ne_eq,
            not_false_eq_true, not_true_eq_false, if_true, if_false, hrd2]
          apply hout
          have := hHW (H - 1 - 1) (by omega)
          omega
    · -- one pixel per row
      have hW1' : W = 1 := by omega
      have hH2 : 2 ≤ H := by
        by_contra hcon
        have : H = 1 := by omega
        rw [this, Nat.one_mul] at hshort
        omega
      have hh2 : ¬ ((H : Int) - 1 = 0) := by omega
      by_cases hB : src.length < 2 * n
      · rw [if_pos ⟨hW1', hB⟩]
        refine ⟨rowBytes n (packAt (fun k => if k < n then src.getD k 0 else buf0 k) 0 ((nFS2 % 65536).toNat % 256)), fun fuel _ => ?_⟩
        unfold encode
        simp only [hcw, hch, hcn, hrd, hw1, hw2, hh1, hh2, ne_eq,
          not_false_eq_true, not_true_eq_false, if_true, if_false,
          freadRow_short n (src.drop n) _ (by rw [List.length_drop]; omega)
            (by rw [List.length_drop]; omega)]
      · rw [if_neg (fun h => hB h.2)]
        have hrd2 : ∀ buf, freadRow n (src.drop n) buf = ReadResult.ok
            (fun k => if k < n then (src.drop n).getD k 0 else buf k) ((src.drop n).drop n) :=
          fun buf => freadRow_ok n (src.drop n) buf (by rw [List.length_drop]; omega) hnB
        have hH3 : 3 ≤ H := by
          by_contra hcon
          have : H = 2 := by omega
          rw [this] at hshort
          omega
        have hw5 : wrap32 ((W : Int) - 1) = 0 := by rw [hw1]; omega
        have hh3 : wrap32 ((H : Int) - 1 - 1) = (H : Int) - 1 - 1 :=
          wrap32_pred _ (by omega) (by omega)
        have hh4 : ¬ ((H : Int) - 1 - 1 = 0) := by omega
        by_cases hC : src.length < 3 * n
        · rw [if_pos (Or.inr ⟨hW1', hC⟩)]
          refine ⟨rowBytes n (packAt (fun k => if k < n then src.getD k 0 else buf0 k) 0 ((nFS2 % 65536).toNat % 256)) ++ rowBytes n
            (packAt (fun k => if k < n then (src.drop n).getD k 0 else
              (packAt (fun k => if k < n then src.getD k 0 else buf0 k) 0 ((nFS2 % 65536).toNat % 256)) k) 0 ((nFS2 % 65536).toNat / 256)), fun fuel _ => ?_⟩
          unfold encode
          simp only [hcw, hch, hcn, hrd, hw1, hw2, hh1, hh2, ne_eq,
            not_false_eq_true, not_true_eq_false, if_true, if_false, hrd2, hw5, hh3, hh4,
            freadRow_short n ((src.drop n).drop n) _
              (by rw [List.length_drop, List.length_drop]; omega)
              (by rw [List.length_drop, List.length_drop]; omega)]
        · have hne2 : ¬ ((W = 2 ∧ src.length < 2 * n) ∨ (W = 1 ∧ src.length < 3 * n)) := by
            intro h; omega
          rw [if_neg hne2]
          have hrd3 : ∀ buf, freadRow n ((src.drop n).drop n) buf = ReadResult.ok
              (fun k => if k < n then ((src.drop n).drop n).getD k 0 else buf k)
              (((src.drop n).drop n).drop n) :=
            fun buf => freadRow_ok n ((src.drop n).drop n) buf
              (by rw [List.length_drop, List.length_drop]; omega) hnB
          obtain ⟨out, hout⟩ := encLoop_short n W H nRF rand hs' ((H - 1 - 2) * W + (W - 0)) 2 0
            { wpels := (W : Int), hpels := (H : Int) - 1 - 1, pc := 0,
              buf := (fun k => if k < n then ((src.drop n).drop n).getD k 0 else
                (packAt (fun k => if k < n then (src.drop n).getD k 0 else
                  (packAt (fun k => if k < n then src.getD k 0 else buf0 k)
                    0 ((nFS2 % 65536).toNat % 256)) k) 0 ((nFS2 % 65536).toNat / 256)) k),
              src := ((src.drop n).drop n).drop n, data := data, state := 0, dibyte := 0,
              rnd := 0,
              out := rowBytes n (packAt (fun k => if k < n then src.getD k 0 else buf0 k)
                    0 ((nFS2 % 65536).toNat % 256)) ++ rowBytes n
                (packAt (fun k => if k < n then (src.drop n).getD k 0 else
                  (packAt (fun k => if k < n then src.getD k 0 else buf0 k)
                    0 ((nFS2 % 65536).toNat % 256)) k) 0 ((nFS2 % 65536).toNat / 256)) }
            (by show (H : Int) - 1 - 1 = (H : Int) - ((2 : Nat) : Int); omega) (by omega)
            (by show (W : Int) = (W : Int) - ((0 : Nat) : Int); simp) (by omega) rfl
            (by show (((src.drop n).drop n).drop n).length < (H - 1 - 2) * n
                rw [List.length_drop, List.length_drop, List.length_drop]
                have := hHn 2 (by omega)
                omega)
            rfl
          refine ⟨out, fun fuel hfuel => ?_⟩
          unfold encode
          simp only [hcw, hch, hcn, hrd, hw1, hw2, hh1, hh2, ne_eq,
            not_false_eq_true, not_true_eq_false, if_true, if_false, hrd2, hw5, hh3, hh4, hrd3]
          apply hout
          have := hHW (H - 1 - 2) (by omega)
          omega

/-- C19 at a failing input, with the part of the claim that holds. With the geometry
`hcWide` that `validateheadere` computes for `hdrWide` (width `2^30 + 1`, height 4, stride 4),
an image stream of 8 bytes, fewer than `height * stride = 16`, and random fill, `encode`
returns no code: it accesses the scan-line buffer outside its `BUF_SIZE` bytes. On every
geometry of at least 1 by 1 pixels whose rows fit the buffer, `encode` returns the code of the
read that came up short (`-1`, `-4`, `-7` or `-9`), and on every geometry of at least 1 by 1
pixels it does not return 0 when the stream is short. -/
theorem short_data_overruns_wide_geometry :
    (validateheadere hdrWide 70 1 = hcWide ∧ 1 ≤ hcWide.nBMPw ∧ 1 ≤ hcWide.nBMPh ∧
      (dataShort.length : Int) < hcWide.nBMPh * hcWide.nStride ∧
      ∀ (rand : Nat → Nat) (buf0 : Buf), ∃ out,
        encode 2730 hcWide 1 1 dataShort [0x41] rand buf0 = some (Outcome.fault out)) ∧
    (∀ (hc : HDRCHECK) (W H n : Nat) (nFS2 nRF : Int) (src data : List Nat)
        (rand : Nat → Nat) (buf0 : Buf),
      hc.nBMPw = W → hc.nBMPh = H → toSizeT hc.nStride = n → Sane W H n →
      src.length < H * n →
      ∃ out, ∀ fuel, W * H ≤ fuel →
        encode fuel hc nFS2 nRF src data rand buf0 = some (Outcome.ret
          (if src.length < n then -1
            else if W = 1 ∧ src.length < 2 * n then -4
            else if (W = 2 ∧ src.length < 2 * n) ∨ (W = 1 ∧ src.length < 3 * n) then -7
            else -9) out)) ∧
    (∀ (hc : HDRCHECK) (W H : Nat) (fuel : Nat) (nFS2 nRF : Int) (src data : List Nat)
        (rand : Nat → Nat) (buf0 : Buf) (out : List Nat),
      hc.nBMPw = W → hc.nBMPh = H → 1 ≤ W → W < 2147483648 → 1 ≤ H → H < 2147483648 →
      (nRF = 0 ∨ nRF = 1 ∨ nRF = 2 ∨ nRF = 3) →
      src.length < H * toSizeT hc.nStride →
      encode fuel hc nFS2 nRF src data rand buf0 ≠ some (Outcome.ret 0 out)) := by
  refine ⟨⟨validate_hdrWide, by decide, by decide, by decide, ?_⟩, ?_, ?_⟩
  · intro rand buf0
    have hn : toSizeT hcWide.nStride = 4 := rfl
    have hrd := freadRow_dataWide buf0 dataShort (Or.inr (Or.inr (Or.inl rfl)))
    unfold encode
    simp only [hn, hrd]
    have hw1 : wrap32 (hcWide.nBMPw - 1) = 1073741824 := rfl
    have hw2 : wrap32 (1073741824 - 1) = 1073741823 := rfl
    simp only [hw1, hw2, ne_eq, OfNat.ofNat_ne_zero, not_false_eq_true, if_true]
    apply encLoop_overrun_fault _ _ _ _ (Or.inl rfl)
    · exact Or.inl rfl
    · show hcWide.nBMPh ≠ 0; decide
    · show (1 : Int) ≤ 1073741823; decide
    · show (1073741823 : Int) < 2147483648; decide
    · show (BUF_SIZE : Int) ≤ ((3 + 3 : Nat) : Int) + 3 * (1073741823 - 1) + 2; decide
    · decide
    · show BUF_SIZE + 1 ≤ 3 + 3 + 3 * 2730; decide
  · intro hc W H n nFS2 nRF src data rand buf0 hcw hch hcn hs hshort
    exact encode_short hc W H n hcw hch hcn hs nFS2 nRF src data rand buf0 hshort
  · intro hc W H fuel nFS2 nRF src data rand buf0 out hcw hch hW1 hW hH1 hH hRF hshort henc
    have := (encode_gen hc W H hcw hch hW1 hW hH1 hH fuel nFS2 nRF hRF src data rand buf0 out
      henc).2
    omega

/-! ## The encode branch of `main` -/

/-- The stride expression is not below the least `int`. -/
theorem strideOf_ge (w : Int) (b : Nat) : -2147483648 ≤ strideOf w b := by
  unfold strideOf
  have hr := (wrap32_range (wrap32 (w * (b : Int)) + 31)).1
  generalize wrap32 (wrap32 (w * (b : Int)) + 31) = x at hr
  cases x with
  | ofNat m =>
    have h0 : (0 : Int) ≤ Int.ofNat m := Int.ofNat_nonneg m
    rw [land_not31 _ h0, shiftRight_three _ (by omega)]
    omega
  | negSucc k =>
    have hk : k < 2 ^ 31 := by
      have : Int.negSucc k = -((k : Int) + 1) := Int.negSucc_eq k
      omega
    have hland : Int.land (Int.negSucc k) (~~~(31 : Int)) = Int.negSucc (k ||| 31) := rfl
    rw [hland]
    have hsh := Int.shiftRight_negSucc (k ||| 31) 3
    have hor : k ||| 31 < 2 ^ 31 := Nat.or_lt_two_pow hk (by decide)
    have hle : (k ||| 31) >>> 3 ≤ k ||| 31 := by
      rw [Nat.shiftRight_eq_div_pow]
      exact Nat.div_le_self _ _
    have hres : Int.negSucc (k ||| 31) >>> (3 : Int) = Int.negSucc ((k ||| 31) >>> 3) := hsh
    rw [hres, Int.negSucc_eq]
    omega

/-- The geometry facts of an accepted header need only the range of `biWidth`. -/
theorem acceptE_geometry_of_width (p : BmpHeader) (i j : Int) (hwr : p.biWidth < 2147483648)
    (hacc : (validateheadere p i j).nValid = HDR_CHECKE_PASS) :
    1 ≤ p.biWidth ∧ 1 ≤ abs32 p.biHeight ∧ abs32 p.biHeight < 2147483648 ∧
    strideOf p.biWidth p.biBitCount < 8192 := by
  obtain ⟨_, _, _, _, _, ⟨a6, a6'⟩, _, a8, _, _, _, _, ⟨_, a13⟩, _⟩ :=
    (validateheadere_accept_iff p i j).1 hacc
  have hhr := (wrap32_range (if p.biHeight < 0 then -p.biHeight else p.biHeight)).2
  exact ⟨by omega, by omega, hhr, a13⟩

/-- What a successful run of the encode branch of `main` says: the header was accepted,
`encode` returned 0, and the output file is the 54 header bytes followed by what `encode`
wrote. -/
theorem mainEncode_success (fuel : Nat) (bmp data : List Nat) (fill : Char)
    (rand : Nat → Nat) (buf0 : Buf) (status : Int) (file : List Nat)
    (h : mainEncode fuel bmp data fill rand buf0 = some (MainResult.exit status (some file))) :
    ∃ (nRF : Int) (out : List Nat),
      (nRF = 0 ∨ nRF = 1 ∨ nRF = 2 ∨ nRF = 3) ∧ status = 0 ∧
      1 ≤ wrap32 bmp.length ∧ (bmp.take 54).length = 54 ∧
      (validateheadere (parseHeader (bmp.take 54)) (wrap32 bmp.length)
        (wrap32 data.length)).nValid = HDR_CHECKE_PASS ∧
      encode fuel (validateheadere (parseHeader (bmp.take 54)) (wrap32 bmp.length)
        (wrap32 data.length)) (wrap32 data.length) nRF (bmp.drop 54) data rand buf0
        = some (Outcome.ret 0 out) ∧
      file = bmp.take 54 ++ out := by
  unfold mainEncode at h
  simp only [show sizeofFileHeader + sizeofInfoHeader = 54 from rfl] at h
  split at h
  · injection h with h; injection h with _ h; exact Option.noConfusion h
  · split at h
    · injection h with h; injection h with _ h; exact Option.noConfusion h
    · rename_i h1
      split at h
      · injection h with h; injection h with _ h; exact Option.noConfusion h
      · split at h
        · injection h with h; injection h with _ h; exact Option.noConfusion h
        · split at h
          · injection h with h; injection h with _ h; exact Option.noConfusion h
          · rename_i h54
            split at h
            · injection h with h; injection h with _ h; exact Option.noConfusion h
            · rename_i hacc
              split at h
              · exact Option.noConfusion h
              · injection h with h; exact MainResult.noConfusion h
              · rename_i e out henc
                split at h
                · injection h with h; injection h with _ h; exact Option.noConfusion h
                · rename_i he
                  injection h with h
                  injection h with hs hf
                  injection hf with hf
                  refine ⟨(if fill = 'r' then 1 else if fill = 'd' then 2 else if fill = 'l' then 3
                    else 0 : Int), out, ?_, hs.symm, by omega, by omega, by omega, ?_, hf.symm⟩
                  · by_cases c1 : fill = 'r'
                    · simp [c1]
                    · by_cases c2 : fill = 'd'
                      · simp [c1, c2]
                      · by_cases c3 : fill = 'l'
                        · simp [c1, c2, c3]
                        · simp [c1, c2, c3]
                  · have he0 : e = 0 := by omega
                    rw [he0] at henc
                    exact henc
/-- A negative `int` converted to `size_t` is at least `2^31`. -/
theorem toSizeT_neg (x : Int) (h1 : -2147483648 ≤ x) (h2 : x < 0) :
    2147483648 ≤ toSizeT x := by
  unfold toSizeT
  omega

/-- A length below `2^31` does not exceed `2^31` after the headers. -/
theorem small_not_big (L : Nat) (h : L < 2147483648) (h2 : 2147483648 ≤ L - 54) : False := by
  omega

/-- A pixel-data size `V` that fits the file of length `L < 2^31` after the 54 header bytes
and equals `L - 54` as an `int` is `L - 54`. -/
theorem out_length_arith (L V : Nat) (hsmall : L < 2147483648) (hlen : 54 ≤ L)
    (hrows : V ≤ L - 54) (a15 : wrap32 (V : Int) = wrap32 (wrap32 (L : Int) - 54)) :
    54 + V = L := by
  unfold wrap32 at a15
  omega

/-- When the encode branch of `main` succeeds, the output file begins with the 54 header
bytes of the input, its pixel data has `height * stride` bytes, and it has the length of the
input whenever that length fits an `int`. -/
theorem mainEncode_output (fuel : Nat) (bmp data : List Nat) (fill : Char)
    (rand : Nat → Nat) (buf0 : Buf) (status : Int) (file : List Nat)
    (h : mainEncode fuel bmp data fill rand buf0 = some (MainResult.exit status (some file))) :
    status = 0 ∧ file.take 54 = bmp.take 54 ∧
    (bmp.length < 2147483648 → file.length = bmp.length) := by
  obtain ⟨nRF, out, hRF, hst, h1, h54, hacc, henc, hfile⟩ :=
    mainEncode_success fuel bmp data fill rand buf0 status file h
  clear h
  refine ⟨hst, by rw [hfile]; exact List.take_left' h54, ?_⟩
  intro hsmall
  generalize hp : parseHeader (bmp.take 54) = p at hacc henc
  have hwr : p.biWidth < 2147483648 := by
    rw [← hp]
    exact (wrap32_range _).2
  obtain ⟨g1, g3, g4, g6⟩ := acceptE_geometry_of_width p _ _ hwr hacc
  have a15 := ((validateheadere_accept_iff p _ _).1 hacc).2.2.2.2.2.2.2.2.2.2.2.2.2.2.1
  have w0 : 0 ≤ p.biWidth := by clear hacc henc a15; omega
  have h0 : 0 ≤ abs32 p.biHeight := by clear hacc henc a15; omega
  have hcw : (validateheadere p (wrap32 bmp.length) (wrap32 data.length)).nBMPw
      = (p.biWidth.toNat : Int) := by
    rw [validateheadere_nBMPw, Int.toNat_of_nonneg w0]
  have hch : (validateheadere p (wrap32 bmp.length) (wrap32 data.length)).nBMPh
      = ((abs32 p.biHeight).toNat : Int) := by
    rw [validateheadere_nBMPh, Int.toNat_of_nonneg h0]
  have q1 : 1 ≤ p.biWidth.toNat := by clear hacc henc a15 hcw hch; omega
  have q2 : p.biWidth.toNat < 2147483648 := by clear hacc henc a15 hcw hch; omega
  have q3 : 1 ≤ (abs32 p.biHeight).toNat := by clear hacc henc a15 hcw hch; omega
  have q4 : (abs32 p.biHeight).toNat < 2147483648 := by clear hacc henc a15 hcw hch; omega
  obtain ⟨hgen, hrows⟩ := encode_gen (validateheadere p (wrap32 bmp.length) (wrap32 data.length))
    p.biWidth.toNat (abs32 p.biHeight).toNat hcw hch q1 q2 q3 q4 fuel (wrap32 data.length) nRF
    hRF (bmp.drop 54) data rand buf0 out henc
  have hout : out.length = (abs32 p.biHeight).toNat
      * toSizeT (validateheadere p (wrap32 bmp.length) (wrap32 data.length)).nStride := hgen.1
  clear hgen henc hacc hcw hch
  rw [validateheadere_nStride] at hout hrows
  have hlo := strideOf_ge p.biWidth p.biBitCount
  have hlen54 : 54 ≤ bmp.length := by
    rw [List.length_take] at h54
    omega
  rw [List.length_drop] at hrows
  have hnle : toSizeT (strideOf p.biWidth p.biBitCount)
      ≤ (abs32 p.biHeight).toNat * toSizeT (strideOf p.biWidth p.biBitCount) :=
    Nat.le_mul_of_pos_left _ q3
  have hs0 : 0 ≤ strideOf p.biWidth p.biBitCount := by
    by_contra hneg
    have hbig := toSizeT_neg _ hlo (lt_of_not_ge hneg)
    exact small_not_big _ hsmall (le_trans hbig (le_trans hnle hrows))
  have hnc : ((toSizeT (strideOf p.biWidth p.biBitCount) : Nat) : Int)
      = strideOf p.biWidth p.biBitCount := by
    rw [toSizeT_of_nonneg _ hs0 g6, Int.toNat_of_nonneg hs0]
  have hHc : (((abs32 p.biHeight).toNat : Nat) : Int) = abs32 p.biHeight :=
    Int.toNat_of_nonneg h0
  have hprod : abs32 p.biHeight * strideOf p.biWidth p.biBitCount
      = (((abs32 p.biHeight).toNat * toSizeT (strideOf p.biWidth p.biBitCount) : Nat) : Int) := by
    rw [Nat.cast_mul, hnc, hHc]
  rw [hprod] at a15
  rw [hfile, List.length_append, h54, hout]
  exact out_length_arith _ _ hsmall hlen54 hrows a15

/-- The length of `bmpHuge`. -/
theorem bmpHuge_length : bmpHuge.length = 4294967362 := by
  have h1 : bmpHead3x1.length = 54 := rfl
  have h2 : data3x1.length = 12 := rfl
  unfold bmpHuge
  simp only [List.length_append, List.length_replicate, h1, h2]

/-- The header read of `main` on `bmpHuge` yields the 54 bytes of `bmpHead3x1`. -/
theorem bmpHuge_take : bmpHuge.take (sizeofFileHeader + sizeofInfoHeader) = bmpHead3x1 := by
  unfold bmpHuge
  rw [List.append_assoc]
  exact List.take_left' rfl

/-- After the header read, the stream of `bmpHuge` is the row followed by the zero bytes. -/
theorem bmpHuge_drop : bmpHuge.drop (sizeofFileHeader + sizeofInfoHeader)
    = data3x1 ++ List.replicate 4294967296 0 := by
  unfold bmpHuge
  rw [List.append_assoc]
  exact List.drop_left' rfl

/-- The `int` that receives the size of `bmpHuge` holds 66. -/
theorem bmpHuge_size : wrap32 (bmpHuge.length : Int) = 66 := by
  rw [bmpHuge_length]
  decide

/-- The header bytes `bmpHead3x1` hold the header `hdr3x1`. -/
theorem parse_bmpHead3x1 : parseHeader bmpHead3x1 = hdr3x1 := by decide

/-- The header `hdr3x1` with a file size of 66 and one payload byte is accepted. -/
theorem validate_hdr3x1 : validateheadere hdr3x1 66 1 = hc3x1 := by decide!

/-- The function `encode` on the row `data3x1` with the payload `[0x41]` and no fill returns 0
and writes `out3x1`, whatever follows the row in the stream. -/
theorem encode_3x1 (junk : List Nat) (rand : Nat → Nat) (buf0 : Buf) :
    encode 1 hc3x1 1 0 (data3x1 ++ junk) [0x41] rand buf0 = some (Outcome.ret 0 out3x1) := by
  have h1 : freadRow 12 (data3x1 ++ junk) buf0 = ReadResult.ok
      (fun k => if k < 12 then (data3x1 ++ junk).getD k 0 else buf0 k)
      ((data3x1 ++ junk).drop 12) :=
    freadRow_ok 12 _ buf0 (by rw [List.length_append]; exact Nat.le_add_right 12 _)
      (by decide)
  have hr : List.range 12 = [0, 1, 2, 3, 4, 5, 6, 7, 8, 9, 10, 11] := by decide
  unfold encode
  simp only [show toSizeT hc3x1.nStride = 12 from rfl, h1]
  simp [encLoop, encBody, encSwitch, rowBytes, packAt, packBlue, packGreen, packRed, wrap32,
    data3x1, out3x1, hc3x1, hr, BUF_SIZE]
  decide

/-- The encode branch of `main` on a file whose size is stored as 66, whose first 54 bytes are
`bmpHead3x1` and whose stream continues with the row `data3x1`. -/
theorem mainEncode_3x1 (bmp junk : List Nat) (rand : Nat → Nat) (buf0 : Buf)
    (hsize : wrap32 (bmp.length : Int) = 66)
    (htake : bmp.take (sizeofFileHeader + sizeofInfoHeader) = bmpHead3x1)
    (hdrop : bmp.drop (sizeofFileHeader + sizeofInfoHeader) = data3x1 ++ junk) :
    mainEncode 1 bmp [0x41] 'n' rand buf0
      = some (MainResult.exit 0 (some (bmpHead3x1 ++ out3x1))) := by
  have hfill : ¬ (('n' : Char) ≠ 'r' ∧ ('n' : Char) ≠ 'n' ∧ ('n' : Char) ≠ 'd'
      ∧ ('n' : Char) ≠ 'l') := by decide
  have h2 : wrap32 (([0x41] : List Nat).length : Int) = 1 := rfl
  have ha : ¬ ((66 : Int) < 1) := by decide
  have hb : ¬ ((1 : Int) < 1) := by decide
  have hc : ¬ (wrap32 (66 * 1) = 0 ∨
      toSizeT 66 < sizeofFileHeader + sizeofInfoHeader + MIN_DATA ∨
      (1 : Int) > MAX_DATA_FILE) := by decide
  have hd : ¬ (bmpHead3x1.length ≠ sizeofFileHeader + sizeofInfoHeader) := by decide
  have he : ¬ (hc3x1.nValid ≠ HDR_CHECKE_PASS) := by decide
  have hn : (if ('n' : Char) = 'r' then (1 : Int) else if ('n' : Char) = 'd' then 2
      else if ('n' : Char) = 'l' then 3 else 0) = 0 := by decide
  unfold mainEncode
  rw [if_neg hfill]
  simp only [hsize, h2, htake, hdrop, parse_bmpHead3x1, validate_hdr3x1]
  rw [if_neg ha, if_neg hb, if_neg hc, if_neg hd, if_neg he, hn, encode_3x1]
  rfl

/-- The encode branch of `main` on `bmpHuge` leaves an output file of 66 bytes. -/
theorem mainEncode_bmpHuge (rand : Nat → Nat) (buf0 : Buf) :
    mainEncode 1 bmpHuge [0x41] 'n' rand buf0
      = some (MainResult.exit 0 (some (bmpHead3x1 ++ out3x1))) :=
  mainEncode_3x1 bmpHuge (List.replicate 4294967296 0) rand buf0 bmpHuge_size bmpHuge_take
    bmpHuge_drop

/-- C15 at a failing input, with the part of the claim that holds. The input `bmpHuge` is a
3 by 1 bitmap of 66 bytes followed by `2^32` further bytes, so `ftell` returns `2^32 + 66`
and the `int` that `main` stores it in holds 66: the header check passes, `encode` succeeds
and the run leaves an output file of 66 bytes, not of the length of the input. For every run
of the encode branch that leaves an output file, the exit status is 0, the first 54 bytes of
the output are those of the input, and the output has the length of the input whenever that
length is below `2^31`. -/
theorem output_length_differs_huge_input :
    (bmpHuge.length = 4294967362 ∧
      (∀ (rand : Nat → Nat) (buf0 : Buf),
        mainEncode 1 bmpHuge [0x41] 'n' rand buf0
          = some (MainResult.exit 0 (some (bmpHead3x1 ++ out3x1)))) ∧
      (bmpHead3x1 ++ out3x1).length = 66 ∧
      (bmpHead3x1 ++ out3x1).take 54 = bmpHuge.take 54) ∧
    (∀ (fuel : Nat) (bmp data : List Nat) (fill : Char) (rand : Nat → Nat) (buf0 : Buf)
        (status : Int) (file : List Nat),
      mainEncode fuel bmp data fill rand buf0 = some (MainResult.exit status (some file)) →
      status = 0 ∧ file.take 54 = bmp.take 54 ∧
      (bmp.length < 2147483648 → file.length = bmp.length)) := by
  refine ⟨⟨bmpHuge_length, mainEncode_bmpHuge, rfl, ?_⟩, ?_⟩
  · have h := bmpHuge_take
    simp only [show sizeofFileHeader + sizeofInfoHeader = 54 from rfl] at h
    rw [h]
    rfl
  · intro fuel bmp data fill rand buf0 status file h
    exact mainEncode_output fuel bmp data fill rand buf0 status file h

/-! ## Packing twice, and packing what a pixel carries -/

/-- Packing into the blue channel forgets the byte packed before. -/
theorem packBlue_packBlue (x c b : Nat) : packBlue (packBlue x c) b = packBlue x b := by
  show (packBlue x c &&& 0xf8) ||| (b &&& 0x7) = (x &&& 0xf8) ||| (b &&& 0x7)
  rw [packBlue_high]

/-- Packing into the green channel forgets the byte packed before. -/
theorem packGreen_packGreen (x c b : Nat) : packGreen (packGreen x c) b = packGreen x b := by
  show (packGreen x c &&& 0xfc) ||| ((b >>> 3) &&& 0x3) = (x &&& 0xfc) ||| ((b >>> 3) &&& 0x3)
  rw [packGreen_high]

/-- Packing into the red channel forgets the byte packed before. -/
theorem packRed_packRed (x c b : Nat) : packRed (packRed x c) b = packRed x b := by
  show (packRed x c &&& 0xf8) ||| ((b >>> 5) &&& 0x7) = (x &&& 0xf8) ||| ((b >>> 5) &&& 0x7)
  rw [packRed_high]

set_option maxRecDepth 100000 in
/-- The three fields of the byte rebuilt from three groups of low bits are those groups. -/
theorem unpack_fields_fin : ∀ (a : Fin 8) (e : Fin 4) (f : Fin 8),
    (((0 ||| a.val) ||| (e.val <<< 3)) ||| (f.val <<< 5)) &&& 0x7 = a.val ∧
    ((((0 ||| a.val) ||| (e.val <<< 3)) ||| (f.val <<< 5)) >>> 3) &&& 0x3 = e.val ∧
    ((((0 ||| a.val) ||| (e.val <<< 3)) ||| (f.val <<< 5)) >>> 5) &&& 0x7 = f.val := by
  decide

/-- The byte `decode` rebuilds from three channel bytes holds the low bits of each of them
in its three fields. -/
theorem unpackBytes_fields (blue green red : Nat) :
    unpackBytes blue green red &&& 0x7 = blue &&& 0x7 ∧
    (unpackBytes blue green red >>> 3) &&& 0x3 = green &&& 0x3 ∧
    (unpackBytes blue green red >>> 5) &&& 0x7 = red &&& 0x7 := by
  have ha : blue &&& 0x7 < 8 := Nat.lt_succ_of_le Nat.and_le_right
  have he : green &&& 0x3 < 4 := Nat.lt_succ_of_le Nat.and_le_right
  have hf : red &&& 0x7 < 8 := Nat.lt_succ_of_le Nat.and_le_right
  exact unpack_fields_fin ⟨blue &&& 0x7, ha⟩ ⟨green &&& 0x3, he⟩ ⟨red &&& 0x7, hf⟩

set_option maxRecDepth 100000 in
/-- A byte is its top five bits together with its low three bits. -/
theorem byte_join_f8 : ∀ x : Fin 256, (x.val &&& 0xf8) ||| (x.val &&& 0x7) = x.val := by
  decide

set_option maxRecDepth 100000 in
/-- A byte is its top six bits together with its low two bits. -/
theorem byte_join_fc : ∀ x : Fin 256, (x.val &&& 0xfc) ||| (x.val &&& 0x3) = x.val := by
  decide

/-- Packing into a pixel the byte it carries gives the pixel back, channel by channel. -/
theorem pack_unpackBytes (blue green red : Nat) (hb : blue < 256) (hg : green < 256)
    (hr : red < 256) :
    packBlue blue (unpackBytes blue green red) = blue ∧
    packGreen green (unpackBytes blue green red) = green ∧
    packRed red (unpackBytes blue green red) = red := by
  obtain ⟨f1, f2, f3⟩ := unpackBytes_fields blue green red
  unfold packBlue packGreen packRed
  rw [f1, f2, f3]
  exact ⟨byte_join_f8 ⟨blue, hb⟩, byte_join_fc ⟨green, hg⟩, byte_join_f8 ⟨red, hr⟩⟩

/-- C23. Packing overwrites without residue. For all `b`, `c` and every pixel,
`pack b (pack c px) = pack b px`, so that `pack b` is idempotent; and for every pixel whose
three channels are bytes, packing the byte the pixel carries gives the pixel back:
`pack (unpack px) px = px`. -/
theorem pack_overwrites (b c : Nat) (px : Pixel) :
    pack b (pack c px) = pack b px ∧
    pack b (pack b px) = pack b px ∧
    (px.blue < 256 → px.green < 256 → px.red < 256 → pack (unpack px) px = px) := by
  have key : ∀ d : Nat, pack b (pack d px) = pack b px := by
    intro d
    show Pixel.mk (packBlue (packBlue px.blue d) b) (packGreen (packGreen px.green d) b)
        (packRed (packRed px.red d) b)
      = Pixel.mk (packBlue px.blue b) (packGreen px.green b) (packRed px.red b)
    rw [packBlue_packBlue, packGreen_packGreen, packRed_packRed]
  refine ⟨key c, key b, ?_⟩
  intro hb hg hr
  obtain ⟨e1, e2, e3⟩ := pack_unpackBytes px.blue px.green px.red hb hg hr
  show Pixel.mk (packBlue px.blue (unpackBytes px.blue px.green px.red))
      (packGreen px.green (unpackBytes px.blue px.green px.red))
      (packRed px.red (unpackBytes px.blue px.green px.red)) = px
  rw [e1, e2, e3]

/-- Witness for C23 at the bytes `0x41`, `0x9c` and the pixel `(200, 100, 50)`. -/
theorem pack_overwrites_witness :
    (200 : Nat) < 256 ∧ (100 : Nat) < 256 ∧ (50 : Nat) < 256 ∧
    pack 0x41 (pack 0x9c ⟨200, 100, 50⟩) = pack 0x41 ⟨200, 100, 50⟩ ∧
    pack (unpack ⟨200, 100, 50⟩) ⟨200, 100, 50⟩ = (⟨200, 100, 50⟩ : Pixel) :=
  ⟨by decide, by decide, by decide, (pack_overwrites 0x41 0x9c ⟨200, 100, 50⟩).1,
    (pack_overwrites 0x41 0x9c ⟨200, 100, 50⟩).2.2 (by decide) (by decide) (by decide)⟩

/-! ## The decoder reads only the embedded bits -/

/-- For an accepted header whose width does not exceed 89478484, with a payload of 1 to
65535 bytes and pixel data of exactly `height * stride` bytes, `encode` returns 0 after
`width * height - 2` passes of its loop, for every fill mode: it has written `height` rows of
`stride` bytes, and every payload byte is carried by its pixel. -/
theorem encode_accepted_returns (p : BmpHeader) (i : Int) (P src : List Nat) (nRF : Int)
    (rand : Nat → Nat) (buf0 : Buf) (hp : p.InRange)
    (hacc : (validateheadere p i P.length).nValid = HDR_CHECKE_PASS)
    (hw : p.biWidth ≤ 89478484)
    (hP1 : 1 ≤ P.length) (hP2 : P.length ≤ 65535) (hPb : ∀ b ∈ P, b < 256)
    (hsrc : src.length = (validateheadere p i P.length).nBMPh.toNat *
      (validateheadere p i P.length).nStride.toNat) :
    ∃ out,
      (∀ extra, encode ((validateheadere p i P.length).nBMPw.toNat *
          (validateheadere p i P.length).nBMPh.toNat - 2 + extra)
          (validateheadere p i P.length) P.length nRF src P rand buf0
        = some (Outcome.ret 0 out)) ∧
      out.length = (validateheadere p i P.length).nBMPh.toNat *
        (validateheadere p i P.length).nStride.toNat ∧
      ∀ k, k < P.length →
        unpackPixel out (validateheadere p i P.length).nBMPw.toNat
          (validateheadere p i P.length).nStride.toNat (2 + k) = P.getD k 0 := by
  have hfit : 3 * (validateheadere p i P.length).nBMPw
      ≤ (validateheadere p i P.length).nStride := by
    rw [validateheadere_nBMPw, validateheadere_nStride]
    rcases (acceptE_geometry p i P.length hp hacc).2.2.2.2.2.2 with h | h
    · exact h
    · exact absurd hw (not_le.2 h)
  obtain ⟨g1, g2, g3, g4, g5, g6⟩ := accepted_sane p i P.length hp hacc hfit (by omega)
    (by omega)
  obtain ⟨out, henc, hlay⟩ := encode_layout (validateheadere p i P.length) _ _ _ g1 g2 g3 g4
    (by omega) P.length nRF src P rand buf0 hsrc
  have hdf : ((P.length : Int) % 65536).toNat = P.length := by omega
  rw [hdf] at hlay
  obtain ⟨hlen, hpix⟩ := hlay
  have hcap : P.length + 2 ≤ (validateheadere p i P.length).nBMPw.toNat *
      (validateheadere p i P.length).nBMPh.toNat := by omega
  rw [Nat.mul_comm] at hcap
  refine ⟨out, henc, hlen, ?_⟩
  intro k hk
  rw [hpix (2 + k) (by omega) (by omega), embedded_payload, map_mod_eq_self P hPb]

/-- With the geometry of `hdrWide`, pixel data of 16 bytes and random fill, `encode` never
returns a code. -/
theorem encode_wide_no_code (fuel : Nat) (rand : Nat → Nat) (buf0 : Buf) :
    encode fuel hcWide 1 1 dataWide [0x41] rand buf0 = none ∨
    ∃ out, encode fuel hcWide 1 1 dataWide [0x41] rand buf0 = some (Outcome.fault out) := by
  have hn : toSizeT hcWide.nStride = 4 := rfl
  have hrd := freadRow_dataWide buf0 dataWide (Or.inl rfl)
  unfold encode
  simp only [hn, hrd]
  have hw1 : wrap32 (hcWide.nBMPw - 1) = 1073741824 := rfl
  have hw2 : wrap32 (1073741824 - 1) = 1073741823 := rfl
  simp only [hw1, hw2, ne_eq, OfNat.ofNat_ne_zero, not_false_eq_true, if_true]
  apply encLoop_overrun _ _ _ _ (Or.inl rfl)
  · exact Or.inl rfl
  · show hcWide.nBMPh ≠ 0; decide
  · show (1 : Int) ≤ 1073741823; decide
  · show (1073741823 : Int) < 2147483648; decide
  · show (BUF_SIZE : Int) ≤ ((3 + 3 : Nat) : Int) + 3 * (1073741823 - 1) + 2; decide

/-- With the geometry of `hdrWide`, pixel data of 16 bytes and random fill, `encode` leaves
the scan-line buffer within 2730 passes of its loop. -/
theorem encode_wide_fault (rand : Nat → Nat) (buf0 : Buf) :
    ∃ out, encode 2730 hcWide 1 1 dataWide [0x41] rand buf0 = some (Outcome.fault out) := by
  have hn : toSizeT hcWide.nStride = 4 := rfl
  have hrd := freadRow_dataWide buf0 dataWide (Or.inl rfl)
  unfold encode
  simp only [hn, hrd]
  have hw1 : wrap32 (hcWide.nBMPw - 1) = 1073741824 := rfl
  have hw2 : wrap32 (1073741824 - 1) = 1073741823 := rfl
  simp only [hw1, hw2, ne_eq, OfNat.ofNat_ne_zero, not_false_eq_true, if_true]
  apply encLoop_overrun_fault _ _ _ _ (Or.inl rfl)
  · exact Or.inl rfl
  · show hcWide.nBMPh ≠ 0; decide
  · show (1 : Int) ≤ 1073741823; decide
  · show (1073741823 : Int) < 2147483648; decide
  · show (BUF_SIZE : Int) ≤ ((3 + 3 : Nat) : Int) + 3 * (1073741823 - 1) + 2; decide
  · decide
  · show BUF_SIZE + 1 ≤ 3 + 3 + 3 * 2730; decide

/-- C21 at a failing input, with the part of the claim that holds. The header `hdrWide`
(width `2^30 + 1`, height 4, file size 70) is accepted by `validateheadere` for a payload of
one byte, the pixel data `dataWide` has exactly `height * stride = 16` bytes, and with random
fill `encode` does not return 0: it accesses the scan-line buffer outside its `BUF_SIZE`
bytes within 2730 passes of its loop, and returns no code for any number of passes. For every
accepted header with fields in range whose width does not exceed 89478484, a payload of 1 to
65535 bytes and pixel data of exactly `height * stride` bytes, `encode` returns 0 for every
fill mode after `width * height - 2` passes, having written `height` rows of `stride` bytes in
which every payload byte is carried by its pixel. -/
theorem validated_encode_leaves_buffer :
    ((validateheadere hdrWide 70 1).nValid = HDR_CHECKE_PASS ∧
      validateheadere hdrWide 70 1 = hcWide ∧
      (dataWide.length : Int) = hcWide.nBMPh * hcWide.nStride ∧
      (∀ (rand : Nat → Nat) (buf0 : Buf), ∃ out,
        encode 2730 hcWide 1 1 dataWide [0x41] rand buf0 = some (Outcome.fault out)) ∧
      ∀ (fuel : Nat) (rand : Nat → Nat) (buf0 : Buf),
        encode fuel hcWide 1 1 dataWide [0x41] rand buf0 = none ∨
        ∃ out, encode fuel hcWide 1 1 dataWide [0x41] rand buf0
          = some (Outcome.fault out)) ∧
    (∀ (p : BmpHeader) (i : Int) (P src : List Nat) (nRF : Int) (rand : Nat → Nat)
        (buf0 : Buf),
      p.InRange → (validateheadere p i P.length).nValid = HDR_CHECKE_PASS →
      p.biWidth ≤ 89478484 → 1 ≤ P.length → P.length ≤ 65535 → (∀ b ∈ P, b < 256) →
      src.length = (validateheadere p i P.length).nBMPh.toNat *
        (validateheadere p i P.length).nStride.toNat →
      ∃ out,
        (∀ extra, encode ((validateheadere p i P.length).nBMPw.toNat *
            (validateheadere p i P.length).nBMPh.toNat - 2 + extra)
            (validateheadere p i P.length) P.length nRF src P rand buf0
          = some (Outcome.ret 0 out)) ∧
        out.length = (validateheadere p i P.length).nBMPh.toNat *
          (validateheadere p i P.length).nStride.toNat ∧
        ∀ k, k < P.length →
          unpackPixel out (validateheadere p i P.length).nBMPw.toNat
            (validateheadere p i P.length).nStride.toNat (2 + k) = P.getD k 0) := by
  refine ⟨⟨?_, validate_hdrWide, by decide, encode_wide_fault, encode_wide_no_code⟩, ?_⟩
  · rw [validate_hdrWide]
    rfl
  · intro p i P src nRF rand buf0 hp hacc hw hP1 hP2 hPb hsrc
    exact encode_accepted_returns p i P src nRF rand buf0 hp hacc hw hP1 hP2 hPb hsrc

/-! ## Acceptance for encoding implies acceptance for decoding -/

/-- The header `hdrTall` (width 3, height 715827883) with a file size of 58 is rejected by
both validators: `width * height` has the value `-2^31 + 1` in an `int`. -/
theorem validate_hdrTall :
    (validateheadere hdrTall 58 1).nValid = 15 ∧ (validateheaderd hdrTall 58).nValid = 14 := by
  decide!

/-- The library `abs` of a height other than the least `int` is its absolute value. -/
theorem abs32_eq_natAbs (h : Int) (h1 : -2147483648 < h) (h2 : h < 2147483648) :
    abs32 h = (h.natAbs : Int) := by
  unfold abs32 wrap32
  split <;> omega

/-- A product that is not below the least `int` does not grow when it is given its value
modulo `2^32`. -/
theorem wrap32_le_self (x : Int) (h : -2147483648 ≤ x) : wrap32 x ≤ x := by
  unfold wrap32
  omega

/-- When the payload exceeds `width * |height| - 2`, `validateheadere` does not accept. -/
theorem capacity_rejects (p : BmpHeader) (i j : Int) (hh : IsInt32 p.biHeight)
    (hcap : p.biWidth * (p.biHeight.natAbs : Int) - 2 < j) :
    (validateheadere p i j).nValid < HDR_CHECKE_PASS := by
  have hrej : ¬ (validateheadere p i j).nValid = 16 := by
    rw [validateheadere_accept_iff]
    intro hacc
    obtain ⟨_, _, _, _, _, ⟨a6, a6'⟩, _, _, _, _, _, _, _, _, _, a16⟩ := hacc
    obtain ⟨hh1, hh2⟩ := hh
    have hne : -2147483648 < p.biHeight := by
      by_contra hcon
      have he : p.biHeight = -2147483648 := by omega
      rw [he] at a6'
      exact absurd a6' (by decide)
    rw [abs32_eq_natAbs p.biHeight hne hh2] at a6' a16
    have hpos : 0 < p.biWidth * (p.biHeight.natAbs : Int) := Int.mul_pos a6 a6'
    have hle := wrap32_le_self (p.biWidth * (p.biHeight.natAbs : Int)) (by omega)
    omega
  exact lt_of_le_of_ne (validateheadere_nValid_le p i j) hrej

/-- The header read by `main` has a height in the range of an `int`. -/
theorem parseHeader_height (bs : List Nat) : IsInt32 (parseHeader bs).biHeight :=
  wrap32_range _

/-- When the payload exceeds `width * |height| - 2`, the encode branch of `main` exits with
status `-1` and leaves no output file. -/
theorem mainEncode_capacity (fuel : Nat) (bmp data : List Nat) (fill : Char)
    (rand : Nat → Nat) (buf0 : Buf)
    (hcap : (parseHeader (bmp.take 54)).biWidth
      * ((parseHeader (bmp.take 54)).biHeight.natAbs : Int) - 2 < wrap32 (data.length : Int)) :
    mainEncode fuel bmp data fill rand buf0 = some (MainResult.exit (-1) none) := by
  have hrej : (validateheadere (parseHeader (bmp.take 54)) (wrap32 (bmp.length : Int))
      (wrap32 (data.length : Int))).nValid ≠ HDR_CHECKE_PASS :=
    ne_of_lt (capacity_rejects _ _ _ (parseHeader_height _) hcap)
  unfold mainEncode
  simp only [show sizeofFileHeader + sizeofInfoHeader = 54 from rfl, hrej, ne_eq,
    not_false_eq_true, if_true]
  split
  · rfl
  · split
    · rfl
    · split
      · rfl
      · split
        · rfl
        · split <;> rfl

/-- C7 at a failing input, with the part of the claim that holds. For the header `hdrNeg`
(width -3, height 715827883) and a payload of one byte, `width * |height| - 2` is below the
payload size, yet `validateheadere` sets flag bit 32768: the product overflows the `int` to
`2^31 - 1`. The header is rejected all the same. For every header whose height is an `int`
and every `i` and `j` with `width * |height| - 2 < j`, `validateheadere` does not accept
(`nValid < 16`), and the encode branch of `main` exits with status `-1` leaving no output
file; flag bit 32768 is clear whenever the height is not the least `int` and
`width * |height|` is not below the least `int`, in particular for every width `≥ 0`. -/
theorem capacity_bit_set_negative_width :
    (hdrNeg.biWidth * (hdrNeg.biHeight.natAbs : Int) - 2 < 1 ∧
      (validateheadere hdrNeg 102 1).dwFlags &&& 32768 = 32768 ∧
      (validateheadere hdrNeg 102 1).nValid = 14) ∧
    (∀ (p : BmpHeader) (i j : Int), IsInt32 p.biHeight →
      p.biWidth * (p.biHeight.natAbs : Int) - 2 < j →
      (validateheadere p i j).nValid < HDR_CHECKE_PASS) ∧
    (∀ (p : BmpHeader) (i j : Int), IsInt32 p.biHeight → p.biHeight ≠ -2147483648 →
      -2147483648 ≤ p.biWidth * (p.biHeight.natAbs : Int) →
      p.biWidth * (p.biHeight.natAbs : Int) - 2 < j →
      (validateheadere p i j).dwFlags &&& 32768 = 0) ∧
    (∀ (fuel : Nat) (bmp data : List Nat) (fill : Char) (rand : Nat → Nat) (buf0 : Buf),
      (parseHeader (bmp.take 54)).biWidth
        * ((parseHeader (bmp.take 54)).biHeight.natAbs : Int) - 2
        < wrap32 (data.length : Int) →
      mainEncode fuel bmp data fill rand buf0 = some (MainResult.exit (-1) none)) := by
  refine ⟨⟨by decide, by decide!, by decide!⟩, ?_, ?_, ?_⟩
  · intro p i j hh hcap
    exact capacity_rejects p i j hh hcap
  · intro p i j hh hne hlo hcap
    apply capacity_bit_clear
    rw [abs32_eq_natAbs p.biHeight (by have := hh.1; omega) hh.2]
    have hle := wrap32_le_self _ hlo
    simp only [FILE_SIZE_PIXELS]
    omega
  · intro fuel bmp data fill rand buf0 hcap
    exact mainEncode_capacity fuel bmp data fill rand buf0 hcap

/-- Instance for C7: a 4 by 4 image holds 14 bytes, so a payload of 15 bytes is refused with
flag bit 32768 clear. -/
theorem capacity_bit_set_negative_width_witness :
    IsInt32 hdr4x4.biHeight ∧ hdr4x4.biHeight ≠ -2147483648 ∧
    -2147483648 ≤ hdr4x4.biWidth * (hdr4x4.biHeight.natAbs : Int) ∧
    hdr4x4.biWidth * (hdr4x4.biHeight.natAbs : Int) - 2 < 15 ∧
    (validateheadere hdr4x4 102 15).nValid < HDR_CHECKE_PASS ∧
    (validateheadere hdr4x4 102 15).dwFlags &&& 32768 = 0 :=
  ⟨by decide, by decide, by decide, by decide,
    capacity_bit_set_negative_width.2.1 hdr4x4 102 15 (by decide) (by decide),
    capacity_bit_set_negative_width.2.2.1 hdr4x4 102 15 (by decide) (by decide) (by decide)
      (by decide)⟩

/-! ## The capacity test of `decode` on accepted headers -/

/-- On the geometry of `hdrWide` with 16 bytes of pixel data, `decode` returns `-4`: the
product `width * height` has the value 4 in an `int`, and the first pixel carries 255. -/
theorem decode_wide_capacity (fuel : Nat) (buf0 : Buf) :
    decode fuel (validateheaderd hdrWide 70) dataWide buf0 = some (Outcome.ret (-4) []) := by
  rw [validate_hdrWide_d, decode_eq_decHead]
  have hn : toSizeT ({ hcWide with nValid := 15, dwFlags := 32767 } : HDRCHECK).nStride = 4 :=
    rfl
  have hrd := freadRow_dataWide buf0 dataWide (Or.inl rfl)
  have hw1 : wrap32 (({ hcWide with nValid := 15, dwFlags := 32767 } : HDRCHECK).nBMPw - 1)
      = 1073741824 := rfl
  have hcap : wrap32 (({ hcWide with nValid := 15, dwFlags := 32767 } : HDRCHECK).nBMPw
      * ({ hcWide with nValid := 15, dwFlags := 32767 } : HDRCHECK).nBMPh) - FILE_SIZE_PIXELS
      = 2 := by decide
  have hc0 : unpackAt (fun k => if k < 4 then dataWide.getD k 0 else buf0 k) 0 = 255 := by
    simp [unpackAt, unpackBytes, dataWide]
    decide
  unfold decHead
  simp only [hn, hrd, hw1, ne_eq, OfNat.ofNat_ne_zero, not_false_eq_true, if_true, hcap, hc0]
  rw [if_pos (by push_cast; omega)]

/-- For a header accepted by `validateheaderd` whose width is at least 1 and at most
89478484, with `height * stride` bytes of pixel data, fewer than `2^31`: `decode` returns `-4`
having written nothing when the length `L` carried by the first two pixels exceeds
`width * height - 2`, and does not return `-4` otherwise. -/
theorem decode_capacity_sane (p : BmpHeader) (i : Int) (src : List Nat) (buf0 : Buf)
    (hp : p.InRange) (hacc : (validateheaderd p i).nValid = HDR_CHECKD_PASS)
    (hsrc : (src.length : Int) = (validateheaderd p i).nBMPh * (validateheaderd p i).nStride)
    (hw1 : 1 ≤ p.biWidth) (hw2 : p.biWidth ≤ 89478484) (hshort : src.length < 2147483648) :
    lengthOf src (validateheaderd p i).nBMPw.toNat (validateheaderd p i).nStride.toNat < 65536 ∧
    ((validateheaderd p i).nBMPw * (validateheaderd p i).nBMPh - 2
        < (lengthOf src (validateheaderd p i).nBMPw.toNat
            (validateheaderd p i).nStride.toNat : Int) →
      ∀ fuel, decode fuel (validateheaderd p i) src buf0 = some (Outcome.ret (-4) [])) ∧
    ((validateheaderd p i).nBMPw * (validateheaderd p i).nBMPh - 2
        ≥ (lengthOf src (validateheaderd p i).nBMPw.toNat
            (validateheaderd p i).nStride.toNat : Int) →
      ∀ fuel out, decode fuel (validateheaderd p i) src buf0
        ≠ some (Outcome.ret (-4) out)) := by
  obtain ⟨hh1, hh2⟩ := acceptD_height_pos p i hp hacc
  have hA := (validateheaderd_accept_iff p i).1 hacc
  have a6 := hA.2.2.2.2.2.1
  have a8 := hA.2.2.2.2.2.2.2.1
  have a13 := hA.2.2.2.2.2.2.2.2.2.2.2.2.1.2
  clear hA
  have hfit : 3 * p.biWidth ≤ strideOf p.biWidth p.biBitCount := by
    rw [a8, strideOf_24 p.biWidth (by omega) hw2]
    omega
  rw [validateheaderd_nBMPh, validateheaderd_nStride] at hsrc
  have hs0 : 0 ≤ strideOf p.biWidth p.biBitCount := by omega
  have hone : p.biWidth = 1 → 2 ≤ abs32 p.biHeight := by
    intro h1
    rw [h1, Int.one_mul] at a6
    unfold wrap32 at a6
    omega
  obtain ⟨s, hs, hlt, hsane⟩ := decHead_reached (validateheaderd p i) src buf0
    (by rw [validateheaderd_nBMPw]; exact ⟨by omega, by omega⟩)
    (by rw [validateheaderd_nBMPh]; exact hh1) (by rw [validateheaderd_nBMPh]; exact hh2)
    (by rw [validateheaderd_nStride]; exact hs0) (by rw [validateheaderd_nStride]; exact a13)
    (by rw [validateheaderd_nBMPh, validateheaderd_nStride]; exact hsrc)
    (by rw [validateheaderd_nBMPw, validateheaderd_nBMPh]; exact hone)
  have hL := hsane (by rw [validateheaderd_nBMPw]; exact hw1)
    (by rw [validateheaderd_nBMPw, validateheaderd_nStride]; exact hfit)
  have hexact : wrap32 ((validateheaderd p i).nBMPw * (validateheaderd p i).nBMPh)
      - FILE_SIZE_PIXELS
      = (validateheaderd p i).nBMPw * (validateheaderd p i).nBMPh - 2 := by
    rw [validateheaderd_nBMPw, validateheaderd_nBMPh]
    have hm1 : 1 * abs32 p.biHeight ≤ p.biWidth * abs32 p.biHeight :=
      Int.mul_le_mul_of_nonneg_right hw1 (by omega)
    have hm2 : abs32 p.biHeight * (3 * p.biWidth) ≤
        abs32 p.biHeight * strideOf p.biWidth p.biBitCount :=
      Int.mul_le_mul_of_nonneg_left hfit (by omega)
    have hm3 : abs32 p.biHeight * (3 * p.biWidth) = 3 * (p.biWidth * abs32 p.biHeight) := by
      ring
    clear a6 hone
    generalize p.biWidth * abs32 p.biHeight = m at *
    simp only [FILE_SIZE_PIXELS]
    unfold wrap32
    omega
  rw [← hL]
  refine ⟨hlt, ?_, ?_⟩
  · intro hcap fuel
    rw [decode_eq_decHead, hs]
    simp only [hexact, hcap, if_true]
  · intro hcap fuel out hres
    rw [decode_eq_decHead, hs] at hres
    have hn : ¬ (validateheaderd p i).nBMPw * (validateheaderd p i).nBMPh - 2
        < (s.dfsw : Int) := not_lt.2 hcap
    simp only [hexact, hn, if_false] at hres
    have := decLoop_code _ _ _ _ _ _ hres
    omega

/-- C11 at a failing input, with the part of the claim that holds. The header `hdrWide`
(width `2^30 + 1`, height 4, file size 70) is accepted by `validateheaderd` and `dataWide`
holds its `height * stride = 16` bytes of pixel data. The capacity `width * height - 2` is
`2^32 + 2`, above every 16-bit length, yet `decode` returns `-4`: the product has the value 4
in an `int`. For every accepted header with fields in range whose width is at least 1 and at
most 89478484, with `height * stride` bytes of pixel data, fewer than `2^31`: the length `L`
carried by the first two pixels is below `2^16`; if `width * height - 2 < L`, `decode`
returns `-4` having written nothing; and if `width * height - 2 ≥ L`, it does not return
`-4`. -/
theorem decode_capacity_fails_wide_header :
    ((validateheaderd hdrWide 70).nValid = HDR_CHECKD_PASS ∧
      (dataWide.length : Int)
        = (validateheaderd hdrWide 70).nBMPh * (validateheaderd hdrWide 70).nStride ∧
      (validateheaderd hdrWide 70).nBMPw * (validateheaderd hdrWide 70).nBMPh - 2
        = 4294967298 ∧
      ∀ (fuel : Nat) (buf0 : Buf),
        decode fuel (validateheaderd hdrWide 70) dataWide buf0
          = some (Outcome.ret (-4) [])) ∧
    (∀ (p : BmpHeader) (i : Int) (src : List Nat) (buf0 : Buf),
      p.InRange → (validateheaderd p i).nValid = HDR_CHECKD_PASS →
      (src.length : Int) = (validateheaderd p i).nBMPh * (validateheaderd p i).nStride →
      1 ≤ p.biWidth → p.biWidth ≤ 89478484 → src.length < 2147483648 →
      lengthOf src (validateheaderd p i).nBMPw.toNat (validateheaderd p i).nStride.toNat
        < 65536 ∧
      ((validateheaderd p i).nBMPw * (validateheaderd p i).nBMPh - 2
          < (lengthOf src (validateheaderd p i).nBMPw.toNat
              (validateheaderd p i).nStride.toNat : Int) →
        ∀ fuel, decode fuel (validateheaderd p i) src buf0 = some (Outcome.ret (-4) [])) ∧
      ((validateheaderd p i).nBMPw * (validateheaderd p i).nBMPh - 2
          ≥ (lengthOf src (validateheaderd p i).nBMPw.toNat
              (validateheaderd p i).nStride.toNat : Int) →
        ∀ fuel out, decode fuel (validateheaderd p i) src buf0
          ≠ some (Outcome.ret (-4) out))) := by
  refine ⟨⟨?_, ?_, ?_, decode_wide_capacity⟩, ?_⟩
  · rw [validate_hdrWide_d]
    rfl
  · rw [validate_hdrWide_d]
    decide
  · rw [validate_hdrWide_d]
    decide
  · intro p i src buf0 hp hacc hsrc hw1 hw2 hshort
    exact decode_capacity_sane p i src buf0 hp hacc hsrc hw1 hw2 hshort

/-- Instance for C11: the 4 by 4 image `data4x4`, whose first two pixels carry the length
39587, above the capacity of 14 bytes, so that `decode` returns `-4`. -/
theorem decode_capacity_fails_wide_header_witness :
    hdr4x4.InRange ∧ (validateheaderd hdr4x4 102).nValid = HDR_CHECKD_PASS ∧
    (data4x4.length : Int)
      = (validateheaderd hdr4x4 102).nBMPh * (validateheaderd hdr4x4 102).nStride ∧
    (1 : Int) ≤ hdr4x4.biWidth ∧ hdr4x4.biWidth ≤ 89478484 ∧ data4x4.length < 2147483648 ∧
    lengthOf data4x4 4 12 = 39587 ∧
    (validateheaderd hdr4x4 102).nBMPw * (validateheaderd hdr4x4 102).nBMPh - 2
      < (lengthOf data4x4 (validateheaderd hdr4x4 102).nBMPw.toNat
          (validateheaderd hdr4x4 102).nStride.toNat : Int) ∧
    decode 0 (validateheaderd hdr4x4 102) data4x4 zeroBuf = some (Outcome.ret (-4) []) :=
  ⟨by decide, by decide!, by decide!, by decide, by decide, by decide, by decide!, by decide!,
    (decode_capacity_fails_wide_header.2 hdr4x4 102 data4x4 zeroBuf (by decide) (by decide!)
      (by decide!) (by decide) (by decide) (by decide)).2.1 (by decide!) 0⟩

/-! ## The acceptance conditions in the integers -/

/-- For a 24-bit row whose bit count fits an `int`, the stride the program computes is the
stride in the integers. -/
theorem strideOf_eq_strideZ (w : Int) (h1 : 0 ≤ w) (h2 : w ≤ 89478484) :
    strideOf w 24 = strideZ w 24 := by
  rw [strideOf_24 w h1 h2]
  unfold strideZ
  push_cast
  omega

/-- A product with a factor `≤ 0` and a factor `≥ 0` is not positive. -/
theorem mul_nonpos_of_width (w a : Int) (hw : w ≤ 0) (ha : 0 ≤ a) : w * a ≤ 0 := by
  have h := Int.mul_le_mul_of_nonneg_right hw ha
  rw [Int.zero_mul] at h
  exact h

/-- When nothing overflows, the `int` expressions of the validators have their values in the
integers. -/
theorem validator_arith (p : BmpHeader) (i : Int) (hw0 : 0 < p.biWidth)
    (hw1 : p.biWidth ≤ 89478484) (hb : p.biBitCount = 24) (hh : IsInt32 p.biHeight)
    (hne : p.biHeight ≠ -2147483648)
    (hS : IsInt32 ((p.biHeight.natAbs : Int) * strideZ p.biWidth p.biBitCount))
    (hP : IsInt32 (p.biWidth * (p.biHeight.natAbs : Int)))
    (hi0 : 0 ≤ i) (hi1 : i < 2147483648) :
    abs32 p.biHeight = (p.biHeight.natAbs : Int) ∧
    strideOf p.biWidth p.biBitCount = strideZ p.biWidth p.biBitCount ∧
    wrap32 (strideOf p.biWidth p.biBitCount - wrap32 (p.biWidth * 3))
      = strideZ p.biWidth p.biBitCount - 3 * p.biWidth ∧
    wrap32 (abs32 p.biHeight * strideOf p.biWidth p.biBitCount)
      = (p.biHeight.natAbs : Int) * strideZ p.biWidth p.biBitCount ∧
    wrap32 (i - 54) = i - 54 ∧
    wrap32 (p.biWidth * abs32 p.biHeight) = p.biWidth * (p.biHeight.natAbs : Int) := by
  obtain ⟨hh1, hh2⟩ := hh
  have e1 : abs32 p.biHeight = (p.biHeight.natAbs : Int) :=
    abs32_eq_natAbs p.biHeight (by omega) hh2
  have e2 : strideOf p.biWidth p.biBitCount = strideZ p.biWidth p.biBitCount := by
    rw [hb]
    exact strideOf_eq_strideZ p.biWidth (by omega) hw1
  have e3 : wrap32 (strideZ p.biWidth p.biBitCount - wrap32 (p.biWidth * 3))
      = strideZ p.biWidth p.biBitCount - 3 * p.biWidth := by
    rw [hb]
    unfold strideZ wrap32
    push_cast
    omega
  have e4 : wrap32 ((p.biHeight.natAbs : Int) * strideZ p.biWidth p.biBitCount)
      = (p.biHeight.natAbs : Int) * strideZ p.biWidth p.biBitCount := by
    obtain ⟨s1, s2⟩ := hS
    generalize (p.biHeight.natAbs : Int) * strideZ p.biWidth p.biBitCount = m at s1 s2 ⊢
    unfold wrap32
    omega
  have e5 : wrap32 (i - 54) = i - 54 := by
    unfold wrap32
    omega
  have e6 : wrap32 (p.biWidth * (p.biHeight.natAbs : Int))
      = p.biWidth * (p.biHeight.natAbs : Int) := by
    obtain ⟨s1, s2⟩ := hP
    generalize p.biWidth * (p.biHeight.natAbs : Int) = m at s1 s2 ⊢
    unfold wrap32
    omega
  refine ⟨e1, e2, ?_, ?_, e5, ?_⟩
  · rw [e2, e3]
  · rw [e1, e2, e4]
  · rw [e1, e6]

/-- The geometry conditions in the integers leave no room for an overflow. -/
theorem acceptZ_good (p : BmpHeader) (i : Int) (hh : IsInt32 p.biHeight) (hi1 : i < 2147483648)
    (hw0 : 0 < p.biWidth) (hh0 : 0 < (p.biHeight.natAbs : Int))
    (a13 : strideZ p.biWidth p.biBitCount < 8192)
    (a14 : strideZ p.biWidth p.biBitCount - 3 * p.biWidth ≥ 0)
    (a15 : (p.biHeight.natAbs : Int) * strideZ p.biWidth p.biBitCount = i - 54) :
    p.biWidth ≤ 89478484 ∧ p.biHeight ≠ -2147483648 ∧
    IsInt32 ((p.biHeight.natAbs : Int) * strideZ p.biWidth p.biBitCount) ∧
    IsInt32 (p.biWidth * (p.biHeight.natAbs : Int)) ∧ 54 ≤ i := by
  have hS3 : 3 ≤ strideZ p.biWidth p.biBitCount := by omega
  have hpos : 0 ≤ (p.biHeight.natAbs : Int) * strideZ p.biWidth p.biBitCount :=
    Int.mul_nonneg (by omega) (by omega)
  have hle1 : (p.biHeight.natAbs : Int) * 1
      ≤ (p.biHeight.natAbs : Int) * strideZ p.biWidth p.biBitCount :=
    Int.mul_le_mul_of_nonneg_left (by omega) (by omega)
  have hle2 : p.biWidth * (p.biHeight.natAbs : Int)
      ≤ strideZ p.biWidth p.biBitCount * (p.biHeight.natAbs : Int) :=
    Int.mul_le_mul_of_nonneg_right (by omega) (by omega)
  rw [Int.mul_comm (strideZ p.biWidth p.biBitCount)] at hle2
  have hpp : 0 < p.biWidth * (p.biHeight.natAbs : Int) := Int.mul_pos hw0 hh0
  obtain ⟨hh1, hh2⟩ := hh
  generalize (p.biHeight.natAbs : Int) * strideZ p.biWidth p.biBitCount = m at *
  generalize p.biWidth * (p.biHeight.natAbs : Int) = q at *
  refine ⟨by omega, ?_, ⟨by omega, by omega⟩, ⟨by omega, by omega⟩, by omega⟩
  intro he
  rw [he] at hle1
  have : ((-2147483648 : Int).natAbs : Int) = 2147483648 := by decide
  rw [this] at hle1
  omega

/-- The sixteen conditions in the integers imply those the program tests. -/
theorem passE_of_acceptE (p : BmpHeader) (i j : Int) (hh : IsInt32 p.biHeight)
    (hi0 : 0 ≤ i) (hi1 : i < 2147483648) (h : AcceptE p i j) : PassE p i j := by
  obtain ⟨a1, a2, a3, a4, a5, ⟨a6, a6'⟩, a7, a8, a9, a10, a11, a12, ⟨a13, a13'⟩, a14, a15, a16⟩
    := h
  obtain ⟨g1, g2, g3, g4, g5⟩ := acceptZ_good p i hh hi1 a6 a6' a13' a14 a15
  obtain ⟨e1, e2, e3, e4, e5, e6⟩ := validator_arith p i a6 g1 a8 hh g2 g3 g4 hi0 hi1
  refine ⟨a1, a2, a3, a4, a5, ⟨a6, ?_⟩, a7, a8, a9, ?_, a11, a12, ⟨?_, ?_⟩, ?_, ?_, ?_⟩
  · rw [e1]; exact a6'
  · rcases a10 with h0 | h1
    · exact Or.inl h0
    · right
      rw [e5, h1]
      unfold toU32
      omega
  · rw [e2]; exact a13
  · rw [e2]; exact a13'
  · rw [e3]; exact a14
  · rw [e4, e5]; exact a15
  · rw [e6]; exact a16

/-- When nothing overflows, the sixteen conditions the program tests imply those in the
integers. -/
theorem acceptE_of_passE (p : BmpHeader) (i j : Int) (hh : IsInt32 p.biHeight)
    (hi0 : 0 ≤ i) (hi1 : i < 2147483648) (hno : NoOverflow p) (h : PassE p i j) :
    AcceptE p i j := by
  obtain ⟨a1, a2, a3, a4, a5, ⟨a6, a6'⟩, a7, a8, a9, a10, a11, a12, ⟨a13, a13'⟩, a14, a15, a16⟩
    := h
  obtain ⟨n1, n2, _, n4, n5⟩ := hno
  have hw1 : p.biWidth ≤ 89478484 := by
    rw [a8] at n1
    obtain ⟨_, n1'⟩ := n1
    push_cast at n1'
    omega
  obtain ⟨e1, e2, e3, e4, e5, e6⟩ := validator_arith p i a6 hw1 a8 hh n2 n4 n5 hi0 hi1
  rw [e1] at a6'
  rw [e2] at a13 a13'
  rw [e3] at a14
  rw [e4, e5] at a15
  rw [e6] at a16
  have hpos : 0 ≤ (p.biHeight.natAbs : Int) * strideZ p.biWidth p.biBitCount :=
    Int.mul_nonneg (by omega) (by omega)
  refine ⟨a1, a2, a3, a4, a5, ⟨a6, a6'⟩, a7, a8, a9, ?_, a11, a12, ⟨a13, a13'⟩, a14, a15, a16⟩
  rcases a10 with h0 | h1
  · exact Or.inl h0
  · right
    rw [e5] at h1
    rw [h1]
    unfold toU32
    omega

/-- The fifteen conditions in the integers imply those the program tests. -/
theorem passD_of_acceptD (p : BmpHeader) (i : Int) (hh : IsInt32 p.biHeight)
    (hi0 : 0 ≤ i) (hi1 : i < 2147483648) (h : AcceptD p i) : PassD p i := by
  obtain ⟨a1, a2, a3, a4, a5, a6, a7, a8, a9, a10, a11, a12, ⟨a13, a13'⟩, a14, a15⟩ := h
  have hw0 : 0 < p.biWidth := by
    by_contra hcon
    have := mul_nonpos_of_width p.biWidth (p.biHeight.natAbs : Int) (by omega) (by omega)
    omega
  have hh0 : 0 < (p.biHeight.natAbs : Int) := by
    by_contra hcon
    have hz : (p.biHeight.natAbs : Int) = 0 := by omega
    rw [hz, Int.mul_zero] at a6
    omega
  obtain ⟨g1, g2, g3, g4, g5⟩ := acceptZ_good p i hh hi1 hw0 hh0 a13' a14 a15
  obtain ⟨e1, e2, e3, e4, e5, e6⟩ := validator_arith p i hw0 g1 a8 hh g2 g3 g4 hi0 hi1
  refine ⟨a1, a2, a3, a4, a5, ?_, a7, a8, a9, ?_, a11, a12, ⟨?_, ?_⟩, ?_, ?_⟩
  · rw [e6]; exact a6
  · rcases a10 with h0 | h1
    · exact Or.inl h0
    · right
      rw [e5, h1]
      unfold toU32
      omega
  · rw [e2]; exact a13
  · rw [e2]; exact a13'
  · rw [e3]; exact a14
  · rw [e4, e5]; exact a15

/-- When nothing overflows, the fifteen conditions the program tests imply those in the
integers. -/
theorem acceptD_of_passD (p : BmpHeader) (i : Int) (hh : IsInt32 p.biHeight)
    (hi0 : 0 ≤ i) (hi1 : i < 2147483648) (hno : NoOverflow p) (h : PassD p i) :
    AcceptD p i := by
  obtain ⟨a1, a2, a3, a4, a5, a6, a7, a8, a9, a10, a11, a12, ⟨a13, a13'⟩, a14, a15⟩ := h
  obtain ⟨n1, n2, _, n4, n5⟩ := hno
  have hw1 : p.biWidth ≤ 89478484 := by
    rw [a8] at n1
    obtain ⟨_, n1'⟩ := n1
    push_cast at n1'
    omega
  have e1 : abs32 p.biHeight = (p.biHeight.natAbs : Int) :=
    abs32_eq_natAbs p.biHeight (by have := hh.1; omega) hh.2
  have e6 : wrap32 (p.biWidth * (p.biHeight.natAbs : Int))
      = p.biWidth * (p.biHeight.natAbs : Int) := by
    obtain ⟨s1, s2⟩ := n5
    generalize p.biWidth * (p.biHeight.natAbs : Int) = m at s1 s2 ⊢
    unfold wrap32
    omega
  rw [e1, e6] at a6
  have hw0 : 0 < p.biWidth := by
    by_contra hcon
    have := mul_nonpos_of_width p.biWidth (p.biHeight.natAbs : Int) (by omega) (by omega)
    omega
  obtain ⟨_, e2, e3, e4, e5, _⟩ := validator_arith p i hw0 hw1 a8 hh n2 n4 n5 hi0 hi1
  rw [e2] at a13 a13'
  rw [e3] at a14
  rw [e4, e5] at a15
  have hpos : 0 ≤ (p.biHeight.natAbs : Int) * strideZ p.biWidth p.biBitCount :=
    Int.mul_nonneg (by omega) (by omega)
  refine ⟨a1, a2, a3, a4, a5, a6, a7, a8, a9, ?_, a11, a12, ⟨a13, a13'⟩, a14, a15⟩
  rcases a10 with h0 | h1
  · exact Or.inl h0
  · right
    rw [e5] at h1
    rw [h1]
    unfold toU32
    omega

/-- C6 at a failing input, with the part of the claim that holds. The header `hdrWide`
(width `2^30 + 1`, height 4) with a file size of 70 is accepted by `validateheadere` for a
payload of one byte and by `validateheaderd`, yet the conditions of the specification do not
hold for it: its stride is not below 8192 and `|height| * stride` is not `i - 54`. For every
header whose height is an `int` and every file size `0 ≤ i < 2^31`: the sixteen conditions,
read in the integers, imply that `validateheadere` returns `nValid = 16`, and they are
equivalent to it when none of the `int` expressions of the validator overflows; likewise for
`validateheaderd`, `nValid = 15` and the fifteen conditions. In both validators `nValid = 16`
(respectively 15) holds exactly when `dwFlags` is `0xFFFF` (respectively `0x7FFF`), and
`nValid` is the number of set bits of `dwFlags`. -/
theorem acceptance_differs_wide_header :
    ((validateheadere hdrWide 70 1).nValid = HDR_CHECKE_PASS ∧ ¬ AcceptE hdrWide 70 1 ∧
      (validateheaderd hdrWide 70).nValid = HDR_CHECKD_PASS ∧ ¬ AcceptD hdrWide 70) ∧
    (∀ (p : BmpHeader) (i j : Int), IsInt32 p.biHeight → 0 ≤ i → i < 2147483648 →
      (AcceptE p i j → (validateheadere p i j).nValid = HDR_CHECKE_PASS) ∧
      (NoOverflow p → ((validateheadere p i j).nValid = HDR_CHECKE_PASS ↔ AcceptE p i j)) ∧
      (AcceptD p i → (validateheaderd p i).nValid = HDR_CHECKD_PASS) ∧
      (NoOverflow p → ((validateheaderd p i).nValid = HDR_CHECKD_PASS ↔ AcceptD p i))) ∧
    (∀ (p : BmpHeader) (i j : Int),
      ((validateheadere p i j).nValid = HDR_CHECKE_PASS ↔
        (validateheadere p i j).dwFlags = 0xFFFF) ∧
      (validateheadere p i j).nValid = popcount (validateheadere p i j).dwFlags ∧
      ((validateheaderd p i).nValid = HDR_CHECKD_PASS ↔
        (validateheaderd p i).dwFlags = 0x7FFF) ∧
      (validateheaderd p i).nValid = popcount (validateheaderd p i).dwFlags) := by
  refine ⟨⟨?_, ?_, ?_, ?_⟩, ?_, validator_flags⟩
  · rw [validate_hdrWide]
    rfl
  · unfold AcceptE
    decide
  · rw [validate_hdrWide_d]
    rfl
  · unfold AcceptD
    decide
  · intro p i j hh hi0 hi1
    refine ⟨?_, ?_, ?_, ?_⟩
    · intro h
      exact (validateheadere_accept_iff p i j).2 (passE_of_acceptE p i j hh hi0 hi1 h)
    · intro hno
      constructor
      · intro h
        exact acceptE_of_passE p i j hh hi0 hi1 hno ((validateheadere_accept_iff p i j).1 h)
      · intro h
        exact (validateheadere_accept_iff p i j).2 (passE_of_acceptE p i j hh hi0 hi1 h)
    · intro h
      exact (validateheaderd_accept_iff p i).2 (passD_of_acceptD p i hh hi0 hi1 h)
    · intro hno
      constructor
      · intro h
        exact acceptD_of_passD p i hh hi0 hi1 hno ((validateheaderd_accept_iff p i).1 h)
      · intro h
        exact (validateheaderd_accept_iff p i).2 (passD_of_acceptD p i hh hi0 hi1 h)

/-- Instance for C6: for the 4 by 4 header `hdr4x4` with a file of 102 bytes and a payload of
one byte nothing overflows, the sixteen conditions hold and `validateheadere` accepts. -/
theorem acceptance_differs_wide_header_witness :
    IsInt32 hdr4x4.biHeight ∧ (0 : Int) ≤ 102 ∧ (102 : Int) < 2147483648 ∧
    NoOverflow hdr4x4 ∧ AcceptE hdr4x4 102 1 ∧ AcceptD hdr4x4 102 ∧
    (validateheadere hdr4x4 102 1).nValid = HDR_CHECKE_PASS ∧
    (validateheaderd hdr4x4 102).nValid = HDR_CHECKD_PASS :=
  ⟨by decide, by decide, by decide, by unfold NoOverflow; decide, by unfold AcceptE; decide,
    by unfold AcceptD; decide,
    ((acceptance_differs_wide_header.2.1 hdr4x4 102 1 (by decide) (by decide)
      (by decide)).2.1 (by unfold NoOverflow; decide)).2 (by unfold AcceptE; decide),
    ((acceptance_differs_wide_header.2.1 hdr4x4 102 1 (by decide) (by decide)
      (by decide)).2.2.2 (by unfold NoOverflow; decide)).2 (by unfold AcceptD; decide)⟩

end Bmpsteg
